import Mathlib

/-!
# API gateway: circuit breaker, load balancer and the breaker pipeline

A shallow embedding of `api-gateway/middleware/circuit_breaker.go`,
`api-gateway/middleware/load_balancer.go` and of the part of
`api-gateway/proxy/handler.go` that the breaker middleware observes.

Conventions of the embedding

* A method with a pointer receiver becomes a function that takes the receiver
  and returns the updated receiver (next to the Go results, when there are any).
* `time.Now()` is an explicit argument `now`.
* `uint32` and `uint64` are naturals; every increment is reduced modulo the
  width of the type, as Go does.
* The mutex of a breaker serialises its methods; one call of a method is one
  atomic step of the model.
-/

namespace Gateway

/-! ## Machine integers and time -/

/-- Reduction of a natural to the range of `uint32`. -/
def u32 (n : Nat) : Nat := n % 4294967296

/-- Reduction of a natural to the range of `uint64`. -/
def u64 (n : Nat) : Nat := n % 18446744073709551616

/-- Instants (`time.Time`), counted in nanoseconds from the zero value of the type. -/
abbrev Time := Int

/-- Durations (`time.Duration`), in nanoseconds. -/
abbrev Duration := Int

/-- The zero value of `time.Time` (`var zero time.Time`). -/
def zeroTime : Time := 0

/-- Go `t.IsZero()`. -/
def IsZero (t : Time) : Bool := decide (t = zeroTime)

/-- Go `t.Before(u)`: strictly earlier. -/
def Before (t u : Time) : Bool := decide (t < u)

/-- Go `t.Add(d)`. -/
def Add (t : Time) (d : Duration) : Time := t + d

/-- One second, `time.Second`. -/
def Second : Duration := 1000000000

/-- One minute, `time.Minute`. -/
def Minute : Duration := 60 * Second

/-! ## Circuit breaker (`middleware/circuit_breaker.go`) -/

/-- The three states of a breaker, in the order of the Go `iota` block. -/
inductive State where
  | StateClosed
  | StateHalfOpen
  | StateOpen
  deriving DecidableEq, Repr

/-- Go `State.String`. -/
def State.String : State → String
  | .StateClosed => "CLOSED"
  | .StateHalfOpen => "HALF_OPEN"
  | .StateOpen => "OPEN"

/-- The five `uint32` counters of a breaker. -/
structure Counts where
  Requests : Nat
  TotalSuccesses : Nat
  TotalFailures : Nat
  ConsecutiveSuccesses : Nat
  ConsecutiveFailures : Nat
  deriving DecidableEq, Repr

/-- Go `Counts.OnRequest`. -/
def Counts.OnRequest (c : Counts) : Counts :=
  { c with Requests := u32 (c.Requests + 1) }

/-- Go `Counts.OnSuccess`. -/
def Counts.OnSuccess (c : Counts) : Counts :=
  { c with
    TotalSuccesses := u32 (c.TotalSuccesses + 1)
    ConsecutiveSuccesses := u32 (c.ConsecutiveSuccesses + 1)
    ConsecutiveFailures := 0 }

/-- Go `Counts.OnFailure`. -/
def Counts.OnFailure (c : Counts) : Counts :=
  { c with
    TotalFailures := u32 (c.TotalFailures + 1)
    ConsecutiveFailures := u32 (c.ConsecutiveFailures + 1)
    ConsecutiveSuccesses := 0 }

/-- Go `Counts.Clear`. -/
def Counts.Clear (_c : Counts) : Counts :=
  { Requests := 0, TotalSuccesses := 0, TotalFailures := 0,
    ConsecutiveSuccesses := 0, ConsecutiveFailures := 0 }

/-- Go `CircuitBreakerSettings`.  A nil `ReadyToTrip` is `none`.  The
`OnStateChange` callback runs inside `setState`, while the breaker mutex is held,
so a callback that returns cannot have changed a field of the breaker; the model
takes it to write a line to standard output and return, and leaves it out, as it
leaves out the `Printf` of `setState`. -/
structure CircuitBreakerSettings where
  Name : String
  MaxRequests : Nat
  Interval : Duration
  Timeout : Duration
  ReadyToTrip : Option (Counts → Bool)

/-- Go `CircuitBreaker` (the mutex and the output-only callback left out). -/
structure CircuitBreaker where
  name : String
  maxRequests : Nat
  interval : Duration
  timeout : Duration
  readyToTrip : Counts → Bool
  state : State
  generation : Nat
  counts : Counts
  expiry : Time

/-- The trip predicate installed by `NewCircuitBreaker` when the settings carry none. -/
def defaultReadyToTrip (counts : Counts) : Bool :=
  decide (counts.ConsecutiveFailures > 5)

/-- Go `NewCircuitBreaker`, called at time `now`. -/
def NewCircuitBreaker (settings : CircuitBreakerSettings) (now : Time) : CircuitBreaker :=
  { name := settings.Name
    maxRequests := settings.MaxRequests
    interval := settings.Interval
    timeout := settings.Timeout
    readyToTrip :=
      match settings.ReadyToTrip with
      | some f => f
      | none => defaultReadyToTrip
    state := .StateClosed
    generation := 0
    counts := { Requests := 0, TotalSuccesses := 0, TotalFailures := 0,
                ConsecutiveSuccesses := 0, ConsecutiveFailures := 0 }
    expiry := Add now settings.Interval }

/-- Go `CircuitBreaker.toNewGeneration`. -/
def CircuitBreaker.toNewGeneration (cb : CircuitBreaker) (now : Time) : CircuitBreaker :=
  let cb1 := { cb with generation := u64 (cb.generation + 1), counts := cb.counts.Clear }
  match cb1.state with
  | .StateClosed =>
    if cb1.interval = 0 then { cb1 with expiry := zeroTime }
    else { cb1 with expiry := Add now cb1.interval }
  | .StateOpen => { cb1 with expiry := Add now cb1.timeout }
  | .StateHalfOpen => { cb1 with expiry := zeroTime }

/-- Go `CircuitBreaker.setState`. -/
def CircuitBreaker.setState (cb : CircuitBreaker) (state : State) (now : Time) :
    CircuitBreaker :=
  if cb.state = state then cb
  else ({ cb with state := state } : CircuitBreaker).toNewGeneration now

/-- Go `CircuitBreaker.currentState`: the refreshed breaker, and the pair
`(cb.state, cb.generation)` the Go function returns. -/
def CircuitBreaker.currentState (cb : CircuitBreaker) (now : Time) :
    CircuitBreaker × State × Nat :=
  let cb1 :=
    match cb.state with
    | .StateClosed =>
      if (!IsZero cb.expiry && Before cb.expiry now) = true then cb.toNewGeneration now
      else cb
    | .StateOpen =>
      if Before cb.expiry now = true then cb.setState .StateHalfOpen now
      else cb
    | .StateHalfOpen => cb
  (cb1, cb1.state, cb1.generation)

/-- The two errors `beforeRequest` can return. -/
inductive BreakerError where
  | isOpen
  | tooManyRequests
  deriving DecidableEq, Repr

/-- The text of the error, as built by `fmt.Errorf`. -/
def BreakerError.Error : BreakerError → String
  | .isOpen => "circuit breaker is open"
  | .tooManyRequests => "circuit breaker is half-open, too many requests"

/-- Go `CircuitBreaker.beforeRequest` at time `now`: the updated breaker, the
generation and the error (`none` is Go's nil). -/
def CircuitBreaker.beforeRequest (cb : CircuitBreaker) (now : Time) :
    CircuitBreaker × Nat × Option BreakerError :=
  let (cb1, state, generation) := cb.currentState now
  if state = .StateOpen then (cb1, generation, some .isOpen)
  else if state = .StateHalfOpen ∧ cb1.counts.Requests ≥ cb1.maxRequests then
    (cb1, generation, some .tooManyRequests)
  else ({ cb1 with counts := cb1.counts.OnRequest }, generation, none)

/-- Go `CircuitBreaker.onSuccess`. -/
def CircuitBreaker.onSuccess (cb : CircuitBreaker) (state : State) (now : Time) :
    CircuitBreaker :=
  let cb1 := { cb with counts := cb.counts.OnSuccess }
  if state = .StateHalfOpen ∧ cb1.counts.ConsecutiveSuccesses ≥ cb1.maxRequests then
    cb1.setState .StateClosed now
  else cb1

/-- Go `CircuitBreaker.onFailure`. -/
def CircuitBreaker.onFailure (cb : CircuitBreaker) (_state : State) (now : Time) :
    CircuitBreaker :=
  let cb1 := { cb with counts := cb.counts.OnFailure }
  if cb1.readyToTrip cb1.counts = true then cb1.setState .StateOpen now
  else cb1

/-- Go `CircuitBreaker.afterRequest` at time `now`. -/
def CircuitBreaker.afterRequest (cb : CircuitBreaker) (now : Time) (before : Nat)
    (success : Bool) : CircuitBreaker :=
  let (cb1, state, generation) := cb.currentState now
  if generation ≠ before then cb1
  else if success = true then cb1.onSuccess state now
  else cb1.onFailure state now

/-- Go `CircuitBreaker.State` at time `now`: the refreshed breaker and the state. -/
def CircuitBreaker.State (cb : CircuitBreaker) (now : Time) :
    CircuitBreaker × Gateway.State :=
  let (cb1, state, _) := cb.currentState now
  (cb1, state)

/-- Go `CircuitBreaker.Counts`. -/
def CircuitBreaker.Counts (cb : CircuitBreaker) : Gateway.Counts := cb.counts

/-- How a call of the request function passed to `Execute` ends: it returns a
nil error, it returns an error, or it panics. -/
inductive ReqOutcome where
  | ok
  | failed
  | panicked
  deriving DecidableEq, Repr

/-- What `Execute` hands back: the error of `beforeRequest` (the request
function was not run), or the way the request function ended (its panic is
raised again after the deferred `afterRequest`). -/
inductive ExecuteResult where
  | rejected (e : BreakerError)
  | ran (r : ReqOutcome)
  deriving DecidableEq, Repr

/-- Go `CircuitBreaker.Execute`.  The request function acts on a world `σ`
(everything outside the breaker); `t1` is the clock read by `beforeRequest`,
`t2` the clock read by `afterRequest` once the request function has ended. -/
def CircuitBreaker.Execute {σ : Type} (cb : CircuitBreaker) (t1 t2 : Time)
    (req : σ → ReqOutcome × σ) (w : σ) : CircuitBreaker × σ × ExecuteResult :=
  match cb.beforeRequest t1 with
  | (cb1, _, some err) => (cb1, w, .rejected err)
  | (cb1, generation, none) =>
    match req w with
    | (.panicked, w1) => (cb1.afterRequest t2 generation false, w1, .ran .panicked)
    | (.failed, w1) => (cb1.afterRequest t2 generation false, w1, .ran .failed)
    | (.ok, w1) => (cb1.afterRequest t2 generation true, w1, .ran .ok)

/-! ## Load balancers (`middleware/load_balancer.go`) -/

/-- Reduction of an integer to the range of `int32` (two's complement). -/
def i32 (x : Int) : Int := (x + 2147483648) % 4294967296 - 2147483648

/-- Reduction of an integer to the range of Go `int` on a 64-bit platform. -/
def i64 (x : Int) : Int :=
  (x + 9223372036854775808) % 18446744073709551616 - 9223372036854775808

/-- Go `RoundRobinLB` (the mutex left out); `current` is a `uint64`. -/
structure RoundRobinLB where
  backends : List String
  healthyBackends : List String
  current : Nat
  deriving DecidableEq, Repr

/-- Go `NewRoundRobinLB`: `make([]string, len(backends))` is a slice of
`len(backends)` empty strings. -/
def NewRoundRobinLB (backends : List String) : RoundRobinLB :=
  { backends := backends
    healthyBackends := List.replicate backends.length ""
    current := 0 }

/-- Go `RoundRobinLB.NextBackend`.  `atomic.AddUint64(&lb.current, 1)` yields the new
value `next`; the index is `(next-1) % len` in `uint64` arithmetic. -/
def RoundRobinLB.NextBackend (lb : RoundRobinLB) : RoundRobinLB × String :=
  if lb.healthyBackends.length = 0 then
    if lb.backends.length = 0 then (lb, "")
    else
      let next := u64 (lb.current + 1)
      ({ lb with current := next },
        lb.backends.getD (u64 (next + 18446744073709551615) % lb.backends.length) "")
  else
    let next := u64 (lb.current + 1)
    ({ lb with current := next },
      lb.healthyBackends.getD
        (u64 (next + 18446744073709551615) % lb.healthyBackends.length) "")

/-- Go `RoundRobinLB.MarkBackendDown`. -/
def RoundRobinLB.MarkBackendDown (lb : RoundRobinLB) (backend : String) : RoundRobinLB :=
  { lb with healthyBackends := lb.healthyBackends.filter (fun b => b != backend) }

/-- Go `RoundRobinLB.MarkBackendUp`: nothing when the backend is already in the healthy
list; appended when it is one of the configured backends; nothing otherwise. -/
def RoundRobinLB.MarkBackendUp (lb : RoundRobinLB) (backend : String) : RoundRobinLB :=
  if backend ∈ lb.healthyBackends then lb
  else if backend ∈ lb.backends then
    { lb with healthyBackends := lb.healthyBackends ++ [backend] }
  else lb

/-- Go `RoundRobinLB.GetHealthyBackends` (a copy of the healthy list). -/
def RoundRobinLB.GetHealthyBackends (lb : RoundRobinLB) : List String :=
  lb.healthyBackends

/-- Go `RandomLB` (the mutex left out; the generator is replaced by the value it
draws, an argument of `NextBackend`). -/
structure RandomLB where
  backends : List String
  healthyBackends : List String
  deriving DecidableEq, Repr

/-- Go `NewRandomLB`. -/
def NewRandomLB (backends : List String) : RandomLB :=
  { backends := backends
    healthyBackends := List.replicate backends.length "" }

/-- Go `RandomLB.NextBackend`; `rand.Intn(n)` is `r % n` for the drawn value `r`. -/
def RandomLB.NextBackend (lb : RandomLB) (r : Nat) : RandomLB × String :=
  if lb.healthyBackends.length = 0 then
    if lb.backends.length = 0 then (lb, "")
    else (lb, lb.backends.getD (r % lb.backends.length) "")
  else (lb, lb.healthyBackends.getD (r % lb.healthyBackends.length) "")

/-- Go `RandomLB.MarkBackendDown`. -/
def RandomLB.MarkBackendDown (lb : RandomLB) (backend : String) : RandomLB :=
  { lb with healthyBackends := lb.healthyBackends.filter (fun b => b != backend) }

/-- Go `RandomLB.MarkBackendUp`. -/
def RandomLB.MarkBackendUp (lb : RandomLB) (backend : String) : RandomLB :=
  if backend ∈ lb.healthyBackends then lb
  else if backend ∈ lb.backends then
    { lb with healthyBackends := lb.healthyBackends ++ [backend] }
  else lb

/-- Go `RandomLB.GetHealthyBackends`. -/
def RandomLB.GetHealthyBackends (lb : RandomLB) : List String :=
  lb.healthyBackends

/-- Go `WeightedBackend`. -/
structure WeightedBackend where
  URL : String
  Weight : Int
  CurrentWeight : Int
  Healthy : Bool
  deriving DecidableEq, Repr

/-- Go `WeightedLB` (the mutex left out). -/
structure WeightedLB where
  backends : List WeightedBackend
  current : Int
  deriving DecidableEq, Repr

/-- Go `NewWeightedLB`: weight 1 everywhere unless one weight per backend is given. -/
def NewWeightedLB (backends : List String) (weights : List Int) : WeightedLB :=
  let weights1 :=
    if weights.length ≠ backends.length then List.replicate backends.length (1 : Int)
    else weights
  { backends :=
      (backends.zip weights1).map
        (fun bw => { URL := bw.1, Weight := bw.2, CurrentWeight := 0, Healthy := true })
    current := 0 }

/-- The variables of the loop of `WeightedLB.NextBackend`; `selectedBackend = none` is
the Go value `-1`. -/
structure WeightedPick where
  backends : List WeightedBackend
  totalWeight : Int
  selectedBackend : Option Nat
  deriving DecidableEq, Repr

/-- One round of the loop of `WeightedLB.NextBackend`, at index `i`. -/
def WeightedLB.pickStep (st : WeightedPick) (i : Nat) : WeightedPick :=
  match st.backends[i]? with
  | none => st
  | some b =>
    if b.Healthy = false then st
    else
      let b1 := { b with CurrentWeight := i64 (b.CurrentWeight + b.Weight) }
      let backends := st.backends.set i b1
      let totalWeight := i64 (st.totalWeight + b.Weight)
      match st.selectedBackend with
      | none => { backends := backends, totalWeight := totalWeight, selectedBackend := some i }
      | some j =>
        if b1.CurrentWeight > (backends.getD j b1).CurrentWeight then
          { backends := backends, totalWeight := totalWeight, selectedBackend := some i }
        else
          { backends := backends, totalWeight := totalWeight, selectedBackend := some j }

/-- Go `WeightedLB.NextBackend`. -/
def WeightedLB.NextBackend (lb : WeightedLB) : WeightedLB × String :=
  match lb.backends with
  | [] => (lb, "")
  | first :: _ =>
    let st := (List.range lb.backends.length).foldl WeightedLB.pickStep
      { backends := lb.backends, totalWeight := 0, selectedBackend := none }
    match st.selectedBackend with
    | none => ({ lb with backends := st.backends }, (st.backends.headD first).URL)
    | some j =>
      let sel := st.backends.getD j first
      let sel1 : WeightedBackend :=
        { sel with CurrentWeight := i64 (sel.CurrentWeight - st.totalWeight) }
      ({ lb with backends := st.backends.set j sel1 }, sel.URL)

/-- The loop shared by `WeightedLB.MarkBackendDown` and `MarkBackendUp`: the first
backend with the given URL gets the health flag, then `break`. -/
def WeightedLB.setHealthy (healthy : Bool) (backend : String) :
    List WeightedBackend → List WeightedBackend
  | [] => []
  | b :: rest =>
    if b.URL = backend then { b with Healthy := healthy } :: rest
    else b :: WeightedLB.setHealthy healthy backend rest

/-- Go `WeightedLB.MarkBackendDown`. -/
def WeightedLB.MarkBackendDown (lb : WeightedLB) (backend : String) : WeightedLB :=
  { lb with backends := WeightedLB.setHealthy false backend lb.backends }

/-- Go `WeightedLB.MarkBackendUp`. -/
def WeightedLB.MarkBackendUp (lb : WeightedLB) (backend : String) : WeightedLB :=
  { lb with backends := WeightedLB.setHealthy true backend lb.backends }

/-- Go `WeightedLB.GetHealthyBackends`. -/
def WeightedLB.GetHealthyBackends (lb : WeightedLB) : List String :=
  (lb.backends.filter (fun b => b.Healthy)).map (fun b => b.URL)

/-- Go `ConnectionBackend`; `Connections` is an `int32`. -/
structure ConnectionBackend where
  URL : String
  Connections : Int
  Healthy : Bool
  deriving DecidableEq, Repr

/-- Go `LeastConnectionsLB` (the mutex left out). -/
structure LeastConnectionsLB where
  backends : List ConnectionBackend
  deriving DecidableEq, Repr

/-- Go `NewLeastConnectionsLB`. -/
def NewLeastConnectionsLB (backends : List String) : LeastConnectionsLB :=
  { backends := backends.map (fun b => { URL := b, Connections := 0, Healthy := true }) }

/-- The variables of the loop of `LeastConnectionsLB.NextBackend`;
`selectedBackend = none` is the Go value `-1`. -/
structure ConnectionPick where
  selectedBackend : Option Nat
  minConnections : Int
  deriving DecidableEq, Repr

/-- One round of the loop of `LeastConnectionsLB.NextBackend`, at index `i`. -/
def LeastConnectionsLB.pickStep (backends : List ConnectionBackend) (st : ConnectionPick)
    (i : Nat) : ConnectionPick :=
  match backends[i]? with
  | none => st
  | some backend =>
    if backend.Healthy = false then st
    else if st.selectedBackend = none ∨ backend.Connections < st.minConnections then
      { selectedBackend := some i, minConnections := backend.Connections }
    else st

/-- Go `LeastConnectionsLB.NextBackend`. -/
def LeastConnectionsLB.NextBackend (lb : LeastConnectionsLB) : LeastConnectionsLB × String :=
  match lb.backends with
  | [] => (lb, "")
  | first :: _ =>
    let st := (List.range lb.backends.length).foldl
      (LeastConnectionsLB.pickStep lb.backends) { selectedBackend := none, minConnections := -1 }
    match st.selectedBackend with
    | none => (lb, first.URL)
    | some j =>
      let sel := lb.backends.getD j first
      let sel1 : ConnectionBackend := { sel with Connections := i32 (sel.Connections + 1) }
      ({ lb with backends := lb.backends.set j sel1 }, sel.URL)

/-- Go `LeastConnectionsLB.ReleaseConnection`: the first backend with the URL loses one
connection, and a negative counter is put back to 0. -/
def LeastConnectionsLB.release (backend : String) :
    List ConnectionBackend → List ConnectionBackend
  | [] => []
  | b :: rest =>
    if b.URL = backend then
      (if i32 (b.Connections - 1) < 0 then { b with Connections := 0 }
        else { b with Connections := i32 (b.Connections - 1) }) :: rest
    else b :: LeastConnectionsLB.release backend rest

/-- Go `LeastConnectionsLB.ReleaseConnection`. -/
def LeastConnectionsLB.ReleaseConnection (lb : LeastConnectionsLB) (backend : String) :
    LeastConnectionsLB :=
  { lb with backends := LeastConnectionsLB.release backend lb.backends }

/-- The loop shared by `LeastConnectionsLB.MarkBackendDown` and `MarkBackendUp`. -/
def LeastConnectionsLB.setHealthy (healthy : Bool) (backend : String) :
    List ConnectionBackend → List ConnectionBackend
  | [] => []
  | b :: rest =>
    if b.URL = backend then { b with Healthy := healthy } :: rest
    else b :: LeastConnectionsLB.setHealthy healthy backend rest

/-- Go `LeastConnectionsLB.MarkBackendDown`. -/
def LeastConnectionsLB.MarkBackendDown (lb : LeastConnectionsLB) (backend : String) :
    LeastConnectionsLB :=
  { lb with backends := LeastConnectionsLB.setHealthy false backend lb.backends }

/-- Go `LeastConnectionsLB.MarkBackendUp`. -/
def LeastConnectionsLB.MarkBackendUp (lb : LeastConnectionsLB) (backend : String) :
    LeastConnectionsLB :=
  { lb with backends := LeastConnectionsLB.setHealthy true backend lb.backends }

/-- Go `LeastConnectionsLB.GetHealthyBackends`. -/
def LeastConnectionsLB.GetHealthyBackends (lb : LeastConnectionsLB) : List String :=
  (lb.backends.filter (fun b => b.Healthy)).map (fun b => b.URL)

/-- Go `config.LoadBalancerConfig`. -/
structure LoadBalancerConfig where
  Strategy : String
  Backends : List String
  Enabled : Bool
  deriving DecidableEq, Repr

/-- The Go interface `LoadBalancer`, as the sum of its four implementations. -/
inductive LoadBalancer where
  | roundRobin (lb : RoundRobinLB)
  | random (lb : RandomLB)
  | weighted (lb : WeightedLB)
  | leastConnections (lb : LeastConnectionsLB)
  deriving DecidableEq, Repr

/-- The interface method `NextBackend`; `r` is the value the generator of a random
balancer draws during the call (unused by the other three). -/
def LoadBalancer.NextBackend (lb : LoadBalancer) (r : Nat) : LoadBalancer × String :=
  match lb with
  | .roundRobin l => (.roundRobin l.NextBackend.1, l.NextBackend.2)
  | .random l => (.random (l.NextBackend r).1, (l.NextBackend r).2)
  | .weighted l => (.weighted l.NextBackend.1, l.NextBackend.2)
  | .leastConnections l => (.leastConnections l.NextBackend.1, l.NextBackend.2)

/-- The interface method `MarkBackendDown`. -/
def LoadBalancer.MarkBackendDown (lb : LoadBalancer) (backend : String) : LoadBalancer :=
  match lb with
  | .roundRobin l => .roundRobin (l.MarkBackendDown backend)
  | .random l => .random (l.MarkBackendDown backend)
  | .weighted l => .weighted (l.MarkBackendDown backend)
  | .leastConnections l => .leastConnections (l.MarkBackendDown backend)

/-- The interface method `MarkBackendUp`. -/
def LoadBalancer.MarkBackendUp (lb : LoadBalancer) (backend : String) : LoadBalancer :=
  match lb with
  | .roundRobin l => .roundRobin (l.MarkBackendUp backend)
  | .random l => .random (l.MarkBackendUp backend)
  | .weighted l => .weighted (l.MarkBackendUp backend)
  | .leastConnections l => .leastConnections (l.MarkBackendUp backend)

/-- The interface method `GetHealthyBackends`. -/
def LoadBalancer.GetHealthyBackends (lb : LoadBalancer) : List String :=
  match lb with
  | .roundRobin l => l.GetHealthyBackends
  | .random l => l.GetHealthyBackends
  | .weighted l => l.GetHealthyBackends
  | .leastConnections l => l.GetHealthyBackends

/-- The configured backends of a balancer (the `backends` field of each implementation). -/
def LoadBalancer.configured (lb : LoadBalancer) : List String :=
  match lb with
  | .roundRobin l => l.backends
  | .random l => l.backends
  | .weighted l => l.backends.map (fun b => b.URL)
  | .leastConnections l => l.backends.map (fun b => b.URL)

/-- Go `NewLoadBalancer`; `none` is the nil it returns when the balancer is disabled or
has no backend. -/
def NewLoadBalancer (config : LoadBalancerConfig) : Option LoadBalancer :=
  if config.Enabled = false ∨ config.Backends.length = 0 then none
  else if config.Strategy = "round_robin" then
    some (.roundRobin
      (config.Backends.foldl (fun lb backend => lb.MarkBackendUp backend)
        (NewRoundRobinLB config.Backends)))
  else if config.Strategy = "random" then
    some (.random
      (config.Backends.foldl (fun lb backend => lb.MarkBackendUp backend)
        (NewRandomLB config.Backends)))
  else if config.Strategy = "weighted" then
    some (.weighted (NewWeightedLB config.Backends []))
  else if config.Strategy = "least_connections" then
    some (.leastConnections (NewLeastConnectionsLB config.Backends))
  else
    some (.roundRobin
      (config.Backends.foldl (fun lb backend => lb.MarkBackendUp backend)
        (NewRoundRobinLB config.Backends)))

/-- One call on a balancer through its interface. -/
inductive LBCall where
  | next (r : Nat)
  | down (backend : String)
  | up (backend : String)
  deriving DecidableEq, Repr

/-- The balancer after one call, and what `NextBackend` returned when it was one. -/
def LoadBalancer.call (lb : LoadBalancer) : LBCall → LoadBalancer × Option String
  | .next r => ((lb.NextBackend r).1, some (lb.NextBackend r).2)
  | .down backend => (lb.MarkBackendDown backend, none)
  | .up backend => (lb.MarkBackendUp backend, none)

/-- The balancer after a sequence of calls, with the backends returned on the way. -/
def LoadBalancer.run (lb : LoadBalancer) : List LBCall → LoadBalancer × List String
  | [] => (lb, [])
  | c :: rest =>
    let r := lb.call c
    let rs := LoadBalancer.run r.1 rest
    (rs.1, (match r.2 with | some b => [b] | none => []) ++ rs.2)

/-! ## The breaker middleware around the proxy handler

`CircuitBreakerManager.Middleware` (`middleware/circuit_breaker.go`) and what it can
observe of `Handler.HandleProxy` (`proxy/handler.go`): the error the handler returns and
`c.Response().Status`. -/

/-- What a handler leaves behind for the middleware around it: whether it returned a
non-nil error, and the status recorded in the echo response. -/
structure HandlerResult where
  failed : Bool
  Status : Nat
  deriving DecidableEq, Repr

/-- Echo `c.JSON(code, v)`: the response status is `code`; the call returns an error
only when the body cannot be written to the client (`writeOk = false`). -/
def cJSON (code : Nat) (writeOk : Bool) : HandlerResult :=
  { failed := !writeOk, Status := code }

/-- Go `Handler.sendErrorResponse`: `statusCode` goes into the `ErrorData` of the
body; the response itself is `c.JSON(http.StatusOK, errorResp)`. -/
def sendErrorResponse (_statusCode : Nat) (writeOk : Bool) : HandlerResult :=
  cJSON 200 writeOk

/-- Status and error of Go `Handler.transformResponse` for a response whose body was
read: `standard` says that the body already has the standard format (written as it is
after `WriteHeader(http.StatusOK)`); both wrapping branches end in
`c.JSON(http.StatusOK, standardResp)`. -/
def transformResponseStatus (statusCode : Nat) (standard : Bool) (writeOk : Bool) :
    HandlerResult :=
  if standard = true then { failed := !writeOk, Status := 200 }
  else if ¬ (statusCode ≥ 200 ∧ statusCode < 300) then cJSON 200 writeOk
  else cJSON 200 writeOk

/-- The course of one proxied request inside `HandleProxy`. -/
inductive Upstream where
  | noTarget
  | noRequest
  | transportError
  | unreadable (statusCode : Nat)
  | response (statusCode : Nat) (standard : Bool)
  deriving DecidableEq, Repr

/-- Status and error of Go `Handler.HandleProxy`: `getTargetURL` fails (`noTarget`),
`createProxyRequest` fails (`noRequest`), `h.client.Do` fails (`transportError`), the
body of the response cannot be read (`unreadable`), or the response is transformed. -/
def HandleProxyStatus (u : Upstream) (writeOk : Bool) : HandlerResult :=
  match u with
  | .noTarget => sendErrorResponse 502 writeOk
  | .noRequest => sendErrorResponse 500 writeOk
  | .transportError => sendErrorResponse 502 writeOk
  | .unreadable _ => sendErrorResponse 502 writeOk
  | .response statusCode standard => transformResponseStatus statusCode standard writeOk

/-- Go `Handler.loggingMiddleware`, between the breaker and the handler: it prints one
line and returns the error of `next` unchanged. -/
def loggingMiddleware {σ : Type} (next : σ → HandlerResult × σ) : σ → HandlerResult × σ :=
  fun w => next w

/-- The request function `CircuitBreakerManager.Middleware` hands to `Execute`: an error
of `next`, or a response status of 500 or more, is an error. -/
def managerRequest {σ : Type} (next : σ → HandlerResult × σ) : σ → ReqOutcome × σ :=
  fun w =>
    let r := next w
    if r.1.failed = true then (.failed, r.2)
    else if r.1.Status ≥ 500 then (.failed, r.2)
    else (.ok, r.2)

/-- What `CircuitBreakerManager.Middleware` returns: nil, the 503 error with the
counters it reports, or the error of `Execute` passed on. -/
inductive MiddlewareResult where
  | passed
  | serviceUnavailable (failures requests : Nat)
  | error
  deriving DecidableEq, Repr

/-- Go `CircuitBreakerManager.Middleware` for one request on the breaker `cb` of the
service: `t1` and `t2` are the clock readings of `Execute`, `t3` the one of `cb.State()`
on the error path. -/
def Middleware {σ : Type} (cb : CircuitBreaker) (t1 t2 t3 : Time)
    (next : σ → HandlerResult × σ) (w : σ) : CircuitBreaker × σ × MiddlewareResult :=
  let r := cb.Execute t1 t2 (managerRequest next) w
  match r.2.2 with
  | .ran .ok => (r.1, r.2.1, .passed)
  | _ =>
    let st := r.1.State t3
    let counts := st.1.Counts
    if st.2 = .StateOpen then
      (st.1, r.2.1, .serviceUnavailable counts.TotalFailures counts.Requests)
    else (st.1, r.2.1, .error)

/-- The breaker middleware of the manager around the logging middleware and the proxy
handler, for one request whose upstream behaves as `u`; the world counts the calls of
the handler. -/
def Pipeline (cb : CircuitBreaker) (t1 t2 t3 : Time) (u : Upstream) (writeOk : Bool)
    (w : Nat) : CircuitBreaker × Nat × MiddlewareResult :=
  Middleware cb t1 t2 t3 (loggingMiddleware (fun n => (HandleProxyStatus u writeOk, n + 1))) w

/-! ## The proxy handler at body level (`proxy/handler.go`)

The bodies of requests and responses have an arbitrary type `Body`; the functions of
`encoding/json` and of echo that the handler calls on them are the fields of a
`JSONCodec`.  The client connection is taken to be writable, so `c.JSON` and
`c.Response().Write` return nil. -/

namespace Proxy

/-- A decoded JSON value, as `encoding/json` stores one in an `interface{}`: nil, bool,
float64 (kept by its decimal text), string, `[]interface{}` and
`map[string]interface{}`. -/
inductive JSON where
  | null
  | bool (b : Bool)
  | number (text : String)
  | string (s : String)
  | array (items : List JSON)
  | object (fields : List (String × JSON))

/-- The Go type assertion `v.(bool)` succeeds. -/
def JSON.isBool : JSON → Bool
  | .bool _ => true
  | _ => false

/-- The Go type assertion `v.(string)` succeeds. -/
def JSON.isString : JSON → Bool
  | .string _ => true
  | _ => false

/-- The Go test `v == nil` on an `interface{}`. -/
def JSON.isNil : JSON → Bool
  | .null => true
  | _ => false

/-- Two values of the same JSON kind; booleans are the same boolean. -/
def JSON.sameKind : JSON → JSON → Bool
  | .null, .null => true
  | .bool a, .bool b => a == b
  | .number _, .number _ => true
  | .string _, .string _ => true
  | .array _, .array _ => true
  | .object _, .object _ => true
  | _, _ => false

/-- A Go `map[string]interface{}`: its entries, no key twice.  The nil map is the map
without entries. -/
structure JSONMap where
  entries : List (String × JSON)
  nodup : (entries.map Prod.fst).Nodup

/-- Go `v, ok := m[key]`: `none` when the key is absent. -/
def JSONMap.get (m : JSONMap) (key : String) : Option JSON :=
  m.entries.lookup key

/-- Go `len(m)`. -/
def JSONMap.len (m : JSONMap) : Nat :=
  m.entries.length

/-- Go `Handler.isStandardFormat`. -/
def isStandardFormat (response : JSONMap) : Bool :=
  let hasData := (response.get "data").isSome
  let hasSuccess := (response.get "success").isSome
  let hasErrorMessage := (response.get "errorMessage").isSome
  let isBool :=
    match response.get "success" with
    | some v => v.isBool
    | none => false
  let errorMessageFits :=
    match response.get "errorMessage" with
    | some errorMsg => errorMsg.isNil || errorMsg.isString
    | none => true
  if (hasSuccess && !isBool) = true then false
  else if (hasErrorMessage && !errorMessageFits) = true then false
  else hasData && hasSuccess && hasErrorMessage && decide (response.len = 3)

/-- Go `ErrorData`. -/
structure ErrorData where
  Code : Nat
  Message : String
  Path : String
  Method : String
  deriving DecidableEq, Repr

/-- The JSON value of an `ErrorData`, by its field tags. -/
def ErrorData.toJSON (e : ErrorData) : JSON :=
  .object [("code", .number (toString e.Code)), ("message", .string e.Message),
    ("path", .string e.Path), ("method", .string e.Method)]

/-- Go `StandardResponse`; `Data` is the JSON value of whatever the `interface{}`
holds, and a nil `ErrorMessage` is `none`. -/
structure StandardResponse where
  Data : JSON
  Success : Bool
  ErrorMessage : Option String

/-- The JSON value of a `StandardResponse`, by its field tags (none is `omitempty`). -/
def StandardResponse.toJSON (r : StandardResponse) : JSON :=
  .object [("data", r.Data), ("success", .bool r.Success),
    ("errorMessage",
      match r.ErrorMessage with
      | some msg => .string msg
      | none => .null)]

/-- What the handler uses of `encoding/json` and echo on a body: `len(bodyBytes)`,
`string(bodyBytes)`, `json.Unmarshal` into an `interface{}` (`none` is an error),
`json.Unmarshal` into a `map[string]interface{}` (`none` is an error; the body `null`
gives the nil map), and the bytes `c.JSON` writes for a value. -/
structure JSONCodec (Body : Type) where
  len : Body → Nat
  text : Body → String
  Unmarshal : Body → Option JSON
  UnmarshalMap : Body → Option JSONMap
  Encode : JSON → Body

mutual
/-- The nesting depth of a JSON value: the largest number of arrays and objects that
are open at once in its text; 0 for a scalar. -/
def JSON.depth : JSON → Nat
  | .array items => depthItems items + 1
  | .object fields => depthFields fields + 1
  | _ => 0
/-- The largest nesting depth among the items of an array. -/
def depthItems : List JSON → Nat
  | [] => 0
  | v :: vs => max v.depth (depthItems vs)
/-- The largest nesting depth among the values of the fields of an object. -/
def depthFields : List (String × JSON) → Nat
  | [] => 0
  | (_, v) :: fs => max v.depth (depthFields fs)
end

/-- A condition on a JSON library, relative to a nesting limit: the encoding of an object
nested at most `limit` deep is not empty, and decoding it into a map gives a map with as
many entries, in which every field of the object is present with a value of the same
kind.  The decoder of `encoding/json` refuses a document nested deeper than 10000 while
its encoder writes a value of any depth, so the library does not reread every object it
writes; the condition is asked for up to a limit only. -/
def JSONCodec.RereadsObjectsWithin {Body : Type} (codec : JSONCodec Body) (limit : Nat) :
    Prop :=
  ∀ fields : List (String × JSON), (fields.map Prod.fst).Nodup →
    (JSON.object fields).depth ≤ limit →
    0 < codec.len (codec.Encode (.object fields)) ∧
    ∃ m : JSONMap, codec.UnmarshalMap (codec.Encode (.object fields)) = some m ∧
      m.len = fields.length ∧
      ∀ key v, fields.lookup key = some v →
        ∃ v1, m.get key = some v1 ∧ v.sameKind v1 = true

/-- The headers of a response (`http.Header`, one value per key). -/
abbrev Header := List (String × String)

/-- Go `h.Set(key, value)`. -/
def Header.Set (h : Header) (key value : String) : Header :=
  (key, value) :: h.filter (fun kv => kv.1 != key)

/-- Go `h.Get(key)`: the empty string when the key is absent. -/
def Header.Get (h : Header) (key : String) : String :=
  (h.lookup key).getD ""

/-- The part of the inbound request the handler reads. -/
structure Request where
  Method : String
  Path : String
  RawQuery : String
  deriving DecidableEq, Repr

/-- What the gateway answers: the status, the headers and the body written. -/
structure ProxyResponse (Body : Type) where
  Status : Nat
  Header : Header
  Body : Body

/-- The response of the upstream service; `Read` is the result of `io.ReadAll` on its
body (`none` is a read error). -/
structure UpstreamResponse (Body : Type) where
  StatusCode : Nat
  Header : Header
  Read : Option Body

/-- Go `Handler.addGatewayHeaders`; `now` is `time.Now().Format(time.RFC3339)`. -/
def addGatewayHeaders (h : Header) (now : String) : Header :=
  (((h.Set "X-Gateway" "api-gateway").Set "X-Gateway-Version" "1.0.0").Set
    "X-Response-Time" now).Set "Content-Type" "application/json"

/-- Go `Handler.copyImportantHeaders`. -/
def copyImportantHeaders (h : Header) (upstream : Header) : Header :=
  ["Cache-Control", "ETag", "Last-Modified", "Expires"].foldl
    (fun acc header =>
      if upstream.Get header ≠ "" then acc.Set header (upstream.Get header) else acc) h

/-- Echo `c.JSON(code, v)`: the content type is set when none is there yet, the status
is `code`, the body is the encoding of `v`. -/
def cJSON {Body : Type} (codec : JSONCodec Body) (h : Header) (code : Nat) (v : JSON) :
    ProxyResponse Body :=
  { Status := code
    Header := if h.Get "Content-Type" = "" then h.Set "Content-Type" "application/json" else h
    Body := codec.Encode v }

/-- Go `Handler.sendErrorResponse`; `err` is `err.Error()`, `none` for a nil error. -/
def sendErrorResponse {Body : Type} (codec : JSONCodec Body) (req : Request) (now : String)
    (h : Header) (statusCode : Nat) (message : String) (err : Option String) :
    ProxyResponse Body :=
  let errorMsg :=
    match err with
    | some e => message ++ ": " ++ e
    | none => message
  let errorResp : StandardResponse :=
    { Data := ErrorData.toJSON
        { Code := statusCode, Message := message, Path := req.Path, Method := req.Method }
      Success := false
      ErrorMessage := some errorMsg }
  cJSON codec (addGatewayHeaders h now) 200 errorResp.toJSON

/-- Go `Handler.generateSimpleErrorMessage`. -/
def generateSimpleErrorMessage (statusCode : Nat) : String :=
  if statusCode = 400 then "Bad Request"
  else if statusCode = 401 then "Unauthorized"
  else if statusCode = 403 then "Forbidden"
  else if statusCode = 404 then "Not Found"
  else if statusCode = 422 then "Validation Error"
  else if statusCode = 500 then "Internal Server Error"
  else if statusCode = 502 then "Bad Gateway"
  else if statusCode = 503 then "Service Unavailable"
  else if statusCode = 504 then "Gateway Timeout"
  else "Service Error (" ++ toString statusCode ++ ")"

/-- The test at the head of `transformResponse`: the body is not empty, decodes into a
map, and the map has the standard format. -/
def alreadyStandard {Body : Type} (codec : JSONCodec Body) (body : Body) : Bool :=
  if codec.len body > 0 then
    match codec.UnmarshalMap body with
    | some possibleStandardResponse => isStandardFormat possibleStandardResponse
    | none => false
  else false

/-- Go `Handler.transformResponse`; `h` holds the response headers set before the call
and `readErr` the text of a read error. -/
def transformResponse {Body : Type} (codec : JSONCodec Body) (req : Request) (now : String)
    (h : Header) (resp : UpstreamResponse Body) (readErr : String) : ProxyResponse Body :=
  match resp.Read with
  | none => sendErrorResponse codec req now h 502 "Error reading service response" (some readErr)
  | some bodyBytes =>
    let h1 := addGatewayHeaders h now
    if alreadyStandard codec bodyBytes = true then
      { Status := 200
        Header := (copyImportantHeaders h1 resp.Header).Set "Content-Type" "application/json"
        Body := bodyBytes }
    else
      let isSuccess := decide (resp.StatusCode ≥ 200 ∧ resp.StatusCode < 300)
      if isSuccess = false then
        let standardResp : StandardResponse :=
          { Data :=
              if codec.len bodyBytes > 0 then
                match codec.Unmarshal bodyBytes with
                | some originalError => originalError
                | none =>
                  ErrorData.toJSON
                    { Code := resp.StatusCode, Message := codec.text bodyBytes,
                      Path := req.Path, Method := req.Method }
              else
                ErrorData.toJSON
                  { Code := resp.StatusCode, Message := codec.text bodyBytes,
                    Path := req.Path, Method := req.Method }
            Success := false
            ErrorMessage := some (generateSimpleErrorMessage resp.StatusCode) }
        cJSON codec (copyImportantHeaders h1 resp.Header) 200 standardResp.toJSON
      else
        let standardResp : StandardResponse :=
          { Data :=
              if codec.len bodyBytes > 0 then
                match codec.Unmarshal bodyBytes with
                | some data => data
                | none => .string (codec.text bodyBytes)
              else .object []
            Success := true
            ErrorMessage := none }
        cJSON codec (copyImportantHeaders h1 resp.Header) 200 standardResp.toJSON

/-- Go `strings.HasPrefix`.  Go compares bytes and the model compares characters; on
well-formed UTF-8 the two agree. -/
def HasPrefix (s p : String) : Bool :=
  p.data.isPrefixOf s.data

/-- Go `strings.TrimPrefix`. -/
def TrimPrefix (s p : String) : String :=
  if HasPrefix s p = true then String.mk (s.data.drop p.data.length) else s

/-- The fields of Go `config.ServiceConfig` the handler reads when it resolves a target. -/
structure ServiceConfig where
  Name : String
  BaseURL : String
  Prefix : String
  Timeout : Int
  LoadBalancer : LoadBalancerConfig
  deriving DecidableEq, Repr

/-- The result of the lookup `h.loadBalancers[service.Name]`: no entry, or an entry
whose interface value is a balancer or nil. -/
inductive LBEntry where
  | absent
  | present (lb : Option LoadBalancer)
  deriving DecidableEq, Repr

/-- The entry the loop of Go `NewHandler` leaves for a service. -/
def NewHandlerEntry (service : ServiceConfig) : LBEntry :=
  if service.LoadBalancer.Enabled = true then .present (NewLoadBalancer service.LoadBalancer)
  else .absent

/-- The path part of Go `Handler.getTargetURL`: the request path without the service
prefix, `/` when nothing is left, with a leading `/`. -/
def targetPath (service : ServiceConfig) (req : Request) : String :=
  let path := TrimPrefix req.Path service.Prefix
  let path1 := if path = "" then "/" else path
  if HasPrefix path1 "/" = false then "/" ++ path1 else path1

/-- The tail of Go `Handler.getTargetURL` once the base URL is known. -/
def buildTargetURL (baseURL : String) (service : ServiceConfig) (req : Request) : String :=
  let targetURL := baseURL ++ targetPath service req
  if req.RawQuery ≠ "" then targetURL ++ "?" ++ req.RawQuery else targetURL

/-- Go `Handler.getTargetURL`; `r` is the value a random balancer draws.  The result is
`none` when the call panics (a method called on a nil interface value); otherwise the
entry with the balancer after `NextBackend`, and the target URL or the error text. -/
def getTargetURL (entry : LBEntry) (r : Nat) (service : ServiceConfig) (req : Request) :
    Option (LBEntry × Except String String) :=
  match entry with
  | .present none => none
  | .present (some lb) =>
    let backend := (lb.NextBackend r).2
    if backend = "" then
      some (.present (some (lb.NextBackend r).1), .error "no healthy backends available")
    else
      some (.present (some (lb.NextBackend r).1), .ok (buildTargetURL backend service req))
  | .absent => some (.absent, .ok (buildTargetURL service.BaseURL service req))

/-- The call `lb.MarkBackendDown(targetURL)` of `HandleProxy`, made when the service has
an entry. -/
def LBEntry.MarkBackendDown (entry : LBEntry) (url : String) : Option LBEntry :=
  match entry with
  | .absent => some .absent
  | .present (some lb) => some (.present (some (lb.MarkBackendDown url)))
  | .present none => none

/-- The call `lb.MarkBackendUp(targetURL)` of `HandleProxy`, made when the service has
an entry. -/
def LBEntry.MarkBackendUp (entry : LBEntry) (url : String) : Option LBEntry :=
  match entry with
  | .absent => some .absent
  | .present (some lb) => some (.present (some (lb.MarkBackendUp url)))
  | .present none => none

/-- The result of `h.client.Do(proxyReq)`: a transport error with its text, or a
response (with the text of the error a failed read of its body would give). -/
inductive RoundTrip (Body : Type) where
  | failed (err : String)
  | answered (resp : UpstreamResponse Body) (readErr : String)

/-- Go `Handler.HandleProxy` for one request.  `create` is `createProxyRequest` (the
text of its error, `none` when it succeeds) and `send` is `h.client.Do`, both as
functions of the target URL.  The result is `none` when the handler panics; otherwise
the entry of the service after the request and the response written. -/
def HandleProxy {Body : Type} (codec : JSONCodec Body) (entry : LBEntry) (r : Nat)
    (service : ServiceConfig) (req : Request) (now : String) (h : Header)
    (create : String → Option String) (send : String → RoundTrip Body) :
    Option (LBEntry × ProxyResponse Body) :=
  match getTargetURL entry r service req with
  | none => none
  | some (entry1, .error err) =>
    some (entry1, sendErrorResponse codec req now h 502 "Error determining target URL" (some err))
  | some (entry1, .ok targetURL) =>
    match create targetURL with
    | some err =>
      some (entry1, sendErrorResponse codec req now h 500 "Error creating proxy request" (some err))
    | none =>
      match send targetURL with
      | .failed err =>
        (entry1.MarkBackendDown targetURL).map
          (fun entry2 =>
            (entry2, sendErrorResponse codec req now h 502 "Service unavailable" (some err)))
      | .answered resp readErr =>
        (entry1.MarkBackendUp targetURL).map
          (fun entry2 => (entry2, transformResponse codec req now h resp readErr))

/-- The healthy list of the balancer of an entry (empty when there is none). -/
def LBEntry.GetHealthyBackends (entry : LBEntry) : List String :=
  match entry with
  | .present (some lb) => lb.GetHealthyBackends
  | _ => []

end Proxy

/-! ## Rate limiter (`middleware/rate_limit.go`) -/

namespace RateLimit

/-- A Go string: a sequence of bytes, each a number below 256. -/
abbrev GoString := List Nat

/-- The bytes of a string literal of the source (all of them ASCII). -/
def ascii (s : String) : GoString := s.data.map Char.toNat

/-- What `c.Get("user_id")` finds in the echo context: nothing, a string, or a value of
another type. -/
inductive ContextValue where
  | absent
  | str (s : GoString)
  | other
  deriving DecidableEq, Repr

/-- Go `min` of `rate_limit.go`. -/
def min (a b : Int) : Int := if a < b then a else b

/-- The slice `s[:n]` of a Go string, for `0 ≤ n ≤ len(s)`. -/
def sliceTo (s : GoString) (n : Int) : GoString := s.take n.toNat

/-- Go `RateLimiter.getClientID`: `userID` is `c.Get("user_id")`, `ip` is `c.RealIP()`
and `userAgent` is `c.Request().UserAgent()`; `fmt.Sprintf` with two `%s` verbs puts the
strings one after the other. -/
def getClientID (userID : ContextValue) (ip userAgent : GoString) : GoString :=
  let byAddress :=
    ascii "ip:" ++ ip ++ ascii ":ua:" ++ sliceTo userAgent (min userAgent.length 50)
  match userID with
  | .str userID => if userID ≠ [] then ascii "user:" ++ userID else byAddress
  | _ => byAddress

end RateLimit

namespace Proxy

/-- Go `strings.ToLower` on a header field name.  Field names are HTTP tokens, made of
ASCII characters, on which the Unicode lower-casing of Go moves the letters `A` to `Z`
only. -/
def ToLower (s : String) : String := String.mk (s.data.map Char.toLower)

/-- The keys of the map `skipHeaders` of `shouldCopyHeader` (each with the value true). -/
def skipHeaders : List String :=
  ["connection", "keep-alive", "proxy-authenticate", "proxy-authorization", "te",
   "trailers", "transfer-encoding", "upgrade", "host"]

/-- Go `Handler.shouldCopyHeader`: the lookup in `skipHeaders` gives false for a key the
map does not hold. -/
def shouldCopyHeader (header : String) : Bool :=
  !(skipHeaders.contains (ToLower header))

/-- The entries a `range` over an `http.Header` visits, in the order it visits them: the
keys are distinct, the order is any. -/
abbrev HeaderEntries := List (String × List String)

/-- An `http.Header` that is written to, as a lookup: the values under each key, none
under a key the map does not hold. -/
abbrev HeaderMap := String → List String

/-- Go `http.Header.Add`: the value is appended under the canonical form of the key;
`canon` is `textproto.CanonicalMIMEHeaderKey`. -/
def HeaderMap.Add (canon : String → String) (h : HeaderMap) (key value : String) :
    HeaderMap :=
  fun k => if k = canon key then h k ++ [value] else h k

/-- Go `Handler.copyRequestHeaders`. -/
def copyRequestHeaders (canon : String → String) (src : HeaderEntries) (dst : HeaderMap) :
    HeaderMap :=
  src.foldl
    (fun dst kv =>
      if shouldCopyHeader kv.1 = true then
        kv.2.foldl (fun dst value => HeaderMap.Add canon dst kv.1 value) dst
      else dst)
    dst

end Proxy

/-! ## Health checker (`health/checker.go`) -/

namespace Health

/-- Go `ServiceHealth`. -/
structure ServiceHealth where
  Name : String
  URL : String
  Healthy : Bool
  LastCheck : Time
  Interval : Duration
  Error : String
  deriving DecidableEq, Repr

/-- Go `Checker` (the client and the mutex left out): the map `services`, as the lookup
of a name. -/
structure Checker where
  services : String → Option ServiceHealth

/-- Go `NewChecker`. -/
def NewChecker : Checker := { services := fun _ => none }

/-- A call of `fmt.Printf` made by the checker, with the values of its verbs. -/
inductive Printed where
  | added (name healthURL : String) (interval : Duration)
  | nowStatus (serviceName status checked : String)
  | errorDetail (errorMsg : String)
  deriving DecidableEq, Repr

/-- The text a call of `fmt.Printf` writes; `showDuration` is the `%v` form of a
duration. -/
def Printed.text (showDuration : Duration → String) : Printed → String
  | .added name healthURL interval =>
    "📊 Health check added for service: " ++ name ++ " -> " ++ healthURL ++ " (every " ++
      showDuration interval ++ ")\n"
  | .nowStatus serviceName status checked =>
    "🏥 Service " ++ serviceName ++ " is now " ++ status ++ " (checked at " ++ checked ++ ")\n"
  | .errorDetail errorMsg => "   Error: " ++ errorMsg ++ "\n"

/-- Go `Checker.AddService`: the checker afterwards and what is printed. -/
def Checker.AddService (hc : Checker) (name healthURL : String) (interval : Duration) :
    Checker × List Printed :=
  ({ services := fun n =>
      if n = name then
        some { Name := name, URL := healthURL, Healthy := true, LastCheck := zeroTime,
               Interval := interval, Error := "" }
      else hc.services n },
    [.added name healthURL interval])

/-- Go `Checker.updateServiceHealth` at time `now`: the checker afterwards and what is
printed; `format` is `Time.Format("15:04:05")`. -/
def Checker.updateServiceHealth (hc : Checker) (format : Time → String) (now : Time)
    (serviceName : String) (healthy : Bool) (errorMsg : String) : Checker × List Printed :=
  match hc.services serviceName with
  | some service =>
    let previousHealth := service.Healthy
    let service1 :=
      { service with Healthy := healthy, LastCheck := now, Error := errorMsg }
    let hc1 : Checker :=
      { services := fun n => if n = serviceName then some service1 else hc.services n }
    if previousHealth ≠ healthy then
      let status := if healthy = true then "✅ HEALTHY" else "❌ UNHEALTHY"
      let line := Printed.nowStatus serviceName status (format service1.LastCheck)
      if errorMsg ≠ "" then (hc1, [line, .errorDetail errorMsg]) else (hc1, [line])
    else (hc1, [])
  | none => (hc, [])

/-- Go `Checker.IsHealthy`. -/
def Checker.IsHealthy (hc : Checker) (serviceName : String) : Bool :=
  match hc.services serviceName with
  | some service => service.Healthy
  | none => false

end Health

/-! ## The breaker mutex and the callback of the manager

`setState` calls `cb.onStateChange` while `cb.mutex` is held: it is reached from
`beforeRequest`, `afterRequest` and `State`, which all lock the mutex first.  The callback
that `CircuitBreakerManager.Middleware` installs calls `cbm.breakers[name].Counts()`, and
`Counts` locks the same mutex, which is not reentrant: on such a breaker a call of
`setState` that changes the state never returns.  The definitions of this section are
those of the breaker with the result `none` for a call that never returns; `blocks` says
whether the callback is of that kind. -/

/-- Go `CircuitBreaker.setState` with its callback. -/
def CircuitBreaker.setStateLocked (blocks : Bool) (cb : CircuitBreaker) (state : Gateway.State)
    (now : Time) : Option CircuitBreaker :=
  if cb.state = state then some cb
  else if blocks = true then none
  else some (cb.setState state now)

/-- Go `CircuitBreaker.currentState` with the callback of `setState`. -/
def CircuitBreaker.currentStateLocked (blocks : Bool) (cb : CircuitBreaker) (now : Time) :
    Option (CircuitBreaker × Gateway.State × Nat) :=
  match cb.state with
  | .StateClosed =>
    if (!IsZero cb.expiry && Before cb.expiry now) = true then
      some (cb.toNewGeneration now, (cb.toNewGeneration now).state,
        (cb.toNewGeneration now).generation)
    else some (cb, cb.state, cb.generation)
  | .StateOpen =>
    if Before cb.expiry now = true then
      (cb.setStateLocked blocks .StateHalfOpen now).map
        (fun cb1 => (cb1, cb1.state, cb1.generation))
    else some (cb, cb.state, cb.generation)
  | .StateHalfOpen => some (cb, cb.state, cb.generation)

/-- Go `CircuitBreaker.beforeRequest` with the callback of `setState`. -/
def CircuitBreaker.beforeRequestLocked (blocks : Bool) (cb : CircuitBreaker) (now : Time) :
    Option (CircuitBreaker × Nat × Option BreakerError) :=
  match cb.currentStateLocked blocks now with
  | none => none
  | some (cb1, state, generation) =>
    if state = .StateOpen then some (cb1, generation, some .isOpen)
    else if state = .StateHalfOpen ∧ cb1.counts.Requests ≥ cb1.maxRequests then
      some (cb1, generation, some .tooManyRequests)
    else some ({ cb1 with counts := cb1.counts.OnRequest }, generation, none)

/-- Go `CircuitBreaker.onSuccess` with the callback of `setState`. -/
def CircuitBreaker.onSuccessLocked (blocks : Bool) (cb : CircuitBreaker) (state : Gateway.State)
    (now : Time) : Option CircuitBreaker :=
  let cb1 := { cb with counts := cb.counts.OnSuccess }
  if state = .StateHalfOpen ∧ cb1.counts.ConsecutiveSuccesses ≥ cb1.maxRequests then
    cb1.setStateLocked blocks .StateClosed now
  else some cb1

/-- Go `CircuitBreaker.onFailure` with the callback of `setState`. -/
def CircuitBreaker.onFailureLocked (blocks : Bool) (cb : CircuitBreaker) (_state : Gateway.State)
    (now : Time) : Option CircuitBreaker :=
  let cb1 := { cb with counts := cb.counts.OnFailure }
  if cb1.readyToTrip cb1.counts = true then cb1.setStateLocked blocks .StateOpen now
  else some cb1

/-- Go `CircuitBreaker.afterRequest` with the callback of `setState`. -/
def CircuitBreaker.afterRequestLocked (blocks : Bool) (cb : CircuitBreaker) (now : Time)
    (before : Nat) (success : Bool) : Option CircuitBreaker :=
  match cb.currentStateLocked blocks now with
  | none => none
  | some (cb1, state, generation) =>
    if generation ≠ before then some cb1
    else if success = true then cb1.onSuccessLocked blocks state now
    else cb1.onFailureLocked blocks state now

/-- Go `CircuitBreaker.State` with the callback of `setState`. -/
def CircuitBreaker.StateLocked (blocks : Bool) (cb : CircuitBreaker) (now : Time) :
    Option (CircuitBreaker × Gateway.State) :=
  match cb.currentStateLocked blocks now with
  | none => none
  | some (cb1, state, _) => some (cb1, state)

/-- Go `CircuitBreaker.Execute` with the callback of `setState`, for a request function
that returns. -/
def CircuitBreaker.ExecuteLocked {σ : Type} (blocks : Bool) (cb : CircuitBreaker)
    (t1 t2 : Time) (req : σ → ReqOutcome × σ) (w : σ) :
    Option (CircuitBreaker × σ × ExecuteResult) :=
  match cb.beforeRequestLocked blocks t1 with
  | none => none
  | some (cb1, _, some err) => some (cb1, w, .rejected err)
  | some (cb1, generation, none) =>
    match req w with
    | (.panicked, w1) =>
      (cb1.afterRequestLocked blocks t2 generation false).map (fun cb2 => (cb2, w1, .ran .panicked))
    | (.failed, w1) =>
      (cb1.afterRequestLocked blocks t2 generation false).map (fun cb2 => (cb2, w1, .ran .failed))
    | (.ok, w1) =>
      (cb1.afterRequestLocked blocks t2 generation true).map (fun cb2 => (cb2, w1, .ran .ok))

/-- Go `CircuitBreakerManager.Middleware` for one request, with the callback of
`setState`: `none` when the request never gets an answer. -/
def MiddlewareLocked {σ : Type} (blocks : Bool) (cb : CircuitBreaker) (t1 t2 t3 : Time)
    (next : σ → HandlerResult × σ) (w : σ) :
    Option (CircuitBreaker × σ × MiddlewareResult) :=
  match cb.ExecuteLocked blocks t1 t2 (managerRequest next) w with
  | none => none
  | some r =>
    match r.2.2 with
    | .ran .ok => some (r.1, r.2.1, .passed)
    | _ =>
      match r.1.StateLocked blocks t3 with
      | none => none
      | some st =>
        let counts := st.1.Counts
        if st.2 = .StateOpen then
          some (st.1, r.2.1, .serviceUnavailable counts.TotalFailures counts.Requests)
        else some (st.1, r.2.1, .error)

namespace RateLimit

/-- The integer nearest to `p / q`, the even one of the two when `p / q` lies half way
between them (`q` is positive). -/
def roundHalfEven (p q : Nat) : Nat :=
  if 2 * (p % q) < q then p / q
  else if q < 2 * (p % q) then p / q + 1
  else if (p / q) % 2 = 0 then p / q
  else p / q + 1

/-- A finite `float64` that is not negative, with the value `num / 2 ^ exp`. -/
structure Float64 where
  num : Nat
  exp : Nat
  deriving DecidableEq, Repr

/-- The least exponent `e`, counted up from the one given, with `2 ^ 52 * q ≤ p * 2 ^ e`,
found in at most `fuel` steps. -/
def scale (p q : Nat) : Nat → Nat → Nat
  | 0, e => e
  | fuel + 1, e => if p * 2 ^ e < 2 ^ 52 * q then scale p q fuel (e + 1) else e

/-- The `float64` quotient of two integers that are exact in `float64`, for a quotient
below `2 ^ 53`: the quotient rounded to a significand of 53 bits, ties to even.  The 128
steps of the search cover every quotient of at least `2 ^ -76`. -/
def divFloat64 (p q : Nat) : Float64 :=
  if p = 0 then { num := 0, exp := 0 }
  else { num := roundHalfEven (p * 2 ^ scale p q 128 0) q, exp := scale p q 128 0 }

/-- The number of bits that `n` has beyond 53, counted up from the number given. -/
def excess (n : Nat) : Nat → Nat → Nat
  | 0, s => s
  | fuel + 1, s => if 2 ^ (53 + s) ≤ n then excess n fuel (s + 1) else s

/-- The `float64` sum of an integer that is exact in `float64` and a `float64`: the exact
sum rounded to a significand of 53 bits, ties to even. -/
def addFloat64 (a : Nat) (x : Float64) : Float64 :=
  { num := roundHalfEven (a * 2 ^ x.exp + x.num) (2 ^ excess (a * 2 ^ x.exp + x.num) 128 0) *
      2 ^ excess (a * 2 ^ x.exp + x.num) 128 0,
    exp := x.exp }

/-- Go `time.Duration.Seconds` of a duration of `d` nanoseconds that is not negative:
`float64(sec) + float64(nsec)/1e9` with `sec := d / Second` and `nsec := d % Second`. -/
def Seconds (d : Nat) : Float64 :=
  addFloat64 (d / 1000000000) (divFloat64 (d % 1000000000) 1000000000)

/-- The number `fmt.Sprintf("%.0f", x)` prints for a `float64` that is not negative: its
exact value rounded to an integer, ties to even. -/
def formatF0 (x : Float64) : Nat := roundHalfEven x.num (2 ^ x.exp)

/-- The number in the `Retry-After` header for the delay `d`, in nanoseconds. -/
def retryAfterSeconds (delay : Duration) : Nat := formatF0 (Seconds delay.natAbs)

/-- The headers of the rejection branch of Go `RateLimitMiddleware`. -/
structure Rejection where
  Limit : String
  Remaining : String
  Reset : String
  RetryAfter : String
  deriving DecidableEq, Repr

/-- The rejection branch of Go `RateLimiter.RateLimitMiddleware`: `delay` is
`reservation.Delay()`, `now` the clock as nanoseconds since the Unix epoch.  A negative
`float64` is printed with its sign. -/
def reject (requestsPerSecond : Int) (now : Time) (delay : Duration) : Rejection :=
  { Limit := toString requestsPerSecond
    Remaining := "0"
    Reset := toString ((Add now delay) / 1000000000)
    RetryAfter := (if delay < 0 then "-" else "") ++ toString (retryAfterSeconds delay) }

end RateLimit

/-! ## Concrete inputs, scenario drivers and specification-side definitions -/

/-- The counters right after `Clear`. -/
def zeroCounts : Counts :=
  { Requests := 0, TotalSuccesses := 0, TotalFailures := 0,
    ConsecutiveSuccesses := 0, ConsecutiveFailures := 0 }

/-- The `ReadyToTrip` of `CircuitBreakerManager.Middleware`.  The Go text compares
`float64(TotalFailures)/float64(Requests)` with `0.5`, and only when `Requests >= 10`.
Both operands are `uint32` values, exact in `float64`; rounding is monotone and `0.5`
is exact, and a quotient below one half is below it by more than `2^-33`, so the
comparison holds exactly when `2 * TotalFailures >= Requests`. -/
def managerReadyToTrip (counts : Counts) : Bool :=
  decide (counts.ConsecutiveFailures ≥ 5) ||
    (decide (counts.Requests ≥ 10) && decide (2 * counts.TotalFailures ≥ counts.Requests))

/-- The settings of `CircuitBreakerManager.Middleware` (the name is filled in by
`GetOrCreateBreaker`).  Its `OnStateChange` prints the counters it reads through
`cbm.breakers[name].Counts()`; that call is not part of the model. -/
def managerSettings (serviceName : String) : CircuitBreakerSettings :=
  { Name := serviceName, MaxRequests := 5, Interval := Minute, Timeout := 30 * Second,
    ReadyToTrip := some managerReadyToTrip }

/-- The state refresh as the specification words it: a Closed breaker whose expiry is
set and `expiry ≤ now` starts a new generation with `expiry = now + interval`; an Open
breaker with `expiry ≤ now` becomes HalfOpen; nothing changes otherwise. -/
def currentStateSpec (cb : CircuitBreaker) (now : Time) : CircuitBreaker :=
  if cb.state = .StateClosed ∧ cb.expiry ≠ zeroTime ∧ cb.expiry ≤ now then
    { cb with generation := u64 (cb.generation + 1), counts := zeroCounts,
              expiry := now + cb.interval }
  else if cb.state = .StateOpen ∧ cb.expiry ≤ now then
    { cb with state := .StateHalfOpen, generation := u64 (cb.generation + 1),
              counts := zeroCounts, expiry := zeroTime }
  else cb

/-- The state refresh of the specification with the two corrections the code needs: the
comparisons are strict, and a Closed breaker with `interval = 0` gets an unset expiry. -/
def currentStateStrict (cb : CircuitBreaker) (now : Time) : CircuitBreaker :=
  if cb.state = .StateClosed ∧ cb.expiry ≠ zeroTime ∧ cb.expiry < now then
    { cb with generation := u64 (cb.generation + 1), counts := zeroCounts,
              expiry := if cb.interval = 0 then zeroTime else now + cb.interval }
  else if cb.state = .StateOpen ∧ cb.expiry < now then
    { cb with state := .StateHalfOpen, generation := u64 (cb.generation + 1),
              counts := zeroCounts, expiry := zeroTime }
  else cb

/-- A Closed breaker in generation 0 with three admitted requests, whose window ended
at one minute. -/
def windowBreaker : CircuitBreaker :=
  { name := "svc", maxRequests := 3, interval := Minute, timeout := 30 * Second,
    readyToTrip := defaultReadyToTrip, state := .StateClosed, generation := 0,
    counts := { Requests := 3, TotalSuccesses := 1, TotalFailures := 1,
                ConsecutiveSuccesses := 0, ConsecutiveFailures := 1 },
    expiry := Minute }

/-- An Open breaker in generation 1 whose dwell ends at thirty seconds. -/
def openBreaker : CircuitBreaker :=
  { name := "svc", maxRequests := 3, interval := Minute, timeout := 30 * Second,
    readyToTrip := defaultReadyToTrip, state := .StateOpen, generation := 1,
    counts := zeroCounts, expiry := 30 * Second }

/-- A Closed breaker without windowing whose request counter is the largest `uint32`. -/
def fullCounterBreaker : CircuitBreaker :=
  { name := "svc", maxRequests := 5, interval := 0, timeout := 30 * Second,
    readyToTrip := managerReadyToTrip, state := .StateClosed, generation := 1,
    counts := { Requests := 4294967295, TotalSuccesses := 4294967294, TotalFailures := 0,
                ConsecutiveSuccesses := 4294967294, ConsecutiveFailures := 0 },
    expiry := zeroTime }

/-- A manager breaker after nine completions that alternate failure and success
(five failures, four successes) and a tenth admission: Closed, generation 0. -/
def evenSplitBreaker : CircuitBreaker :=
  { name := "svc", maxRequests := 5, interval := Minute, timeout := 30 * Second,
    readyToTrip := managerReadyToTrip, state := .StateClosed, generation := 0,
    counts := { Requests := 10, TotalSuccesses := 4, TotalFailures := 5,
                ConsecutiveSuccesses := 0, ConsecutiveFailures := 1 },
    expiry := Minute }

/-- The trip predicate of the trip-and-recover scenario: five failures in a row. -/
def scenarioReadyToTrip (counts : Counts) : Bool :=
  decide (counts.ConsecutiveFailures ≥ 5)

/-- The settings of the trip-and-recover scenario. -/
def scenarioSettings : CircuitBreakerSettings :=
  { Name := "svc", MaxRequests := 3, Interval := Minute, Timeout := 30 * Second,
    ReadyToTrip := some scenarioReadyToTrip }

/-- A sequence of `Execute` calls on one breaker, one after the other; an entry holds the
two clock readings of the call and its request function.  The results come back in
order, with the last breaker and world. -/
def ExecuteAll {σ : Type} (cb : CircuitBreaker) (w : σ) :
    List (Time × Time × (σ → ReqOutcome × σ)) → CircuitBreaker × σ × List ExecuteResult
  | [] => (cb, w, [])
  | (t1, t2, req) :: rest =>
    let r := cb.Execute t1 t2 req w
    let rs := ExecuteAll r.1 r.2.1 rest
    (rs.1, rs.2.1, r.2.2 :: rs.2.2)

/-- The scenario breaker while Closed in generation 0, after `k` admitted requests
that all failed; its window ends at `e`. -/
def scenarioClosed (k : Nat) (e : Time) : CircuitBreaker :=
  { name := "svc", maxRequests := 3, interval := Minute, timeout := 30 * Second,
    readyToTrip := scenarioReadyToTrip, state := .StateClosed, generation := 0,
    counts := { Requests := k, TotalSuccesses := 0, TotalFailures := k,
                ConsecutiveSuccesses := 0, ConsecutiveFailures := k },
    expiry := e }

/-- The scenario breaker once tripped: Open in generation 1 until `e`. -/
def scenarioOpen (e : Time) : CircuitBreaker :=
  { name := "svc", maxRequests := 3, interval := Minute, timeout := 30 * Second,
    readyToTrip := scenarioReadyToTrip, state := .StateOpen, generation := 1,
    counts := zeroCounts, expiry := e }

/-- The scenario breaker while HalfOpen in generation 2, after `k` admitted requests
that all succeeded. -/
def scenarioHalfOpen (k : Nat) : CircuitBreaker :=
  { name := "svc", maxRequests := 3, interval := Minute, timeout := 30 * Second,
    readyToTrip := scenarioReadyToTrip, state := .StateHalfOpen, generation := 2,
    counts := { Requests := k, TotalSuccesses := k, TotalFailures := 0,
                ConsecutiveSuccesses := k, ConsecutiveFailures := 0 },
    expiry := zeroTime }

/-- The first part of the trip-and-recover scenario: a breaker made at `t0` from
`scenarioSettings`, then five `Execute` calls of the request function `fail`, call `i`
reading the clock at `aᵢ` on admission and at `bᵢ` on completion. -/
def afterFiveFailures {σ : Type} (fail : σ → ReqOutcome × σ) (w0 : σ)
    (t0 a1 b1 a2 b2 a3 b3 a4 b4 a5 b5 : Time) : CircuitBreaker × σ × List ExecuteResult :=
  ExecuteAll (NewCircuitBreaker scenarioSettings t0) w0
    [(a1, b1, fail), (a2, b2, fail), (a3, b3, fail), (a4, b4, fail), (a5, b5, fail)]

/-- A freshly created breaker of the manager, made at time 0. -/
def freshManagerBreaker : CircuitBreaker :=
  NewCircuitBreaker (managerSettings "svc") 0

/-- A load-balancer configuration with the three backends of the round-robin scenario. -/
def threeBackends (strategy : String) : LoadBalancerConfig :=
  { Strategy := strategy, Backends := ["A", "B", "C"], Enabled := true }

/-- A load-balancer configuration with a single backend. -/
def oneBackend (strategy : String) : LoadBalancerConfig :=
  { Strategy := strategy, Backends := ["http://a"], Enabled := true }

/-- A request function that returns an error; the world counts its calls. -/
def failingRequest : Nat → ReqOutcome × Nat := fun n => (.failed, n + 1)

/-- A request function that returns nil; the world counts its calls. -/
def succeedingRequest : Nat → ReqOutcome × Nat := fun n => (.ok, n + 1)

/-- Ten `Execute` calls on a fresh manager breaker, one per second: failures and
successes alternate for nine calls, starting with a failure, and the tenth succeeds. -/
def alternatingRun : CircuitBreaker × Nat × List ExecuteResult :=
  ExecuteAll freshManagerBreaker 0
    [(1 * Second, 1 * Second, failingRequest), (2 * Second, 2 * Second, succeedingRequest),
     (3 * Second, 3 * Second, failingRequest), (4 * Second, 4 * Second, succeedingRequest),
     (5 * Second, 5 * Second, failingRequest), (6 * Second, 6 * Second, succeedingRequest),
     (7 * Second, 7 * Second, failingRequest), (8 * Second, 8 * Second, succeedingRequest),
     (9 * Second, 9 * Second, failingRequest), (10 * Second, 10 * Second, succeedingRequest)]

namespace Proxy

/-- A body that is either a JSON document or a text that is no JSON. -/
inductive Wire where
  | json (v : JSON)
  | text (s : String)

/-- A codec on `Wire` bodies: a document decodes to its value, a text does not decode,
and a value is encoded as the document that holds it.  (A document with a key twice is
refused by the map decoder of this codec.) -/
def wireCodec : JSONCodec Wire :=
  { len := fun body =>
      match body with
      | .json _ => 1
      | .text s => s.length
    text := fun body =>
      match body with
      | .json _ => ""
      | .text s => s
    Unmarshal := fun body =>
      match body with
      | .json v => some v
      | .text _ => none
    UnmarshalMap := fun body =>
      match body with
      | .json (.object fields) =>
        if h : (fields.map Prod.fst).Nodup then some { entries := fields, nodup := h } else none
      | .json .null => some { entries := [], nodup := List.nodup_nil }
      | _ => none
    Encode := fun v => .json v }

/-- The standard envelope of spec scenario 1 as a map:
`{"data":{"x":1},"success":true,"errorMessage":null}`. -/
def scenarioEnvelope : JSONMap :=
  { entries := [("data", .object [("x", .number "1")]), ("success", .bool true),
      ("errorMessage", .null)]
    nodup := by decide }

end Proxy

/-- A service behind the prefix `/api` whose balancer has the single backend
`http://a` and the given strategy. -/
def lbService (strategy : String) : Proxy.ServiceConfig :=
  { Name := "svc", BaseURL := "http://base", Prefix := "/api", Timeout := 30,
    LoadBalancer := oneBackend strategy }

/-- The request `GET /api/users`. -/
def usersRequest : Proxy.Request :=
  { Method := "GET", Path := "/api/users", RawQuery := "" }

/-- One call on a breaker from outside, with the clock reading it makes:
`beforeRequest`, `afterRequest` or `State`. -/
inductive BreakerCall where
  | before (now : Time)
  | after (now : Time) (before : Nat) (success : Bool)
  | state (now : Time)
  deriving DecidableEq, Repr

/-- The breaker after one call. -/
def CircuitBreaker.call (cb : CircuitBreaker) : BreakerCall → CircuitBreaker
  | .before now => (cb.beforeRequest now).1
  | .after now before success => cb.afterRequest now before success
  | .state now => (cb.State now).1

/-- The breaker after a sequence of calls. -/
def CircuitBreaker.runCalls (cb : CircuitBreaker) (calls : List BreakerCall) : CircuitBreaker :=
  calls.foldl CircuitBreaker.call cb

/-- The admission cap of the HalfOpen state: no more admitted requests than
`maxRequests`. -/
def HalfOpenCap (cb : CircuitBreaker) : Prop :=
  cb.state = .StateHalfOpen → cb.counts.Requests ≤ cb.maxRequests

/-- Calls on the scenario breaker (made at time 0) that trip it with five failures, let
the dwell pass, and complete one admitted request with success in HalfOpen. -/
def halfOpenCalls : List BreakerCall :=
  [.before (1 * Second), .after (1 * Second) 0 false,
   .before (2 * Second), .after (2 * Second) 0 false,
   .before (3 * Second), .after (3 * Second) 0 false,
   .before (4 * Second), .after (4 * Second) 0 false,
   .before (5 * Second), .after (5 * Second) 0 false,
   .before (40 * Second), .after (40 * Second) 2 true]

/-- Settings without windowing: `Interval` is 0. -/
def noWindowSettings : CircuitBreakerSettings :=
  { Name := "svc", MaxRequests := 3, Interval := 0, Timeout := 30 * Second,
    ReadyToTrip := none }

/-- The current weight of a backend once its weight has been added to it, in Go `int`
arithmetic. -/
def WeightedBackend.raised (b : WeightedBackend) : Int := i64 (b.CurrentWeight + b.Weight)

/-- A backend after the adding pass of a weighted pick: a healthy one carries its raised
weight, an unhealthy one is as before. -/
def WeightedBackend.bump (b : WeightedBackend) : WeightedBackend :=
  if b.Healthy = false then b else { b with CurrentWeight := b.raised }

/-- The weights of the healthy backends added up from the left in Go `int` arithmetic. -/
def healthyWeight (bs : List WeightedBackend) : Int :=
  bs.foldl (fun t b => if b.Healthy = false then t else i64 (t + b.Weight)) 0

/-- The weights of the healthy backends added up as integers. -/
def healthyWeightSum (bs : List WeightedBackend) : Int :=
  ((bs.filter (fun b => b.Healthy)).map (fun b => b.Weight)).sum

/-- What holds of the loop variables of `WeightedLB.NextBackend` once the first `k`
backends of `bs` have been visited. -/
def PickInv (bs : List WeightedBackend) (k : Nat) (st : WeightedPick) : Prop :=
  st.backends.length = bs.length ∧
  (∀ i, st.backends[i]? = if i < k then (bs[i]?).map WeightedBackend.bump else bs[i]?) ∧
  st.totalWeight = healthyWeight (bs.take k) ∧
  (st.selectedBackend = none → ∀ i b, i < k → bs[i]? = some b → b.Healthy = false) ∧
  (∀ j, st.selectedBackend = some j → j < k ∧ ∃ sel, bs[j]? = some sel ∧ sel.Healthy = true ∧
    (∀ i b, i < k → bs[i]? = some b → b.Healthy = true → b.raised ≤ sel.raised) ∧
    (∀ i b, i < j → bs[i]? = some b → b.Healthy = true → b.raised < sel.raised))

/-- The largest Go `int`. -/
def maxInt : Int := 9223372036854775807

/-- A weighted balancer over two backends that both carry the largest `int` as weight. -/
def heavyWeighted : WeightedLB := NewWeightedLB ["http://a", "http://b"] [maxInt, maxInt]

/-- A weighted balancer over three backends with the weights 5, 1 and 1. -/
def smoothWeighted : WeightedLB :=
  NewWeightedLB ["http://a", "http://b", "http://c"] [5, 1, 1]

/-- What holds of the loop variables of `LeastConnectionsLB.NextBackend` once the first
`k` backends of `bs` have been visited. -/
def LeastInv (bs : List ConnectionBackend) (k : Nat) (st : ConnectionPick) : Prop :=
  (st.selectedBackend = none →
    ∀ (i : Nat) (b : ConnectionBackend), i < k → bs[i]? = some b → b.Healthy = false) ∧
  (∀ j, st.selectedBackend = some j → j < k ∧ ∃ sel, bs[j]? = some sel ∧
    sel.Healthy = true ∧ st.minConnections = sel.Connections ∧
    (∀ (i : Nat) (b : ConnectionBackend), i < k → bs[i]? = some b → b.Healthy = true →
      sel.Connections ≤ b.Connections) ∧
    (∀ (i : Nat) (b : ConnectionBackend), i < j → bs[i]? = some b → b.Healthy = true →
      sel.Connections < b.Connections))

/-- A least-connections balancer whose only backend carries the largest `int32`. -/
def fullConnections : LeastConnectionsLB :=
  { backends := [{ URL := "http://a", Connections := 2147483647, Healthy := true }] }

/-- A least-connections balancer with a tie between its second and third backend. -/
def tiedConnections : LeastConnectionsLB :=
  { backends :=
      [{ URL := "http://a", Connections := 3, Healthy := true },
       { URL := "http://b", Connections := 1, Healthy := true },
       { URL := "http://c", Connections := 1, Healthy := true },
       { URL := "http://d", Connections := 0, Healthy := false }] }

/-- The header of a request as the server hands it over, with two hop-by-hop fields. -/
def inboundHeader : Proxy.HeaderEntries :=
  [("Connection", ["keep-alive"]), ("Accept", ["text/html", "application/json"]),
   ("Host", ["gateway.local"]), ("X-Trace", ["t1"])]

/-- One call of `updateServiceHealth`: the time, the service, the outcome of the probe
and the error text. -/
structure Health.Update where
  now : Time
  serviceName : String
  healthy : Bool
  errorMsg : String
  deriving DecidableEq, Repr

/-- A sequence of calls of `updateServiceHealth`: the checker afterwards and what each
call printed. -/
def Health.Checker.runUpdates (format : Time → String) (hc : Health.Checker) :
    List Health.Update → Health.Checker × List (List Health.Printed)
  | [] => (hc, [])
  | u :: us =>
    let r := hc.updateServiceHealth format u.now u.serviceName u.healthy u.errorMsg
    let rest := Health.Checker.runUpdates format r.1 us
    (rest.1, r.2 :: rest.2)

/-- Whether an update changes the healthy flag of a registered service, told from the
flags alone. -/
def Health.flips (flag : String → Option Bool) (u : Health.Update) : Bool :=
  match flag u.serviceName with
  | some f => f != u.healthy
  | none => false

/-- The flags after an update, told from the flags alone. -/
def Health.flagsAfter (flag : String → Option Bool) (u : Health.Update) :
    String → Option Bool :=
  fun n => if n = u.serviceName then (flag n).map (fun _ => u.healthy) else flag n

/-- For each update of a sequence, whether it changes the flag of a registered service. -/
def Health.transitions (flag : String → Option Bool) : List Health.Update → List Bool
  | [] => []
  | u :: us => Health.flips flag u :: Health.transitions (Health.flagsAfter flag u) us

/-- The healthy flags of a checker. -/
def Health.Checker.flags (hc : Health.Checker) : String → Option Bool :=
  fun n => (hc.services n).map (fun s => s.Healthy)

/-- The lines of the kind `Service ... is now ...` among what was printed. -/
def Health.statusLines (out : List Health.Printed) : List Health.Printed :=
  out.filter (fun p => match p with
    | .nowStatus _ _ _ => true
    | _ => false)

/-- What a flag-changing update prints. -/
def Health.transitionOutput (format : Time → String) (u : Health.Update) :
    List Health.Printed :=
  Health.Printed.nowStatus u.serviceName
      (if u.healthy = true then "✅ HEALTHY" else "❌ UNHEALTHY") (format u.now) ::
    (if u.errorMsg ≠ "" then [Health.Printed.errorDetail u.errorMsg] else [])

/-- A checker with the one service `users`, as `AddService` leaves it. -/
def usersChecker : Health.Checker :=
  (Health.NewChecker.AddService "users" "http://users/health" (30 * Second)).1

/-- A probe of `users` that fails, one that fails again, and one that succeeds; then a
probe of a service that was never added. -/
def probeRun : List Health.Update :=
  [{ now := 10, serviceName := "users", healthy := false, errorMsg := "Request failed: EOF" },
   { now := 20, serviceName := "users", healthy := false, errorMsg := "Request failed: EOF" },
   { now := 30, serviceName := "users", healthy := true, errorMsg := "" },
   { now := 40, serviceName := "orders", healthy := false, errorMsg := "Request failed: EOF" }]

/-- A service whose balancer is enabled and has no backend. -/
def emptyBalancerService : Proxy.ServiceConfig :=
  { Name := "orders", BaseURL := "http://orders:3000", Prefix := "/api", Timeout := 30,
    LoadBalancer := { Strategy := "round_robin", Backends := [], Enabled := true } }

/-- A manager breaker with four failures in a row, Closed in generation 0. -/
def fourFailuresBreaker : CircuitBreaker :=
  { name := "svc", maxRequests := 5, interval := Minute, timeout := 30 * Second,
    readyToTrip := managerReadyToTrip, state := .StateClosed, generation := 0,
    counts := { Requests := 4, TotalSuccesses := 0, TotalFailures := 4,
                ConsecutiveSuccesses := 0, ConsecutiveFailures := 4 },
    expiry := Minute }

/-- A manager breaker that is Open with a dwell that ends at thirty seconds. -/
def openManagerBreaker : CircuitBreaker :=
  { name := "svc", maxRequests := 5, interval := Minute, timeout := 30 * Second,
    readyToTrip := managerReadyToTrip, state := .StateOpen, generation := 1,
    counts := zeroCounts, expiry := 30 * Second }

/-- A wrapped handler that returns an error; the world counts its calls. -/
def failingHandler : Nat → HandlerResult × Nat :=
  fun n => ({ failed := true, Status := 200 }, n + 1)

/-- Whether a call makes a counter wrap: the increment it performs starts from the
largest `uint32`. -/
def CircuitBreaker.wraps (cb : CircuitBreaker) : BreakerCall → Bool
  | .before now =>
    (cb.beforeRequest now).2.2.isNone &&
      decide ((cb.currentState now).1.counts.Requests = 4294967295)
  | .after now before success =>
    decide ((cb.currentState now).1.generation = before) &&
      (if success = true then
        decide ((cb.currentState now).1.counts.TotalSuccesses = 4294967295) ||
          decide ((cb.currentState now).1.counts.ConsecutiveSuccesses = 4294967295)
       else
        decide ((cb.currentState now).1.counts.TotalFailures = 4294967295) ||
          decide ((cb.currentState now).1.counts.ConsecutiveFailures = 4294967295))
  | .state _ => false

/-- No call of the sequence makes a counter wrap. -/
def noOverflow (cb : CircuitBreaker) : List BreakerCall → Bool
  | [] => true
  | c :: cs => !(cb.wraps c) && noOverflow (cb.call c) cs

/-- The generation never falls along the sequence: it does not wrap. -/
def noGenerationWrap (cb : CircuitBreaker) : List BreakerCall → Bool
  | [] => true
  | c :: cs => decide (cb.generation ≤ (cb.call c).generation) && noGenerationWrap (cb.call c) cs

/-- The generations handed out by admitted `beforeRequest` calls and not yet passed to
`afterRequest`, after one more call. -/
def CircuitBreaker.pending (cb : CircuitBreaker) (out : List Nat) : BreakerCall → List Nat
  | .before now =>
    if (cb.beforeRequest now).2.2.isNone = true then (cb.beforeRequest now).2.1 :: out else out
  | .after _ before _ => out.erase before
  | .state _ => out

/-- Every `afterRequest` of the sequence passes a generation that an earlier admitted
`beforeRequest` returned, and none is passed twice. -/
def oncePerAdmission (cb : CircuitBreaker) (out : List Nat) : List BreakerCall → Bool
  | [] => true
  | c :: cs =>
    (match c with
      | .after _ before _ => decide (before ∈ out)
      | _ => true) &&
    oncePerAdmission (cb.call c) (cb.pending out c) cs

/-- The clock reading of a call. -/
def BreakerCall.now : BreakerCall → Time
  | .before now => now
  | .after now _ _ => now
  | .state now => now

/-- The relations between the counters of a breaker that C30 states, with the range of
the two totals. -/
def Counts.Consistent (c : Counts) : Prop :=
  c.ConsecutiveSuccesses ≤ c.TotalSuccesses ∧ c.ConsecutiveFailures ≤ c.TotalFailures ∧
    (c.ConsecutiveSuccesses = 0 ∨ c.ConsecutiveFailures = 0) ∧
    c.TotalSuccesses ≤ 4294967295 ∧ c.TotalFailures ≤ 4294967295

/-- The completions counted in the current generation, with the admissions of this
generation still open, are no more than its admitted requests; no open admission is of a
later generation. -/
def Tracked (cb : CircuitBreaker) (out : List Nat) : Prop :=
  cb.counts.TotalSuccesses + cb.counts.TotalFailures + out.count cb.generation
      ≤ cb.counts.Requests ∧
    (∀ g ∈ out, g ≤ cb.generation) ∧ cb.generation < 18446744073709551616 ∧
    cb.counts.Requests ≤ 4294967295

/-- Settings with a window of one nanosecond. -/
def tickSettings : CircuitBreakerSettings :=
  { Name := "svc", MaxRequests := 3, Interval := 1, Timeout := 30 * Second,
    ReadyToTrip := none }

/-- The calls `beforeRequest` at the times `2 (m + 1)`, `2 (m + 2)`, ..., `2 (m + n)`. -/
def ticks : Nat → Nat → List BreakerCall
  | _, 0 => []
  | m, n + 1 => BreakerCall.before (2 * ((m : Int) + 1)) :: ticks (m + 1) n

/-- One admitted request at time 0, then `n` more at the times 2, 4, ..., each after the
window of the one before, then two completions that pass the generation 0. -/
def tickRun (n : Nat) : List BreakerCall :=
  BreakerCall.before 0 ::
    (ticks 0 n ++
      [BreakerCall.after (2 * (n : Int)) 0 true, BreakerCall.after (2 * (n : Int)) 0 true])

/-- The run `tickRun` with `2^64` admissions after the first: the first and the last of
its admissions return the generation 0. -/
def wrapRun : List BreakerCall := tickRun 18446744073709551616

/-- The breaker of `tickSettings`, made at time 0, after the admission at time 0 and `n`
more at the times 2, 4, ..., `2 n`. -/
def tickState (n : Nat) : CircuitBreaker :=
  { name := "svc", maxRequests := 3, interval := 1, timeout := 30 * Second,
    readyToTrip := defaultReadyToTrip, state := .StateClosed,
    generation := n % 18446744073709551616,
    counts := { zeroCounts with Requests := 1 },
    expiry := 2 * (n : Int) + 1 }

/-- The index the loop of `WeightedLB.NextBackend` has in `selectedBackend` when it ends:
the backend the call selects, `none` when no backend is healthy. -/
def WeightedLB.selected (lb : WeightedLB) : Option Nat :=
  ((List.range lb.backends.length).foldl WeightedLB.pickStep
    { backends := lb.backends, totalWeight := 0, selectedBackend := none }).selectedBackend

/-- The balancer after `k` consecutive `NextBackend` calls, with no other call between
them. -/
def WeightedLB.run (lb : WeightedLB) : Nat → WeightedLB
  | 0 => lb
  | k + 1 => (WeightedLB.run lb k).NextBackend.1

/-- The URLs the first `k` consecutive `NextBackend` calls return, in order. -/
def WeightedLB.picks (lb : WeightedLB) : Nat → List String
  | 0 => []
  | k + 1 => WeightedLB.picks lb k ++ [(WeightedLB.run lb k).NextBackend.2]

/-- The indices the first `k` consecutive `NextBackend` calls select, in order. -/
def WeightedLB.selections (lb : WeightedLB) : Nat → List (Option Nat)
  | 0 => []
  | k + 1 => WeightedLB.selections lb k ++ [(WeightedLB.run lb k).selected]

/-- The weights of the backends added up as integers. -/
def weightSum (bs : List WeightedBackend) : Int := (bs.map (fun b => b.Weight)).sum

/-- The weight of the backend at index `i`, 0 past the end. -/
def weightAt (bs : List WeightedBackend) (i : Nat) : Int :=
  ((bs[i]?).map (fun b => b.Weight)).getD 0

/-- The state of a weighted balancer that started as `bs0` with all current weights 0,
after the calls that selected the indices `sels`: the backend at index `i` has been
selected at most as often as its weight says, and its current weight is the number of
calls times its weight, minus the weight sum for each time it was selected. -/
def SmoothInv (bs0 : List WeightedBackend) (sels : List Nat) (lb : WeightedLB) : Prop :=
  (∀ j ∈ sels, j < bs0.length) ∧ lb.backends.length = bs0.length ∧
  ∀ (i : Nat) (b0 : WeightedBackend), bs0[i]? = some b0 →
    (sels.count i : Int) ≤ b0.Weight ∧
    lb.backends[i]? = some
      { b0 with CurrentWeight := sels.length * b0.Weight - weightSum bs0 * sels.count i }

/-- A weighted balancer over three backends whose weights add up to `2 ^ 64`. -/
def wrappedWeighted : WeightedLB :=
  NewWeightedLB ["http://a", "http://b", "http://c"] [maxInt, maxInt, 2]

/-- A weighted balancer in which the first two backends carry the largest `int` as weight
and the same current weight, and the third the weight 2. -/
def Starved (lb : WeightedLB) : Prop :=
  ∃ x y : Int, lb =
    { backends :=
        [{ URL := "http://a", Weight := maxInt, CurrentWeight := x, Healthy := true },
         { URL := "http://b", Weight := maxInt, CurrentWeight := x, Healthy := true },
         { URL := "http://c", Weight := 2, CurrentWeight := y, Healthy := true }],
      current := 0 }

/-- A breaker whose generation is the largest `uint64`, Open with an expiry in the past. -/
def wrapBreaker : CircuitBreaker :=
  { name := "svc", maxRequests := 3, interval := Minute, timeout := 30 * Second,
    readyToTrip := defaultReadyToTrip, state := .StateOpen,
    generation := 18446744073709551615, counts := zeroCounts, expiry := 1 }

/-- A service behind the prefix `/api` with the base URL `http://users:3001` and no
balancer. -/
def usersService : Proxy.ServiceConfig :=
  { Name := "users", BaseURL := "http://users:3001", Prefix := "/api", Timeout := 30,
    LoadBalancer := { Strategy := "round_robin", Backends := [], Enabled := false } }

/-- A sequence of requests through the breaker middleware of the manager on one breaker,
one after the other; an entry holds the three clock readings of the request and its
wrapped handler.  The answers come back in order, with the last breaker and world. -/
def MiddlewareAll {σ : Type} (cb : CircuitBreaker) (w : σ) :
    List (Time × Time × Time × (σ → HandlerResult × σ)) →
      CircuitBreaker × σ × List MiddlewareResult
  | [] => (cb, w, [])
  | (t1, t2, t3, next) :: rest =>
    let r := Middleware cb t1 t2 t3 next w
    let rs := MiddlewareAll r.1 r.2.1 rest
    (rs.1, rs.2.1, r.2.2 :: rs.2.2)

/-- Four requests on a fresh manager breaker, one a second, whose handler fails. -/
def fourFailedRequests : List (Time × Time × Time × (Nat → HandlerResult × Nat)) :=
  [(1 * Second, 1 * Second, 1 * Second, failingHandler),
   (2 * Second, 2 * Second, 2 * Second, failingHandler),
   (3 * Second, 3 * Second, 3 * Second, failingHandler),
   (4 * Second, 4 * Second, 4 * Second, failingHandler)]

namespace Proxy

/-- The value of `n + 1` arrays nested in one another, the innermost one empty: the
document of `n + 1` opening and `n + 1` closing brackets. -/
def nestedArrays : Nat → JSON
  | 0 => .array []
  | n + 1 => .array [nestedArrays n]

/-- A codec on `Wire` bodies with a nesting limit, as the decoder of `encoding/json` has
one (10000): a document nested deeper than `limit` is refused by both decoders, one
within the limit decodes as with `wireCodec`, and a value of any depth is encoded as the
document that holds it.  The text of a document is given by `render`. -/
def nestingCodec (limit : Nat) (render : JSON → String) : JSONCodec Wire :=
  { len := wireCodec.len
    text := fun body =>
      match body with
      | .json v => render v
      | .text s => s
    Unmarshal := fun body =>
      match body with
      | .json v => if v.depth ≤ limit then some v else none
      | .text _ => none
    UnmarshalMap := fun body =>
      match body with
      | .json v => if v.depth ≤ limit then wireCodec.UnmarshalMap (.json v) else none
      | .text _ => none
    Encode := fun v => .json v }

end Proxy

/-! ## Basic facts about the breaker -/

theorem toNewGeneration_generation (cb : CircuitBreaker) (now : Time) :
    (cb.toNewGeneration now).generation = u64 (cb.generation + 1) := by
  simp only [CircuitBreaker.toNewGeneration]
  split <;> (try split) <;> rfl

theorem toNewGeneration_counts (cb : CircuitBreaker) (now : Time) :
    (cb.toNewGeneration now).counts = zeroCounts := by
  simp only [CircuitBreaker.toNewGeneration]
  split <;> (try split) <;> rfl

theorem toNewGeneration_state (cb : CircuitBreaker) (now : Time) :
    (cb.toNewGeneration now).state = cb.state := by
  simp only [CircuitBreaker.toNewGeneration]
  split <;> (try split) <;> rfl

theorem toNewGeneration_maxRequests (cb : CircuitBreaker) (now : Time) :
    (cb.toNewGeneration now).maxRequests = cb.maxRequests := by
  simp only [CircuitBreaker.toNewGeneration]
  split <;> (try split) <;> rfl

theorem toNewGeneration_readyToTrip (cb : CircuitBreaker) (now : Time) :
    (cb.toNewGeneration now).readyToTrip = cb.readyToTrip := by
  simp only [CircuitBreaker.toNewGeneration]
  split <;> (try split) <;> rfl

theorem setState_state (cb : CircuitBreaker) (s : State) (now : Time) :
    (cb.setState s now).state = s := by
  unfold CircuitBreaker.setState
  split
  · assumption
  · rw [toNewGeneration_state]

theorem setState_generation_of_ne (cb : CircuitBreaker) (s : State) (now : Time)
    (h : cb.state ≠ s) : (cb.setState s now).generation = u64 (cb.generation + 1) := by
  unfold CircuitBreaker.setState
  rw [if_neg h, toNewGeneration_generation]

theorem setState_counts_of_ne (cb : CircuitBreaker) (s : State) (now : Time)
    (h : cb.state ≠ s) : (cb.setState s now).counts = zeroCounts := by
  unfold CircuitBreaker.setState
  rw [if_neg h, toNewGeneration_counts]

theorem setState_generation_cases (cb : CircuitBreaker) (s : State) (now : Time) :
    (cb.setState s now).generation = cb.generation ∨
      (cb.setState s now).generation = u64 (cb.generation + 1) := by
  unfold CircuitBreaker.setState
  split
  · exact Or.inl rfl
  · exact Or.inr (toNewGeneration_generation _ _)

theorem currentState_snd (cb : CircuitBreaker) (now : Time) :
    (cb.currentState now).2 = ((cb.currentState now).1.state, (cb.currentState now).1.generation) :=
  rfl

theorem currentState_generation_cases (cb : CircuitBreaker) (now : Time) :
    (cb.currentState now).1.generation = cb.generation ∨
      (cb.currentState now).1.generation = u64 (cb.generation + 1) := by
  simp only [CircuitBreaker.currentState]
  split
  · split
    · exact Or.inr (toNewGeneration_generation _ _)
    · exact Or.inl rfl
  · split
    · exact setState_generation_cases _ _ _
    · exact Or.inl rfl
  · exact Or.inl rfl

theorem beforeRequest_generation (cb : CircuitBreaker) (now : Time) :
    (cb.beforeRequest now).1.generation = (cb.currentState now).1.generation := by
  simp only [CircuitBreaker.beforeRequest, currentState_snd]
  split_ifs <;> rfl

theorem State_fst (cb : CircuitBreaker) (now : Time) :
    (cb.State now).1 = (cb.currentState now).1 := rfl

theorem State_snd (cb : CircuitBreaker) (now : Time) :
    (cb.State now).2 = (cb.currentState now).1.state := rfl

theorem onSuccess_generation_cases (cb : CircuitBreaker) (s : State) (now : Time) :
    (cb.onSuccess s now).generation = cb.generation ∨
      (cb.onSuccess s now).generation = u64 (cb.generation + 1) := by
  simp only [CircuitBreaker.onSuccess]
  split
  · exact setState_generation_cases _ _ _
  · exact Or.inl rfl

theorem onFailure_generation_cases (cb : CircuitBreaker) (s : State) (now : Time) :
    (cb.onFailure s now).generation = cb.generation ∨
      (cb.onFailure s now).generation = u64 (cb.generation + 1) := by
  simp only [CircuitBreaker.onFailure]
  split
  · exact setState_generation_cases _ _ _
  · exact Or.inl rfl

theorem afterRequest_eq (cb : CircuitBreaker) (now : Time) (before : Nat) (success : Bool) :
    cb.afterRequest now before success =
      if (cb.currentState now).1.generation ≠ before then (cb.currentState now).1
      else if success = true then
        (cb.currentState now).1.onSuccess (cb.currentState now).1.state now
      else (cb.currentState now).1.onFailure (cb.currentState now).1.state now := rfl

theorem afterRequest_generation_cases (cb : CircuitBreaker) (now : Time) (before : Nat)
    (success : Bool) :
    (cb.afterRequest now before success).generation = cb.generation ∨
      (cb.afterRequest now before success).generation = u64 (cb.generation + 1) ∨
      (cb.afterRequest now before success).generation = u64 (u64 (cb.generation + 1) + 1) := by
  rw [afterRequest_eq]
  have h0 := currentState_generation_cases cb now
  have h1 := onSuccess_generation_cases (cb.currentState now).1 (cb.currentState now).1.state now
  have h2 := onFailure_generation_cases (cb.currentState now).1 (cb.currentState now).1.state now
  split_ifs
  · rcases h0 with h0 | h0
    · exact Or.inl h0
    · exact Or.inr (Or.inl h0)
  · rcases h0 with h0 | h0 <;> rcases h1 with h1 | h1 <;> rw [h0] at h1 <;> simp [h1, h0]
  · rcases h0 with h0 | h0 <;> rcases h2 with h2 | h2 <;> rw [h0] at h2 <;> simp [h2, h0]

/-- C1, as stated, fails where the `uint64` generation wraps: `State()` at time 2 on a
breaker that is Open since before time 1 with generation `2^64 - 1` moves it to HalfOpen
and the generation falls to 0. -/
theorem C1_generation_wraps_at_max :
    wrapBreaker.generation = 18446744073709551615 ∧
      (wrapBreaker.State 2).1.generation = 0 ∧
      ¬ (wrapBreaker.generation ≤ (wrapBreaker.State 2).1.generation) := by
  decide

/-- C1 (amended): while the `uint64` generation cannot wrap, no operation lowers it:
from a generation below `2^64 - 1`, `beforeRequest` and `State` leave it equal or one
higher, and from a generation below `2^64 - 2`, `afterRequest` leaves it equal, one or
two higher.  Every call of `setState` that changes the state field sets the generation
to its successor modulo `2^64` (exactly one more below `2^64 - 1`) and leaves the five
counters at 0. -/
theorem C1_generation_monotone (cb : CircuitBreaker) (now : Time) (before : Nat)
    (success : Bool) (h : cb.generation + 1 < 18446744073709551616) :
    (cb.generation ≤ (cb.beforeRequest now).1.generation ∧
      (cb.beforeRequest now).1.generation ≤ cb.generation + 1) ∧
    (cb.generation ≤ (cb.State now).1.generation ∧
      (cb.State now).1.generation ≤ cb.generation + 1) ∧
    (cb.generation + 2 < 18446744073709551616 →
      cb.generation ≤ (cb.afterRequest now before success).generation ∧
      (cb.afterRequest now before success).generation ≤ cb.generation + 2) ∧
    (∀ s : State, cb.state ≠ s →
      (cb.setState s now).state = s ∧
      (cb.setState s now).generation = cb.generation + 1 ∧
      (cb.setState s now).counts.Requests = 0 ∧
      (cb.setState s now).counts.TotalSuccesses = 0 ∧
      (cb.setState s now).counts.TotalFailures = 0 ∧
      (cb.setState s now).counts.ConsecutiveSuccesses = 0 ∧
      (cb.setState s now).counts.ConsecutiveFailures = 0) := by
  have hc := currentState_generation_cases cb now
  have ha := afterRequest_generation_cases cb now before success
  rw [beforeRequest_generation, State_fst]
  simp only [u64] at hc ha
  refine ⟨by omega, by omega, fun h2 => by omega, fun s hs => ?_⟩
  refine ⟨setState_state cb s now, ?_⟩
  rw [setState_generation_of_ne cb s now hs, setState_counts_of_ne cb s now hs]
  refine ⟨?_, rfl, rfl, rfl, rfl, rfl⟩
  exact Nat.mod_eq_of_lt h

/-- C1 (amended) at a concrete breaker: a fresh breaker, a completion at time 5. -/
theorem C1_generation_monotone_witness :
    (NewCircuitBreaker ⟨"svc", 3, Minute, 30 * Second, none⟩ 0).generation + 1
        < 18446744073709551616 ∧
      (NewCircuitBreaker ⟨"svc", 3, Minute, 30 * Second, none⟩ 0).generation ≤
        ((NewCircuitBreaker ⟨"svc", 3, Minute, 30 * Second, none⟩ 0).State 5).1.generation :=
  ⟨by decide,
    (C1_generation_monotone (NewCircuitBreaker ⟨"svc", 3, Minute, 30 * Second, none⟩ 0)
      5 0 true (by decide)).2.1.1⟩

theorem currentState_eq_strict (cb : CircuitBreaker) (now : Time) :
    (cb.currentState now).1 = currentStateStrict cb now := by
  obtain ⟨name, maxRequests, interval, timeout, readyToTrip, state, generation, counts,
    expiry⟩ := cb
  cases state <;>
    simp only [CircuitBreaker.currentState, currentStateStrict, CircuitBreaker.setState,
      CircuitBreaker.toNewGeneration, IsZero, Before, Add, Counts.Clear, zeroCounts] <;>
    split_ifs <;> simp_all

/-- C2, as stated, fails: a completion that is stale because the refresh itself started
a new generation leaves the counters cleared (Closed window over), or the state moved
from Open to HalfOpen. -/
theorem C2_stale_completion_changes_counts_and_state :
    ((windowBreaker.currentState (Minute + 1)).2.2 ≠ 0 ∧
      windowBreaker.counts.Requests = 3 ∧
      (windowBreaker.afterRequest (Minute + 1) 0 true).counts.Requests = 0) ∧
    ((openBreaker.currentState (30 * Second + 1)).2.2 ≠ 1 ∧
      openBreaker.state = .StateOpen ∧
      (openBreaker.afterRequest (30 * Second + 1) 1 false).state = .StateHalfOpen) := by
  decide

/-- C2 (amended): a stale completion leaves the breaker exactly as the state refresh
`currentState now` left it, so the completion itself changes no counter and no state;
when the refresh fires no transition, the whole breaker, state and counters included, is
as before the call. -/
theorem C2_stale_completion_is_refresh_only (cb : CircuitBreaker) (now : Time)
    (before : Nat) (success : Bool) (h : (cb.currentState now).2.2 ≠ before) :
    cb.afterRequest now before success = (cb.currentState now).1 ∧
    (¬ (cb.state = .StateClosed ∧ cb.expiry ≠ zeroTime ∧ cb.expiry < now) →
      ¬ (cb.state = .StateOpen ∧ cb.expiry < now) →
      cb.afterRequest now before success = cb) := by
  have h1 : cb.afterRequest now before success = (cb.currentState now).1 := by
    have h2 : (cb.currentState now).1.generation ≠ before := h
    rw [afterRequest_eq, if_pos h2]
  refine ⟨h1, fun ha hb => ?_⟩
  rw [h1, currentState_eq_strict, currentStateStrict, if_neg ha, if_neg hb]

/-- C2 (amended) at a concrete breaker: a completion of generation 0 arriving at an Open
breaker of generation 1 before its dwell is over. -/
theorem C2_stale_completion_is_refresh_only_witness :
    (openBreaker.currentState Second).2.2 ≠ 0 ∧
      openBreaker.afterRequest Second 0 true = (openBreaker.currentState Second).1 :=
  ⟨by decide, (C2_stale_completion_is_refresh_only openBreaker Second 0 true (by decide)).1⟩

theorem currentState_eq (cb : CircuitBreaker) (now : Time) :
    cb.currentState now =
      (currentStateStrict cb now, (currentStateStrict cb now).state,
        (currentStateStrict cb now).generation) := by
  rw [← currentState_eq_strict]
  rfl

theorem beforeRequest_eq (cb : CircuitBreaker) (now : Time) :
    cb.beforeRequest now =
      if (cb.currentState now).1.state = .StateOpen then
        ((cb.currentState now).1, (cb.currentState now).1.generation, some .isOpen)
      else if (cb.currentState now).1.state = .StateHalfOpen ∧
          (cb.currentState now).1.counts.Requests ≥ (cb.currentState now).1.maxRequests then
        ((cb.currentState now).1, (cb.currentState now).1.generation, some .tooManyRequests)
      else
        ({ (cb.currentState now).1 with counts := (cb.currentState now).1.counts.OnRequest },
          (cb.currentState now).1.generation, none) := rfl

/-- C4, as stated, fails where the `uint32` request counter wraps: a Closed breaker
without windowing that has admitted `2^32 - 1` requests admits one more, and its request
counter falls to 0 instead of growing by one. -/
theorem C4_requests_wrap_on_admission :
    fullCounterBreaker.counts.Requests = 4294967295 ∧
      (fullCounterBreaker.beforeRequest 7).2.2 = none ∧
      (fullCounterBreaker.beforeRequest 7).1.counts.Requests = 0 ∧
      ¬ ((fullCounterBreaker.beforeRequest 7).1.counts.Requests =
          ((fullCounterBreaker.currentState 7).1).counts.Requests + 1) := by
  decide

/-- C4 (amended): `beforeRequest` rejects exactly when the refreshed state is Open (error
"circuit breaker is open") or is HalfOpen with `counts.Requests ≥ maxRequests` (error
"too many requests"); a rejection leaves the refreshed breaker untouched; an admission
sets `counts.Requests` to its successor modulo `2^32` (exactly one more when it was below
`2^32 - 1`), changes nothing else of the refreshed breaker, and returns the generation
the breaker has after the call. -/
theorem C4_admission_decision (cb : CircuitBreaker) (now : Time) :
    ((cb.beforeRequest now).2.2 ≠ none ↔
      ((cb.currentState now).1.state = .StateOpen ∨
        ((cb.currentState now).1.state = .StateHalfOpen ∧
          (cb.currentState now).1.counts.Requests ≥ (cb.currentState now).1.maxRequests))) ∧
    ((cb.currentState now).1.state = .StateOpen →
      cb.beforeRequest now =
        ((cb.currentState now).1, (cb.currentState now).1.generation, some .isOpen)) ∧
    ((cb.currentState now).1.state = .StateHalfOpen →
      (cb.currentState now).1.counts.Requests ≥ (cb.currentState now).1.maxRequests →
      cb.beforeRequest now =
        ((cb.currentState now).1, (cb.currentState now).1.generation,
          some .tooManyRequests)) ∧
    ((cb.beforeRequest now).2.2 = none →
      (cb.beforeRequest now).1 =
        { (cb.currentState now).1 with
          counts :=
            { (cb.currentState now).1.counts with
              Requests := ((cb.currentState now).1.counts.Requests + 1) % 4294967296 } } ∧
      ((cb.currentState now).1.counts.Requests + 1 < 4294967296 →
        (cb.beforeRequest now).1.counts.Requests =
          (cb.currentState now).1.counts.Requests + 1) ∧
      (cb.beforeRequest now).2.1 = (cb.beforeRequest now).1.generation) := by
  rw [beforeRequest_eq]
  refine ⟨?_, ?_, ?_, ?_⟩
  · split_ifs with h1 h2
    · simp [h1]
    · simp [h2]
    · simp only [ne_eq, not_true_eq_false, false_iff]
      tauto
  · intro h
    rw [if_pos h]
  · intro h1 h2
    rw [if_neg (by rw [h1]; decide), if_pos ⟨h1, h2⟩]
  · split_ifs with h1 h2
    · simp
    · simp
    · intro _
      refine ⟨rfl, ?_, rfl⟩
      intro hlt
      exact Nat.mod_eq_of_lt hlt

/-- C4 (amended) at a concrete breaker: a fresh breaker admits its first request. -/
theorem C4_admission_decision_witness :
    ((NewCircuitBreaker (managerSettings "svc") 0).beforeRequest 5).2.2 = none ∧
      ((NewCircuitBreaker (managerSettings "svc") 0).beforeRequest 5).1.counts.Requests = 1 ∧
      ((NewCircuitBreaker (managerSettings "svc") 0).beforeRequest 5).2.1 =
        ((NewCircuitBreaker (managerSettings "svc") 0).beforeRequest 5).1.generation :=
  ⟨by decide,
    ((C4_admission_decision (NewCircuitBreaker (managerSettings "svc") 0) 5).2.2.2
      (by decide)).2.1 (by decide),
    ((C4_admission_decision (NewCircuitBreaker (managerSettings "svc") 0) 5).2.2.2
      (by decide)).2.2⟩

/-- C5, as stated, fails for a successful completion: on the manager breaker with ten
admitted requests, five failures and four successes, the tenth completion succeeds; the
updated counters satisfy `ReadyToTrip` (five failures in ten requests) and the breaker
stays Closed.  The same is seen from a fresh manager breaker through `Execute` alone:
after nine calls that alternate failure and success and a tenth that succeeds, the
breaker is Closed in generation 0 with counters that satisfy `ReadyToTrip`. -/
theorem C5_success_does_not_trip :
    ((evenSplitBreaker.currentState Second).2.2 = 0 ∧
      evenSplitBreaker.readyToTrip ((evenSplitBreaker.currentState Second).1.counts.OnSuccess)
        = true ∧
      (evenSplitBreaker.afterRequest Second 0 true).counts =
        (evenSplitBreaker.currentState Second).1.counts.OnSuccess ∧
      (evenSplitBreaker.afterRequest Second 0 true).state = .StateClosed ∧
      (evenSplitBreaker.afterRequest Second 0 true).state ≠ .StateOpen) ∧
    (alternatingRun.1.counts =
        { Requests := 10, TotalSuccesses := 5, TotalFailures := 5,
          ConsecutiveSuccesses := 1, ConsecutiveFailures := 0 } ∧
      alternatingRun.1.readyToTrip alternatingRun.1.counts = true ∧
      alternatingRun.1.generation = 0 ∧
      alternatingRun.1.state = .StateClosed) := by
  decide

/-- C5 (amended): a failed completion that is not stale and whose updated counters
satisfy `readyToTrip` leaves the breaker Open, whatever the state was.  A successful
completion does not consult `readyToTrip`: it keeps the refreshed state, except that it
moves HalfOpen to Closed once `ConsecutiveSuccesses ≥ maxRequests`; so it never moves a
breaker to Open. -/
theorem C5_failure_trips_in_any_state (cb : CircuitBreaker) (now : Time) (before : Nat)
    (h : (cb.currentState now).2.2 = before) :
    (cb.readyToTrip ((cb.currentState now).1.counts.OnFailure) = true →
      (cb.afterRequest now before false).state = .StateOpen) ∧
    ((cb.afterRequest now before true).state = (cb.currentState now).1.state ∨
      ((cb.currentState now).1.state = .StateHalfOpen ∧
        (cb.afterRequest now before true).state = .StateClosed)) := by
  have h2 : ¬ ((cb.currentState now).1.generation ≠ before) := fun hne => hne h
  have hr : (cb.currentState now).1.readyToTrip = cb.readyToTrip := by
    rw [currentState_eq_strict, currentStateStrict]
    split_ifs <;> rfl
  constructor
  · intro ht
    rw [afterRequest_eq, if_neg h2, if_neg (by decide)]
    simp only [CircuitBreaker.onFailure, hr, ht, if_true]
    exact setState_state _ _ _
  · rw [afterRequest_eq, if_neg h2, if_pos rfl]
    simp only [CircuitBreaker.onSuccess]
    split_ifs with hc
    · exact Or.inr ⟨hc.1, setState_state _ _ _⟩
    · exact Or.inl rfl

/-- C5 (amended) at a concrete breaker: the scenario breaker after four failures in a
row admits a fifth request at one second, and its failure at two seconds trips it. -/
theorem C5_failure_trips_in_any_state_witness :
    ((((scenarioClosed 4 Minute).beforeRequest Second).1.currentState (2 * Second)).2.2 = 0) ∧
      (((scenarioClosed 4 Minute).beforeRequest Second).1.afterRequest (2 * Second) 0
        false).state = .StateOpen :=
  ⟨by decide,
    (C5_failure_trips_in_any_state ((scenarioClosed 4 Minute).beforeRequest Second).1
      (2 * Second) 0 (by decide)).1 (by decide)⟩

/-- C6, as stated, fails on the boundary and on the new expiry.  At `now = expiry` the
code fires neither transition (the specification fires both): the Closed breaker keeps
its generation and counters, the Open breaker stays Open.  And a Closed breaker with
`interval = 0` that starts a new generation gets the unset expiry, not `now + interval`. -/
theorem C6_no_transition_at_expiry :
    (windowBreaker.expiry = Minute ∧
      (windowBreaker.currentState Minute).1.generation = 0 ∧
      (windowBreaker.currentState Minute).1.counts.Requests = 3 ∧
      (currentStateSpec windowBreaker Minute).generation = 1) ∧
    (openBreaker.expiry = 30 * Second ∧
      (openBreaker.currentState (30 * Second)).1.state = .StateOpen ∧
      (currentStateSpec openBreaker (30 * Second)).state = .StateHalfOpen) ∧
    (((NewCircuitBreaker ⟨"svc", 3, 0, 30 * Second, none⟩ 5).currentState 6).1.expiry = zeroTime ∧
      (currentStateSpec (NewCircuitBreaker ⟨"svc", 3, 0, 30 * Second, none⟩ 5) 6).expiry = 6) := by
  decide

/-- C6 (amended): `currentState now` returns the state and generation of the refreshed
breaker, and the refresh is: (a) Closed with expiry set and `expiry < now`: generation
advanced by one (modulo `2^64`), counters cleared, expiry `now + interval`, or unset when
`interval = 0`; (b) Open with `expiry < now`: HalfOpen, generation advanced, counters
cleared, expiry unset; (c) otherwise nothing changes, in particular when `now = expiry`. -/
theorem C6_currentState_refinement (cb : CircuitBreaker) (now : Time) :
    cb.currentState now =
      (currentStateStrict cb now, (currentStateStrict cb now).state,
        (currentStateStrict cb now).generation) ∧
    (cb.expiry = now → (cb.currentState now).1 = cb) := by
  refine ⟨currentState_eq cb now, fun h => ?_⟩
  rw [currentState_eq_strict, currentStateStrict, if_neg, if_neg]
  · rintro ⟨_, h2⟩
    rw [h] at h2
    exact lt_irrefl _ h2
  · rintro ⟨_, _, h2⟩
    rw [h] at h2
    exact lt_irrefl _ h2

theorem Execute_rejected {σ : Type} (cb : CircuitBreaker) (t1 t2 : Time)
    (req : σ → ReqOutcome × σ) (w : σ) (e : BreakerError)
    (h : (cb.beforeRequest t1).2.2 = some e) :
    cb.Execute t1 t2 req w = ((cb.beforeRequest t1).1, w, .rejected e) := by
  unfold CircuitBreaker.Execute
  rcases hb : cb.beforeRequest t1 with ⟨cb1, g, err⟩
  rw [hb] at h
  simp only at h
  subst h
  rfl

theorem Execute_admitted {σ : Type} (cb : CircuitBreaker) (t1 t2 : Time)
    (req : σ → ReqOutcome × σ) (w : σ) (h : (cb.beforeRequest t1).2.2 = none) :
    cb.Execute t1 t2 req w =
      ((cb.beforeRequest t1).1.afterRequest t2 (cb.beforeRequest t1).2.1
          (decide ((req w).1 = .ok)),
        (req w).2, .ran (req w).1) := by
  unfold CircuitBreaker.Execute
  rcases hb : cb.beforeRequest t1 with ⟨cb1, g, err⟩
  rw [hb] at h
  simp only at h
  subst h
  rcases hr : req w with ⟨o, w1⟩
  cases o <;> rfl

theorem currentState_of_not_before (cb : CircuitBreaker) (now : Time)
    (h : ¬ cb.expiry < now) : (cb.currentState now).1 = cb := by
  rw [currentState_eq_strict, currentStateStrict, if_neg (fun hc => h hc.2.2),
    if_neg (fun hc => h hc.2)]

theorem currentState_of_halfOpen (cb : CircuitBreaker) (now : Time)
    (h : cb.state = .StateHalfOpen) : (cb.currentState now).1 = cb := by
  rw [currentState_eq_strict, currentStateStrict, if_neg, if_neg]
  · rw [h]; simp
  · rw [h]; simp

theorem Execute_closed_failure {σ : Type} (cb : CircuitBreaker) (t1 t2 : Time)
    (req : σ → ReqOutcome × σ) (w : σ) (hs : cb.state = .StateClosed)
    (h1 : ¬ cb.expiry < t1) (h2 : ¬ cb.expiry < t2) (hreq : (req w).1 ≠ .ok) :
    cb.Execute t1 t2 req w =
      (if cb.readyToTrip cb.counts.OnRequest.OnFailure = true then
          { cb with state := .StateOpen, generation := u64 (cb.generation + 1),
                    counts := zeroCounts, expiry := t2 + cb.timeout }
        else { cb with counts := cb.counts.OnRequest.OnFailure },
        (req w).2, .ran (req w).1) := by
  obtain ⟨name, maxRequests, interval, timeout, readyToTrip, state, generation, counts,
    expiry⟩ := cb
  simp only at hs h1 h2
  subst hs
  have hb : (CircuitBreaker.mk name maxRequests interval timeout readyToTrip .StateClosed
      generation counts expiry).beforeRequest t1 =
      (CircuitBreaker.mk name maxRequests interval timeout readyToTrip .StateClosed
        generation counts.OnRequest expiry, generation, none) := by
    simp [beforeRequest_eq, currentState_eq_strict, currentStateStrict, h1]
  rw [Execute_admitted _ t1 t2 req w (by rw [hb]), hb]
  simp only [hreq, decide_False]
  simp only [afterRequest_eq, currentState_eq_strict, currentStateStrict, h2, and_false,
    if_false, ne_eq, not_true_eq_false, Bool.false_eq_true, CircuitBreaker.onFailure,
    CircuitBreaker.setState]
  by_cases ht : readyToTrip counts.OnRequest.OnFailure = true
  · simp [ht, CircuitBreaker.toNewGeneration, Add, Counts.Clear, zeroCounts]
  · simp [ht]

theorem Execute_open_rejected {σ : Type} (cb : CircuitBreaker) (t1 t2 : Time)
    (req : σ → ReqOutcome × σ) (w : σ) (hs : cb.state = .StateOpen)
    (h1 : ¬ cb.expiry < t1) :
    cb.Execute t1 t2 req w = (cb, w, .rejected .isOpen) := by
  have hb : cb.beforeRequest t1 = (cb, cb.generation, some .isOpen) := by
    rw [beforeRequest_eq, currentState_of_not_before cb t1 h1, if_pos hs]
  rw [Execute_rejected cb t1 t2 req w .isOpen (by rw [hb]), hb]

theorem beforeRequest_open_expired (cb : CircuitBreaker) (t1 : Time)
    (hs : cb.state = .StateOpen) (h1 : cb.expiry < t1) (hm : 0 < cb.maxRequests) :
    cb.beforeRequest t1 =
      ({ cb with state := .StateHalfOpen, generation := u64 (cb.generation + 1),
                 counts := zeroCounts.OnRequest, expiry := zeroTime },
        u64 (cb.generation + 1), none) := by
  obtain ⟨name, maxRequests, interval, timeout, readyToTrip, state, generation, counts,
    expiry⟩ := cb
  simp only at hs h1 hm
  subst hs
  have hm2 : ¬ (maxRequests = 0) := by omega
  simp [beforeRequest_eq, currentState_eq_strict, currentStateStrict, h1, zeroCounts, hm2]

theorem Execute_halfOpen_success {σ : Type} (cb : CircuitBreaker) (t1 t2 : Time)
    (req : σ → ReqOutcome × σ) (w : σ) (hs : cb.state = .StateHalfOpen)
    (hr : cb.counts.Requests < cb.maxRequests) (hreq : (req w).1 = .ok) :
    cb.Execute t1 t2 req w =
      (if cb.counts.OnRequest.OnSuccess.ConsecutiveSuccesses ≥ cb.maxRequests then
          { cb with state := .StateClosed, generation := u64 (cb.generation + 1),
                    counts := zeroCounts,
                    expiry := if cb.interval = 0 then zeroTime else t2 + cb.interval }
        else { cb with counts := cb.counts.OnRequest.OnSuccess },
        (req w).2, .ran .ok) := by
  obtain ⟨name, maxRequests, interval, timeout, readyToTrip, state, generation, counts,
    expiry⟩ := cb
  simp only at hs hr
  subst hs
  have hb : (CircuitBreaker.mk name maxRequests interval timeout readyToTrip .StateHalfOpen
      generation counts expiry).beforeRequest t1 =
      (CircuitBreaker.mk name maxRequests interval timeout readyToTrip .StateHalfOpen
        generation counts.OnRequest expiry, generation, none) := by
    simp [beforeRequest_eq, currentState_eq_strict, currentStateStrict, hr]
  rw [Execute_admitted _ t1 t2 req w (by rw [hb]), hb, hreq]
  by_cases hc : counts.OnRequest.OnSuccess.ConsecutiveSuccesses ≥ maxRequests
  · by_cases hi : interval = 0 <;>
      simp [afterRequest_eq, currentState_eq_strict, currentStateStrict,
        CircuitBreaker.onSuccess, CircuitBreaker.setState, CircuitBreaker.toNewGeneration,
        Add, Counts.Clear, zeroCounts, hc, hi]
  · simp [afterRequest_eq, currentState_eq_strict, currentStateStrict,
      CircuitBreaker.onSuccess, hc]

theorem scenario_failure_step {σ : Type} (k : Nat) (hk : k < 4) (e a b : Time)
    (ha : a ≤ e) (hb : b ≤ e) (req : σ → ReqOutcome × σ) (w : σ)
    (hreq : (req w).1 ≠ .ok) :
    (scenarioClosed k e).Execute a b req w =
      (scenarioClosed (k + 1) e, (req w).2, .ran (req w).1) := by
  rw [Execute_closed_failure _ a b req w rfl (not_lt.mpr ha) (not_lt.mpr hb) hreq]
  have h1 : u32 (k + 1) = k + 1 := Nat.mod_eq_of_lt (by omega)
  have h2 : ¬ (5 ≤ k + 1) := by omega
  simp [scenarioClosed, scenarioReadyToTrip, Counts.OnRequest, Counts.OnFailure, h1, h2]

theorem scenario_trip_step {σ : Type} (e a b : Time)
    (ha : a ≤ e) (hb : b ≤ e) (req : σ → ReqOutcome × σ) (w : σ)
    (hreq : (req w).1 ≠ .ok) :
    (scenarioClosed 4 e).Execute a b req w =
      (scenarioOpen (b + 30 * Second), (req w).2, .ran (req w).1) := by
  rw [Execute_closed_failure _ a b req w rfl (not_lt.mpr ha) (not_lt.mpr hb) hreq]
  simp [scenarioClosed, scenarioOpen, scenarioReadyToTrip, Counts.OnRequest,
    Counts.OnFailure, u32, u64]

theorem afterFiveFailures_eq {σ : Type} (fail : σ → ReqOutcome × σ) (w0 : σ)
    (t0 a1 b1 a2 b2 a3 b3 a4 b4 a5 b5 : Time) (hfail : ∀ w, (fail w).1 ≠ .ok)
    (ha1 : a1 ≤ t0 + Minute) (hb1 : b1 ≤ t0 + Minute)
    (ha2 : a2 ≤ t0 + Minute) (hb2 : b2 ≤ t0 + Minute)
    (ha3 : a3 ≤ t0 + Minute) (hb3 : b3 ≤ t0 + Minute)
    (ha4 : a4 ≤ t0 + Minute) (hb4 : b4 ≤ t0 + Minute)
    (ha5 : a5 ≤ t0 + Minute) (hb5 : b5 ≤ t0 + Minute) :
    (afterFiveFailures fail w0 t0 a1 b1 a2 b2 a3 b3 a4 b4 a5 b5).1 =
        scenarioOpen (b5 + 30 * Second) ∧
      (afterFiveFailures fail w0 t0 a1 b1 a2 b2 a3 b3 a4 b4 a5 b5).2.1 =
        (fail (fail (fail (fail (fail w0).2).2).2).2).2 := by
  have h0 : NewCircuitBreaker scenarioSettings t0 = scenarioClosed 0 (t0 + Minute) := rfl
  simp only [afterFiveFailures, ExecuteAll, h0]
  rw [scenario_failure_step 0 (by omega) _ a1 b1 ha1 hb1 fail w0 (hfail _)]
  simp only []
  rw [scenario_failure_step 1 (by omega) _ a2 b2 ha2 hb2 fail _ (hfail _)]
  simp only []
  rw [scenario_failure_step 2 (by omega) _ a3 b3 ha3 hb3 fail _ (hfail _)]
  simp only []
  rw [scenario_failure_step 3 (by omega) _ a4 b4 ha4 hb4 fail _ (hfail _)]
  simp only []
  rw [scenario_trip_step _ a5 b5 ha5 hb5 fail _ (hfail _)]
  exact ⟨rfl, rfl⟩

theorem Minute_ne_zero : Minute ≠ 0 := by decide

theorem scenario_probe_step {σ : Type} (e a b : Time) (ha : e < a)
    (req : σ → ReqOutcome × σ) (w : σ) (hreq : (req w).1 = .ok) :
    (scenarioOpen e).Execute a b req w = (scenarioHalfOpen 1, (req w).2, .ran .ok) := by
  have hb := beforeRequest_open_expired (scenarioOpen e) a rfl ha
    (show 0 < 3 by decide)
  rw [Execute_admitted _ a b req w (by rw [hb]), hb, hreq]
  simp [afterRequest_eq, currentState_eq_strict, currentStateStrict,
    CircuitBreaker.onSuccess, scenarioOpen, scenarioHalfOpen, zeroCounts,
    Counts.OnRequest, Counts.OnSuccess, u32, u64]

theorem scenario_success_step {σ : Type} (k : Nat) (hk : k < 2) (a b : Time)
    (req : σ → ReqOutcome × σ) (w : σ) (hreq : (req w).1 = .ok) :
    (scenarioHalfOpen k).Execute a b req w =
      (scenarioHalfOpen (k + 1), (req w).2, .ran .ok) := by
  rw [Execute_halfOpen_success _ a b req w rfl
    (by show k < 3; omega) hreq]
  have h1 : u32 (k + 1) = k + 1 := Nat.mod_eq_of_lt (by omega)
  have h2 : ¬ (3 ≤ k + 1) := by omega
  simp [scenarioHalfOpen, Counts.OnRequest, Counts.OnSuccess, h1, h2]

theorem scenario_close_step {σ : Type} (a b : Time)
    (req : σ → ReqOutcome × σ) (w : σ) (hreq : (req w).1 = .ok) :
    ((scenarioHalfOpen 2).Execute a b req w).1.state = .StateClosed ∧
      ((scenarioHalfOpen 2).Execute a b req w).1.generation = 3 ∧
      ((scenarioHalfOpen 2).Execute a b req w).1.counts = zeroCounts ∧
      ((scenarioHalfOpen 2).Execute a b req w).1.expiry = b + Minute ∧
      ((scenarioHalfOpen 2).Execute a b req w).2.2 = .ran .ok := by
  rw [Execute_halfOpen_success _ a b req w rfl (by decide) hreq]
  simp [scenarioHalfOpen, Counts.OnRequest, Counts.OnSuccess, u32, u64, Minute_ne_zero]

/-- C3: the trip-and-recover scenario.  A breaker is made at `t0` with `max_requests = 3`,
`interval = 60 s`, `timeout = 30 s` and `ready_to_trip = (consecutive_failures ≥ 5)`.
Five `Execute` calls whose request function does not return nil, every clock reading
inside the first window, leave it Open.  Any `Execute` whose clock reads no later than
30 s after the trip is rejected with "circuit breaker is open", and the world is as
before, so its request function did not run.  Once more than 30 s have passed,
`beforeRequest` admits in HalfOpen; three `Execute` calls in a row that succeed return
`ok` each and leave the breaker Closed, the first two leaving it HalfOpen. -/
theorem C3_trip_and_recover {σ : Type} (fail ok other : σ → ReqOutcome × σ) (w0 : σ)
    (t0 a1 b1 a2 b2 a3 b3 a4 b4 a5 b5 : Time)
    (hfail : ∀ w, (fail w).1 ≠ .ok) (hok : ∀ w, (ok w).1 = .ok)
    (ha1 : a1 ≤ t0 + Minute) (hb1 : b1 ≤ t0 + Minute)
    (ha2 : a2 ≤ t0 + Minute) (hb2 : b2 ≤ t0 + Minute)
    (ha3 : a3 ≤ t0 + Minute) (hb3 : b3 ≤ t0 + Minute)
    (ha4 : a4 ≤ t0 + Minute) (hb4 : b4 ≤ t0 + Minute)
    (ha5 : a5 ≤ t0 + Minute) (hb5 : b5 ≤ t0 + Minute) :
    (afterFiveFailures fail w0 t0 a1 b1 a2 b2 a3 b3 a4 b4 a5 b5).1.state = .StateOpen ∧
    (∀ a6 b6 : Time, a6 ≤ b5 + 30 * Second →
      (afterFiveFailures fail w0 t0 a1 b1 a2 b2 a3 b3 a4 b4 a5 b5).1.Execute a6 b6 other
          (afterFiveFailures fail w0 t0 a1 b1 a2 b2 a3 b3 a4 b4 a5 b5).2.1 =
        ((afterFiveFailures fail w0 t0 a1 b1 a2 b2 a3 b3 a4 b4 a5 b5).1,
          (afterFiveFailures fail w0 t0 a1 b1 a2 b2 a3 b3 a4 b4 a5 b5).2.1,
          .rejected .isOpen)) ∧
    BreakerError.isOpen.Error = "circuit breaker is open" ∧
    (∀ a7 : Time, b5 + 30 * Second < a7 →
      ((afterFiveFailures fail w0 t0 a1 b1 a2 b2 a3 b3 a4 b4 a5 b5).1.beforeRequest a7).2.2
          = none ∧
        ((afterFiveFailures fail w0 t0 a1 b1 a2 b2 a3 b3 a4 b4 a5 b5).1.beforeRequest
          a7).1.state = .StateHalfOpen) ∧
    (∀ a7 b7 a8 b8 a9 b9 : Time, b5 + 30 * Second < a7 →
      (ExecuteAll (afterFiveFailures fail w0 t0 a1 b1 a2 b2 a3 b3 a4 b4 a5 b5).1
          (afterFiveFailures fail w0 t0 a1 b1 a2 b2 a3 b3 a4 b4 a5 b5).2.1
          [(a7, b7, ok), (a8, b8, ok)]).1.state = .StateHalfOpen ∧
      (ExecuteAll (afterFiveFailures fail w0 t0 a1 b1 a2 b2 a3 b3 a4 b4 a5 b5).1
          (afterFiveFailures fail w0 t0 a1 b1 a2 b2 a3 b3 a4 b4 a5 b5).2.1
          [(a7, b7, ok), (a8, b8, ok), (a9, b9, ok)]).1.state = .StateClosed ∧
      (ExecuteAll (afterFiveFailures fail w0 t0 a1 b1 a2 b2 a3 b3 a4 b4 a5 b5).1
          (afterFiveFailures fail w0 t0 a1 b1 a2 b2 a3 b3 a4 b4 a5 b5).2.1
          [(a7, b7, ok), (a8, b8, ok), (a9, b9, ok)]).2.2 =
        [.ran .ok, .ran .ok, .ran .ok]) := by
  obtain ⟨h5, _⟩ := afterFiveFailures_eq fail w0 t0 a1 b1 a2 b2 a3 b3 a4 b4 a5 b5 hfail
    ha1 hb1 ha2 hb2 ha3 hb3 ha4 hb4 ha5 hb5
  rw [h5]
  refine ⟨rfl, ?_, rfl, ?_, ?_⟩
  · intro a6 b6 h6
    exact Execute_open_rejected _ a6 b6 other _ rfl (not_lt.mpr h6)
  · intro a7 h7
    rw [beforeRequest_open_expired (scenarioOpen (b5 + 30 * Second)) a7 rfl h7
      (show 0 < 3 by decide)]
    exact ⟨rfl, rfl⟩
  · intro a7 b7 a8 b8 a9 b9 h7
    simp only [ExecuteAll]
    rw [scenario_probe_step _ a7 b7 h7 ok _ (hok _)]
    simp only []
    rw [scenario_success_step 1 (by omega) a8 b8 ok _ (hok _)]
    simp only []
    obtain ⟨hc, _, _, _, hr⟩ := scenario_close_step a9 b9 ok ((ok (ok
      (afterFiveFailures fail w0 t0 a1 b1 a2 b2 a3 b3 a4 b4 a5 b5).2.1).2).2) (hok _)
    exact ⟨rfl, hc, by rw [hr]⟩

/-- C3 at concrete clock readings (in seconds from the creation of the breaker: failures
at 1..10, rejection checked by the theorem, recovery after 41), with a world that counts
the calls of the request function. -/
theorem C3_trip_and_recover_witness :
    (afterFiveFailures (fun n : Nat => (ReqOutcome.failed, n + 1)) 0 0
        (1 * Second) (2 * Second) (3 * Second) (4 * Second) (5 * Second) (6 * Second)
        (7 * Second) (8 * Second) (9 * Second) (10 * Second)).1.state = .StateOpen :=
  (C3_trip_and_recover (fun n : Nat => (ReqOutcome.failed, n + 1))
    (fun n : Nat => (ReqOutcome.ok, n + 1)) (fun n : Nat => (ReqOutcome.ok, n + 1)) 0 0
    (1 * Second) (2 * Second) (3 * Second) (4 * Second) (5 * Second) (6 * Second)
    (7 * Second) (8 * Second) (9 * Second) (10 * Second)
    (fun _ => ReqOutcome.noConfusion) (fun _ => rfl)
    (by decide) (by decide) (by decide) (by decide) (by decide)
    (by decide) (by decide) (by decide) (by decide) (by decide)).1

/-! ## The breaker pipeline and the load balancers -/

theorem HandleProxyStatus_written (u : Upstream) :
    HandleProxyStatus u true = { failed := false, Status := 200 } := by
  cases u <;> simp [HandleProxyStatus, sendErrorResponse, transformResponseStatus, cJSON]

theorem managerRequest_written {σ : Type} (u : Upstream) (step : σ → σ) (w : σ) :
    managerRequest (loggingMiddleware (fun k : σ => (HandleProxyStatus u true, step k))) w =
      (.ok, step w) := by
  simp [managerRequest, loggingMiddleware, HandleProxyStatus_written]

/-- C7 on the code: in the composed pipeline the request function of the breaker returns
nil for every course of the upstream call, because the proxy handler answers 200 with a
nil error in each of them; so every admitted request, whatever its upstream did, reaches
`afterRequest` with `success = true`.  On a fresh manager breaker a transport error, an
upstream 503 and an upstream 404 all leave one request, one success and no failure. -/
theorem C7_upstream_failure_recorded_as_success :
    (∀ (cb : CircuitBreaker) (t1 t2 t3 : Time) (u : Upstream) (w : Nat),
      (cb.beforeRequest t1).2.2 = none →
      Pipeline cb t1 t2 t3 u true w =
        ((cb.beforeRequest t1).1.afterRequest t2 (cb.beforeRequest t1).2.1 true, w + 1,
          .passed)) ∧
    (Pipeline freshManagerBreaker Second (2 * Second) (3 * Second) .transportError true 0).1.counts
      = { Requests := 1, TotalSuccesses := 1, TotalFailures := 0,
          ConsecutiveSuccesses := 1, ConsecutiveFailures := 0 } ∧
    (Pipeline freshManagerBreaker Second (2 * Second) (3 * Second) (.response 503 false) true
        0).1.counts
      = { Requests := 1, TotalSuccesses := 1, TotalFailures := 0,
          ConsecutiveSuccesses := 1, ConsecutiveFailures := 0 } ∧
    (Pipeline freshManagerBreaker Second (2 * Second) (3 * Second) (.response 404 false) true
        0).1.counts
      = { Requests := 1, TotalSuccesses := 1, TotalFailures := 0,
          ConsecutiveSuccesses := 1, ConsecutiveFailures := 0 } := by
  refine ⟨fun cb t1 t2 t3 u w h => ?_, by decide, by decide, by decide⟩
  simp only [Pipeline, Middleware]
  rw [Execute_admitted cb t1 t2 _ w h, managerRequest_written u (fun k => k + 1) w]
  simp

/-- C8 on the code: a round-robin or random balancer made by the factory from one
non-empty backend URL holds the healthy list `["", "http://a"]`, and its first
`NextBackend` returns the empty string although a backend is configured. -/
theorem C8_factory_balancer_returns_empty :
    (NewLoadBalancer (oneBackend "round_robin")).map
        (fun lb => (lb.configured, lb.GetHealthyBackends, (lb.NextBackend 0).2))
      = some (["http://a"], ["", "http://a"], "") ∧
    (NewLoadBalancer (oneBackend "random")).map
        (fun lb => (lb.configured, lb.GetHealthyBackends, (lb.NextBackend 0).2))
      = some (["http://a"], ["", "http://a"], "") ∧
    (NewLoadBalancer (oneBackend "weighted")).map (fun lb => (lb.NextBackend 0).2)
      = some "http://a" ∧
    (NewLoadBalancer (oneBackend "least_connections")).map (fun lb => (lb.NextBackend 0).2)
      = some "http://a" := by
  decide

/-- C9 on the code: the round-robin balancer the factory makes from `[A, B, C]` answers
six calls with three empty strings and then `A, B, C`; after `MarkBackendDown B` the
next four calls return two empty strings, then `A` and `C`. -/
theorem C9_round_robin_scenario_on_code :
    (NewLoadBalancer (threeBackends "round_robin")).map
        (fun lb => (lb.run [.next 0, .next 0, .next 0, .next 0, .next 0, .next 0]).2)
      = some ["", "", "", "A", "B", "C"] ∧
    (NewLoadBalancer (threeBackends "round_robin")).map
        (fun lb => (lb.run [.next 0, .next 0, .next 0, .next 0, .next 0, .next 0,
          .down "B", .next 0, .next 0, .next 0, .next 0]).2)
      = some ["", "", "", "A", "B", "C", "", "", "A", "C"] := by
  decide

/-- C10 on the code: the healthy list of a round-robin or random balancer holds empty
strings that are no configured backend, right after the constructor and right after
the factory, so it is not the configured list; the weighted balancer of the factory
has the configured list as its healthy list. -/
theorem C10_healthy_list_holds_empty_strings :
    (NewRoundRobinLB ["A", "B", "C"]).GetHealthyBackends = ["", "", ""] ∧
    "" ∉ (NewRoundRobinLB ["A", "B", "C"]).backends ∧
    (NewLoadBalancer (threeBackends "round_robin")).map
        (fun lb => (lb.configured, lb.GetHealthyBackends))
      = some (["A", "B", "C"], ["", "", "", "A", "B", "C"]) ∧
    (NewLoadBalancer (threeBackends "random")).map
        (fun lb => (lb.configured, lb.GetHealthyBackends))
      = some (["A", "B", "C"], ["", "", "", "A", "B", "C"]) ∧
    (NewLoadBalancer (threeBackends "weighted")).map
        (fun lb => (lb.configured, lb.GetHealthyBackends))
      = some (["A", "B", "C"], ["A", "B", "C"]) := by
  decide

theorem RoundRobinLB_NextBackend_healthy (lb : RoundRobinLB)
    (h : lb.healthyBackends ≠ []) (hc : lb.current < 18446744073709551616) :
    lb.NextBackend =
      ({ lb with current := u64 (lb.current + 1) },
        lb.healthyBackends.getD (lb.current % lb.healthyBackends.length) "") := by
  have hl : ¬ lb.healthyBackends.length = 0 := by
    intro h0
    exact h (List.length_eq_zero.mp h0)
  have hi : u64 (u64 (lb.current + 1) + 18446744073709551615) = lb.current := by
    simp only [u64]
    omega
  simp only [RoundRobinLB.NextBackend, hl, if_false, hi]

theorem RoundRobinLB_iterate_picks (lb : RoundRobinLB) (h : lb.healthyBackends ≠ [])
    (h0 : lb.current = 0) (n : Nat) (hn : n < 18446744073709551616) :
    ((fun l : RoundRobinLB => l.NextBackend.1)^[n] lb) = { lb with current := n } := by
  induction n with
  | zero =>
    cases lb
    simp only at h0
    subst h0
    rfl
  | succ m ih =>
    have hm : m < 18446744073709551616 := by omega
    rw [Function.iterate_succ_apply', ih hm,
      RoundRobinLB_NextBackend_healthy
        { backends := lb.backends, healthyBackends := lb.healthyBackends, current := m } h hm]
    simp only [u64]
    rw [Nat.mod_eq_of_lt hn]

/-- The general rule of round robin holds of the code: on a balancer whose counter
starts at 0 and whose healthy list has `k ≥ 1` entries, with no health change, the
pick that follows `n` earlier picks is `healthy[n mod k]`. -/
theorem RoundRobinLB_nth_pick (lb : RoundRobinLB) (h : lb.healthyBackends ≠ [])
    (h0 : lb.current = 0) (n : Nat) (hn : n < 18446744073709551616) :
    (((fun l : RoundRobinLB => l.NextBackend.1)^[n] lb).NextBackend).2 =
      lb.healthyBackends.getD (n % lb.healthyBackends.length) "" := by
  rw [RoundRobinLB_iterate_picks lb h h0 n hn,
    RoundRobinLB_NextBackend_healthy
      { backends := lb.backends, healthyBackends := lb.healthyBackends, current := n } h hn]

/-! ## The proxy handler at body level -/

theorem lookup_isSome_iff (l : List (String × Proxy.JSON)) (key : String) :
    (l.lookup key).isSome = true ↔ key ∈ l.map Prod.fst := by
  induction l with
  | nil => simp
  | cons kv rest ih =>
    obtain ⟨k, v⟩ := kv
    by_cases h : key = k
    · subst h
      simp [List.lookup_cons]
    · have hb : (key == k) = false := by simpa using h
      simp [List.lookup_cons, hb, h, ih]

theorem JSONMap_get_isSome (m : Proxy.JSONMap) (key : String) :
    (m.get key).isSome = true ↔ key ∈ m.entries.map Prod.fst :=
  lookup_isSome_iff m.entries key

theorem mem_iff_of_three (keys : List String) (hn : keys.Nodup) (hl : keys.length = 3)
    (a b c : String) (hab : a ≠ b) (hac : a ≠ c) (hbc : b ≠ c)
    (ha : a ∈ keys) (hb : b ∈ keys) (hc : c ∈ keys) (k : String) :
    k ∈ keys ↔ k = a ∨ k = b ∨ k = c := by
  have hcard : keys.toFinset.card = 3 := by
    rw [List.toFinset_card_of_nodup hn, hl]
  have hsub : ({a, b, c} : Finset String) ⊆ keys.toFinset := by
    intro x hx
    simp only [Finset.mem_insert, Finset.mem_singleton] at hx
    rcases hx with rfl | rfl | rfl <;> simpa using ‹_›
  have h3 : ({a, b, c} : Finset String).card = 3 := Finset.card_eq_three.mpr
    ⟨a, b, c, hab, hac, hbc, rfl⟩
  have heq : ({a, b, c} : Finset String) = keys.toFinset :=
    Finset.eq_of_subset_of_card_le hsub (by rw [hcard, h3])
  rw [← List.mem_toFinset, ← heq]
  simp

theorem length_of_mem_iff_three (keys : List String) (hn : keys.Nodup)
    (a b c : String) (hab : a ≠ b) (hac : a ≠ c) (hbc : b ≠ c)
    (h : ∀ k, k ∈ keys ↔ k = a ∨ k = b ∨ k = c) : keys.length = 3 := by
  have heq : keys.toFinset = ({a, b, c} : Finset String) := by
    ext x
    rw [List.mem_toFinset, h x]
    simp
  rw [← List.toFinset_card_of_nodup hn, heq]
  exact Finset.card_eq_three.mpr ⟨a, b, c, hab, hac, hbc, rfl⟩

theorem isStandardFormat_eq_true_iff (response : Proxy.JSONMap) :
    Proxy.isStandardFormat response = true ↔
      ((response.get "data").isSome = true ∧
        (∃ b, response.get "success" = some (.bool b)) ∧
        (response.get "errorMessage" = some .null ∨
          ∃ msg, response.get "errorMessage" = some (.string msg)) ∧
        response.len = 3) := by
  unfold Proxy.isStandardFormat
  rcases hd : response.get "data" with _ | d <;>
    rcases hs : response.get "success" with _ | sv <;>
    rcases he : response.get "errorMessage" with _ | ev
  · simp
  · simp
  · simp
  · simp
  · simp
  · simp
  · simp
  · cases sv <;> cases ev <;>
      simp [Proxy.JSON.isBool, Proxy.JSON.isNil, Proxy.JSON.isString]

/-- C12: for every decoded JSON object, `isStandardFormat` returns true exactly when the
keys of the object are `data`, `success` and `errorMessage` and no other, the value of
`success` is a boolean, and the value of `errorMessage` is null or a string. -/
theorem C12_isStandardFormat_iff (response : Proxy.JSONMap) :
    Proxy.isStandardFormat response = true ↔
      ((∀ key : String, (response.get key).isSome = true ↔
          (key = "data" ∨ key = "success" ∨ key = "errorMessage")) ∧
        (∃ b, response.get "success" = some (.bool b)) ∧
        (response.get "errorMessage" = some .null ∨
          ∃ msg, response.get "errorMessage" = some (.string msg))) := by
  rw [isStandardFormat_eq_true_iff]
  constructor
  · rintro ⟨hd, hs, he, hl⟩
    refine ⟨fun key => ?_, hs, he⟩
    rw [JSONMap_get_isSome]
    refine mem_iff_of_three _ response.nodup (by simpa [Proxy.JSONMap.len] using hl)
      "data" "success" "errorMessage" (by decide) (by decide) (by decide) ?_ ?_ ?_ key
    · exact (JSONMap_get_isSome _ _).mp hd
    · obtain ⟨b, hb⟩ := hs
      exact (JSONMap_get_isSome _ _).mp (by rw [hb]; rfl)
    · rcases he with he | ⟨msg, he⟩ <;>
        exact (JSONMap_get_isSome _ _).mp (by rw [he]; rfl)
  · rintro ⟨hk, hs, he⟩
    refine ⟨(hk "data").mpr (Or.inl rfl), hs, he, ?_⟩
    unfold Proxy.JSONMap.len
    rw [← List.length_map response.entries Prod.fst]
    refine length_of_mem_iff_three _ response.nodup "data" "success" "errorMessage"
      (by decide) (by decide) (by decide) (fun k => ?_)
    rw [← JSONMap_get_isSome]
    exact hk k

theorem Header_Get_Set (h : Proxy.Header) (key value : String) :
    Proxy.Header.Get (Proxy.Header.Set h key value) key = value := by
  simp [Proxy.Header.Get, Proxy.Header.Set, List.lookup_cons]

theorem alreadyStandard_eq_true_iff {Body : Type} (codec : Proxy.JSONCodec Body)
    (body : Body) :
    Proxy.alreadyStandard codec body = true ↔
      (0 < codec.len body ∧
        ∃ m, codec.UnmarshalMap body = some m ∧ Proxy.isStandardFormat m = true) := by
  unfold Proxy.alreadyStandard
  by_cases hl : codec.len body > 0
  · rw [if_pos hl]
    rcases hm : codec.UnmarshalMap body with _ | m
    · simp
    · simp [hl]
  · rw [if_neg hl]
    simp
    intro h
    exact absurd h hl

/-- C13: whatever the upstream status, a body that is not empty and already has the
standard format (it decodes into a map that `isStandardFormat` accepts) is answered with
status 200, `Content-Type: application/json`, and a body equal to the upstream body. -/
theorem C13_standard_body_passes_through {Body : Type} (codec : Proxy.JSONCodec Body)
    (req : Proxy.Request) (now : String) (h : Proxy.Header) (statusCode : Nat)
    (upstream : Proxy.Header) (readErr : String) (body : Body) (m : Proxy.JSONMap)
    (hlen : 0 < codec.len body) (hm : codec.UnmarshalMap body = some m)
    (hstd : Proxy.isStandardFormat m = true) :
    (Proxy.transformResponse codec req now h
        { StatusCode := statusCode, Header := upstream, Read := some body } readErr).Status
      = 200 ∧
    Proxy.Header.Get
      (Proxy.transformResponse codec req now h
        { StatusCode := statusCode, Header := upstream, Read := some body } readErr).Header
      "Content-Type" = "application/json" ∧
    (Proxy.transformResponse codec req now h
        { StatusCode := statusCode, Header := upstream, Read := some body } readErr).Body
      = body := by
  have hs : Proxy.alreadyStandard codec body = true :=
    (alreadyStandard_eq_true_iff codec body).mpr ⟨hlen, m, hm, hstd⟩
  simp only [Proxy.transformResponse, hs, if_true]
  exact ⟨trivial, Header_Get_Set _ _ _, trivial⟩

/-- C13 on spec scenario 1: the envelope `{"data":{"x":1},"success":true,
"errorMessage":null}` arriving with HTTP 500 is answered with 200 and the same body. -/
theorem C13_standard_body_passes_through_witness :
    0 < Proxy.wireCodec.len (.json (.object Proxy.scenarioEnvelope.entries)) ∧
    (Proxy.transformResponse Proxy.wireCodec { Method := "GET", Path := "/p", RawQuery := "" }
        "2025-01-01T00:00:00Z" []
        { StatusCode := 500, Header := [],
          Read := some (.json (.object Proxy.scenarioEnvelope.entries)) } "").Status = 200 ∧
    (Proxy.transformResponse Proxy.wireCodec { Method := "GET", Path := "/p", RawQuery := "" }
        "2025-01-01T00:00:00Z" []
        { StatusCode := 500, Header := [],
          Read := some (.json (.object Proxy.scenarioEnvelope.entries)) } "").Body =
      .json (.object Proxy.scenarioEnvelope.entries) :=
  ⟨by decide,
    (C13_standard_body_passes_through Proxy.wireCodec
      { Method := "GET", Path := "/p", RawQuery := "" } "2025-01-01T00:00:00Z" [] 500 [] ""
      (.json (.object Proxy.scenarioEnvelope.entries)) Proxy.scenarioEnvelope
      (by decide) (by rfl) (by decide)).1,
    (C13_standard_body_passes_through Proxy.wireCodec
      { Method := "GET", Path := "/p", RawQuery := "" } "2025-01-01T00:00:00Z" [] 500 [] ""
      (.json (.object Proxy.scenarioEnvelope.entries)) Proxy.scenarioEnvelope
      (by decide) (by rfl) (by decide)).2.2⟩

/-- C15: for an upstream status in [200,300) and a body that is not already in standard
format, the gateway answers 200 with the encoding of the envelope whose `success` is
true, whose `errorMessage` is null, and whose `data` is the decoded value when the body
is not empty and decodes, the body as a string when it is not empty and does not decode,
and the empty object when the body is empty. -/
theorem C15_wraps_plain_2xx {Body : Type} (codec : Proxy.JSONCodec Body)
    (req : Proxy.Request) (now : String) (h : Proxy.Header) (statusCode : Nat)
    (upstream : Proxy.Header) (readErr : String) (body : Body)
    (hlo : 200 ≤ statusCode) (hhi : statusCode < 300)
    (hns : Proxy.alreadyStandard codec body = false) :
    (Proxy.transformResponse codec req now h
        { StatusCode := statusCode, Header := upstream, Read := some body } readErr).Status
      = 200 ∧
    (∀ v, 0 < codec.len body → codec.Unmarshal body = some v →
      (Proxy.transformResponse codec req now h
          { StatusCode := statusCode, Header := upstream, Read := some body } readErr).Body
        = codec.Encode
            (.object [("data", v), ("success", .bool true), ("errorMessage", .null)])) ∧
    (0 < codec.len body → codec.Unmarshal body = none →
      (Proxy.transformResponse codec req now h
          { StatusCode := statusCode, Header := upstream, Read := some body } readErr).Body
        = codec.Encode
            (.object [("data", .string (codec.text body)), ("success", .bool true),
              ("errorMessage", .null)])) ∧
    (codec.len body = 0 →
      (Proxy.transformResponse codec req now h
          { StatusCode := statusCode, Header := upstream, Read := some body } readErr).Body
        = codec.Encode
            (.object [("data", .object []), ("success", .bool true),
              ("errorMessage", .null)])) := by
  have hsucc : decide (statusCode ≥ 200 ∧ statusCode < 300) = true := by
    simp [hlo, hhi]
  simp only [Proxy.transformResponse, hns, hsucc, Proxy.cJSON, Proxy.StandardResponse.toJSON]
  refine ⟨by simp, fun v hl hv => ?_, fun hl hv => ?_, fun hl => ?_⟩
  · simp [hl, hv]
  · simp [hl, hv]
  · simp [hl]

/-- C15 on spec scenario 2: the body `{"foo":1}` with HTTP 200 is answered with
`{"data":{"foo":1},"success":true,"errorMessage":null}`. -/
theorem C15_wraps_plain_2xx_witness :
    (Proxy.transformResponse Proxy.wireCodec { Method := "GET", Path := "/p", RawQuery := "" }
        "2025-01-01T00:00:00Z" []
        { StatusCode := 200, Header := [],
          Read := some (.json (.object [("foo", .number "1")])) } "").Body =
      .json (.object [("data", .object [("foo", .number "1")]), ("success", .bool true),
        ("errorMessage", .null)]) :=
  (C15_wraps_plain_2xx Proxy.wireCodec { Method := "GET", Path := "/p", RawQuery := "" }
    "2025-01-01T00:00:00Z" [] 200 [] "" (.json (.object [("foo", .number "1")]))
    (by decide) (by decide) (by decide)).2.1 (.object [("foo", .number "1")]) (by decide) rfl

/-- C16: for an upstream status `N` outside [200,300) and a body that is not already in
standard format, the gateway answers 200 with the encoding of the envelope whose
`success` is false, whose `errorMessage` is the fixed string of `N`, and whose `data` is
the decoded value when the body is not empty and decodes, and otherwise the `ErrorData`
with code `N`, the body text, the request path and the request method.  The fixed
strings are those of the nine listed codes, and `Service Error (N)` for any other. -/
theorem C16_wraps_plain_non_2xx {Body : Type} (codec : Proxy.JSONCodec Body)
    (req : Proxy.Request) (now : String) (h : Proxy.Header) (statusCode : Nat)
    (upstream : Proxy.Header) (readErr : String) (body : Body)
    (hout : ¬ (200 ≤ statusCode ∧ statusCode < 300))
    (hns : Proxy.alreadyStandard codec body = false) :
    (Proxy.transformResponse codec req now h
        { StatusCode := statusCode, Header := upstream, Read := some body } readErr).Status
      = 200 ∧
    (∀ v, 0 < codec.len body → codec.Unmarshal body = some v →
      (Proxy.transformResponse codec req now h
          { StatusCode := statusCode, Header := upstream, Read := some body } readErr).Body
        = codec.Encode
            (.object [("data", v), ("success", .bool false),
              ("errorMessage", .string (Proxy.generateSimpleErrorMessage statusCode))])) ∧
    ((codec.len body = 0 ∨ codec.Unmarshal body = none) →
      (Proxy.transformResponse codec req now h
          { StatusCode := statusCode, Header := upstream, Read := some body } readErr).Body
        = codec.Encode
            (.object [("data",
                .object [("code", .number (toString statusCode)),
                  ("message", .string (codec.text body)), ("path", .string req.Path),
                  ("method", .string req.Method)]),
              ("success", .bool false),
              ("errorMessage", .string (Proxy.generateSimpleErrorMessage statusCode))])) ∧
    (Proxy.generateSimpleErrorMessage 400 = "Bad Request" ∧
      Proxy.generateSimpleErrorMessage 401 = "Unauthorized" ∧
      Proxy.generateSimpleErrorMessage 403 = "Forbidden" ∧
      Proxy.generateSimpleErrorMessage 404 = "Not Found" ∧
      Proxy.generateSimpleErrorMessage 422 = "Validation Error" ∧
      Proxy.generateSimpleErrorMessage 500 = "Internal Server Error" ∧
      Proxy.generateSimpleErrorMessage 502 = "Bad Gateway" ∧
      Proxy.generateSimpleErrorMessage 503 = "Service Unavailable" ∧
      Proxy.generateSimpleErrorMessage 504 = "Gateway Timeout" ∧
      ∀ n : Nat, n ∉ [400, 401, 403, 404, 422, 500, 502, 503, 504] →
        Proxy.generateSimpleErrorMessage n = "Service Error (" ++ toString n ++ ")") := by
  have hsucc : decide (statusCode ≥ 200 ∧ statusCode < 300) = false := by
    simpa using hout
  simp only [Proxy.transformResponse, hns, hsucc, Proxy.cJSON, Proxy.StandardResponse.toJSON,
    Proxy.ErrorData.toJSON]
  refine ⟨by simp, fun v hl hv => ?_, fun hc => ?_, ?_⟩
  · simp [hl, hv]
  · rcases hc with hl | hv
    · simp [hl]
    · by_cases hl : 0 < codec.len body
      · simp [hl, hv]
      · simp [hl]
  · refine ⟨rfl, rfl, rfl, rfl, rfl, rfl, rfl, rfl, rfl, fun n hn => ?_⟩
    simp only [List.mem_cons, List.mem_singleton, List.not_mem_nil, or_false, not_or] at hn
    obtain ⟨h1, h2, h3, h4, h5, h6, h7, h8, h9⟩ := hn
    simp [Proxy.generateSimpleErrorMessage, h1, h2, h3, h4, h5, h6, h7, h8, h9]

/-- C16 on spec scenario 3: the body `not a json` with HTTP 404 is answered with the
`ErrorData` of code 404 and message `not a json` as data, and `Not Found`. -/
theorem C16_wraps_plain_non_2xx_witness :
    (Proxy.transformResponse Proxy.wireCodec { Method := "GET", Path := "/p", RawQuery := "" }
        "2025-01-01T00:00:00Z" []
        { StatusCode := 404, Header := [], Read := some (.text "not a json") } "").Body =
      .json (.object [("data",
          .object [("code", .number "404"), ("message", .string "not a json"),
            ("path", .string "/p"), ("method", .string "GET")]),
        ("success", .bool false), ("errorMessage", .string "Not Found")]) :=
  (C16_wraps_plain_non_2xx Proxy.wireCodec { Method := "GET", Path := "/p", RawQuery := "" }
    "2025-01-01T00:00:00Z" [] 404 [] "" (.text "not a json")
    (by decide) (by decide)).2.2.1 (Or.inr rfl)

theorem sameKind_self (v : Proxy.JSON) : v.sameKind v = true := by
  cases v <;> simp [Proxy.JSON.sameKind]

theorem sameKind_bool (b : Bool) (v : Proxy.JSON)
    (h : (Proxy.JSON.bool b).sameKind v = true) : v = .bool b := by
  cases v <;> simp_all [Proxy.JSON.sameKind]

theorem sameKind_null (v : Proxy.JSON) (h : Proxy.JSON.null.sameKind v = true) :
    v = .null := by
  cases v <;> simp_all [Proxy.JSON.sameKind]

theorem sameKind_string (msg : String) (v : Proxy.JSON)
    (h : (Proxy.JSON.string msg).sameKind v = true) : ∃ msg1, v = .string msg1 := by
  cases v <;> simp_all [Proxy.JSON.sameKind]

theorem depth_nestedArrays (n : Nat) : (Proxy.nestedArrays n).depth = n + 1 := by
  induction n with
  | zero => simp [Proxy.nestedArrays, Proxy.JSON.depth, Proxy.depthItems]
  | succ n ih => simp [Proxy.nestedArrays, Proxy.JSON.depth, Proxy.depthItems, ih]

theorem depth_envelope (env : Proxy.StandardResponse) :
    env.toJSON.depth = env.Data.depth + 1 := by
  unfold Proxy.StandardResponse.toJSON
  cases env.ErrorMessage <;> simp [Proxy.JSON.depth, Proxy.depthFields]

theorem depth_errorData (e : Proxy.ErrorData) : e.toJSON.depth = 1 := by
  simp [Proxy.ErrorData.toJSON, Proxy.JSON.depth, Proxy.depthFields]

theorem wireCodec_rereadsObjectsWithin (limit : Nat) :
    Proxy.wireCodec.RereadsObjectsWithin limit := by
  intro fields hn _
  refine ⟨by simp [Proxy.wireCodec], { entries := fields, nodup := hn }, ?_, rfl, ?_⟩
  · simp [Proxy.wireCodec, hn]
  · intro key v hv
    exact ⟨v, hv, sameKind_self v⟩

theorem nestingCodec_rereadsObjectsWithin (limit : Nat) (render : Proxy.JSON → String) :
    (Proxy.nestingCodec limit render).RereadsObjectsWithin limit := by
  intro fields hn hd
  refine ⟨by simp [Proxy.nestingCodec, Proxy.wireCodec],
    { entries := fields, nodup := hn }, ?_, rfl, ?_⟩
  · simp [Proxy.nestingCodec, Proxy.wireCodec, hn, hd]
  · intro key v hv
    exact ⟨v, hv, sameKind_self v⟩

theorem encoded_envelope_alreadyStandard {Body : Type} (codec : Proxy.JSONCodec Body)
    (limit : Nat) (hcodec : codec.RereadsObjectsWithin limit) (env : Proxy.StandardResponse)
    (hdepth : env.toJSON.depth ≤ limit) :
    Proxy.alreadyStandard codec (codec.Encode env.toJSON) = true := by
  obtain ⟨hlen, m, hm, hl, hget⟩ := hcodec
    [("data", env.Data), ("success", .bool env.Success),
      ("errorMessage",
        match env.ErrorMessage with
        | some msg => .string msg
        | none => .null)] (by simp) hdepth
  rw [alreadyStandard_eq_true_iff]
  refine ⟨hlen, m, hm, ?_⟩
  rw [isStandardFormat_eq_true_iff]
  obtain ⟨d, hd, _⟩ := hget "data" env.Data (by simp [List.lookup_cons])
  obtain ⟨sv, hs, hsk⟩ := hget "success" (.bool env.Success)
    (by simp [List.lookup_cons])
  obtain ⟨ev, he, hek⟩ := hget "errorMessage"
    (match env.ErrorMessage with
      | some msg => .string msg
      | none => .null) (by simp [List.lookup_cons])
  refine ⟨by rw [hd]; rfl, ⟨env.Success, ?_⟩, ?_, hl⟩
  · rw [hs, sameKind_bool _ _ hsk]
  · rcases hmsg : env.ErrorMessage with _ | msg
    · rw [hmsg] at hek
      exact Or.inl (by rw [he, sameKind_null _ hek])
    · rw [hmsg] at hek
      obtain ⟨msg1, h1⟩ := sameKind_string msg ev hek
      exact Or.inr ⟨msg1, by rw [he, h1]⟩

theorem transformResponse_body_cases {Body : Type} (codec : Proxy.JSONCodec Body)
    (req : Proxy.Request) (now : String) (h : Proxy.Header) (statusCode : Nat)
    (upstream : Proxy.Header) (readErr : String) (body : Body) :
    (Proxy.alreadyStandard codec body = true ∧
      (Proxy.transformResponse codec req now h
          { StatusCode := statusCode, Header := upstream, Read := some body } readErr).Body
        = body) ∨
    ∃ env : Proxy.StandardResponse,
      (Proxy.transformResponse codec req now h
          { StatusCode := statusCode, Header := upstream, Read := some body } readErr).Body
        = codec.Encode env.toJSON ∧
      (env.Data.depth ≤ 1 ∨ codec.Unmarshal body = some env.Data) := by
  by_cases hs : Proxy.alreadyStandard codec body = true
  · left
    refine ⟨hs, ?_⟩
    simp only [Proxy.transformResponse, hs, if_true]
  · right
    simp only [Proxy.transformResponse, hs]
    by_cases hc : decide (statusCode ≥ 200 ∧ statusCode < 300) = false
    · simp only [hc, if_true, Proxy.cJSON]
      refine ⟨_, rfl, ?_⟩
      simp only
      by_cases hl : codec.len body > 0
      · rw [if_pos hl]
        cases hu : codec.Unmarshal body with
        | none => exact Or.inl (le_of_eq (depth_errorData _))
        | some v => exact Or.inr rfl
      · rw [if_neg hl]
        exact Or.inl (le_of_eq (depth_errorData _))
    · simp only [hc, if_false, Proxy.cJSON]
      refine ⟨_, rfl, ?_⟩
      simp only
      by_cases hl : codec.len body > 0
      · rw [if_pos hl]
        cases hu : codec.Unmarshal body with
        | none => exact Or.inl (by simp [Proxy.JSON.depth])
        | some v => exact Or.inr rfl
      · rw [if_neg hl]
        exact Or.inl (by simp [Proxy.JSON.depth, Proxy.depthFields])

theorem transformResponse_body_of_standard {Body : Type} (codec : Proxy.JSONCodec Body)
    (req : Proxy.Request) (now : String) (h : Proxy.Header) (statusCode : Nat)
    (upstream : Proxy.Header) (readErr : String) (body : Body)
    (hs : Proxy.alreadyStandard codec body = true) :
    (Proxy.transformResponse codec req now h
        { StatusCode := statusCode, Header := upstream, Read := some body } readErr).Body
      = body := by
  simp only [Proxy.transformResponse, hs, if_true]

theorem transformResponse_status {Body : Type} (codec : Proxy.JSONCodec Body)
    (req : Proxy.Request) (now : String) (h : Proxy.Header)
    (resp : Proxy.UpstreamResponse Body) (readErr : String) :
    (Proxy.transformResponse codec req now h resp readErr).Status = 200 := by
  obtain ⟨statusCode, upstream, read⟩ := resp
  cases read with
  | none => rfl
  | some body =>
    by_cases hs : Proxy.alreadyStandard codec body = true
    · simp only [Proxy.transformResponse, hs, if_true]
    · simp only [Proxy.transformResponse, hs]
      by_cases hc : decide (statusCode ≥ 200 ∧ statusCode < 300) = false
      · simp only [hc, if_true, Proxy.cJSON]
        rfl
      · simp only [hc, if_false, Proxy.cJSON]
        rfl

theorem nested_first_pass (limit n : Nat) (render : Proxy.JSON → String) (h1 : n + 1 ≤ limit)
    (req : Proxy.Request) (now : String) (h : Proxy.Header) (up : Proxy.Header)
    (readErr : String) :
    (Proxy.transformResponse (Proxy.nestingCodec limit render) req now h
        { StatusCode := 200, Header := up, Read := some (.json (Proxy.nestedArrays n)) }
        readErr).Body =
      .json (Proxy.StandardResponse.toJSON
        { Data := Proxy.nestedArrays n, Success := true, ErrorMessage := none }) := by
  have hd := depth_nestedArrays n
  have hns : Proxy.alreadyStandard (Proxy.nestingCodec limit render)
      (.json (Proxy.nestedArrays n)) = false := by
    cases n <;>
      simp [Proxy.alreadyStandard, Proxy.nestingCodec, Proxy.wireCodec, Proxy.nestedArrays]
  simp only [Proxy.transformResponse, hns, Proxy.cJSON]
  simp [Proxy.nestingCodec, Proxy.wireCodec, hd, h1]

theorem envelope_refused (limit n : Nat) (render : Proxy.JSON → String)
    (h2 : limit < n + 2) (env : Proxy.StandardResponse)
    (hdata : env.Data = Proxy.nestedArrays n) :
    (Proxy.nestingCodec limit render).Unmarshal (.json env.toJSON) = none ∧
    (Proxy.nestingCodec limit render).UnmarshalMap (.json env.toJSON) = none ∧
    Proxy.alreadyStandard (Proxy.nestingCodec limit render) (.json env.toJSON) = false := by
  have hd : ¬ env.toJSON.depth ≤ limit := by
    rw [depth_envelope, hdata, depth_nestedArrays]; omega
  refine ⟨?_, ?_, ?_⟩
  · simp [Proxy.nestingCodec, hd]
  · simp [Proxy.nestingCodec, hd]
  · simp [Proxy.alreadyStandard, Proxy.nestingCodec, hd]

theorem nested_second_pass (limit n : Nat) (render : Proxy.JSON → String)
    (h2 : limit < n + 2) (req : Proxy.Request) (now : String) (h : Proxy.Header)
    (s : Nat) (up : Proxy.Header) (readErr : String) :
    ∃ data : Proxy.JSON,
      (data = .string (render (Proxy.StandardResponse.toJSON
          { Data := Proxy.nestedArrays n, Success := true, ErrorMessage := none })) ∨
        data = Proxy.ErrorData.toJSON
          { Code := s,
            Message := render (Proxy.StandardResponse.toJSON
              { Data := Proxy.nestedArrays n, Success := true, ErrorMessage := none }),
            Path := req.Path, Method := req.Method }) ∧
      ∃ env : Proxy.StandardResponse, env.Data = data ∧
        (Proxy.transformResponse (Proxy.nestingCodec limit render) req now h
          { StatusCode := s, Header := up,
            Read := some (.json (Proxy.StandardResponse.toJSON
              { Data := Proxy.nestedArrays n, Success := true, ErrorMessage := none })) }
          readErr).Body = .json env.toJSON := by
  obtain ⟨hu, -, hns⟩ := envelope_refused limit n render h2
    { Data := Proxy.nestedArrays n, Success := true, ErrorMessage := none } rfl
  simp only [Proxy.transformResponse, hns, Proxy.cJSON]
  have hl : (Proxy.nestingCodec limit render).len (.json (Proxy.StandardResponse.toJSON
      { Data := Proxy.nestedArrays n, Success := true, ErrorMessage := none })) > 0 := by
    simp [Proxy.nestingCodec, Proxy.wireCodec]
  by_cases hc : decide (s ≥ 200 ∧ s < 300) = false
  · simp only [hc, if_true, hl, hu]
    exact ⟨_, Or.inr rfl, _, rfl, rfl⟩
  · simp only [hc, if_false, hl, hu, if_true]
    exact ⟨_, Or.inl rfl, _, rfl, rfl⟩

theorem envelope_data_injective (a b : Proxy.StandardResponse)
    (h : (Proxy.Wire.json a.toJSON) = .json b.toJSON) : a.Data = b.Data := by
  unfold Proxy.StandardResponse.toJSON at h
  injection h with h
  injection h with h
  injection h with h _
  injection h

theorem nestedArrays_ne_string (n : Nat) (s : String) :
    Proxy.JSON.string s ≠ Proxy.nestedArrays n := by
  cases n <;> simp [Proxy.nestedArrays]

theorem nestedArrays_ne_errorData (n : Nat) (e : Proxy.ErrorData) :
    e.toJSON ≠ Proxy.nestedArrays n := by
  cases n <;> simp [Proxy.nestedArrays, Proxy.ErrorData.toJSON]

theorem nested_twice_differs (limit n : Nat) (render : Proxy.JSON → String)
    (h1 : n + 1 ≤ limit) (h2 : limit < n + 2)
    (req1 req2 : Proxy.Request) (now1 now2 : String) (hd1 hd2 : Proxy.Header)
    (s2 : Nat) (up1 up2 : Proxy.Header) (readErr1 readErr2 : String) :
    (Proxy.transformResponse (Proxy.nestingCodec limit render) req2 now2 hd2
      { StatusCode := s2, Header := up2,
        Read := some (Proxy.transformResponse (Proxy.nestingCodec limit render) req1 now1 hd1
          { StatusCode := 200, Header := up1, Read := some (.json (Proxy.nestedArrays n)) }
          readErr1).Body }
      readErr2).Body
      ≠ (Proxy.transformResponse (Proxy.nestingCodec limit render) req1 now1 hd1
          { StatusCode := 200, Header := up1, Read := some (.json (Proxy.nestedArrays n)) }
          readErr1).Body := by
  rw [nested_first_pass limit n render h1]
  obtain ⟨data, hdata, env, henv, hbody⟩ :=
    nested_second_pass limit n render h2 req2 now2 hd2 s2 up2 readErr2
  rw [hbody]
  intro heq
  have := envelope_data_injective _ _ heq
  rw [henv] at this
  rcases hdata with hd | hd
  · rw [hd] at this
    exact nestedArrays_ne_string n _ this
  · rw [hd] at this
    exact nestedArrays_ne_errorData n _ this

theorem nested_second_pass_ok (limit n : Nat) (render : Proxy.JSON → String)
    (h2 : limit < n + 2) (req : Proxy.Request) (now : String) (h : Proxy.Header)
    (up : Proxy.Header) (readErr : String) :
    (Proxy.transformResponse (Proxy.nestingCodec limit render) req now h
      { StatusCode := 200, Header := up,
        Read := some (.json (Proxy.StandardResponse.toJSON
          { Data := Proxy.nestedArrays n, Success := true, ErrorMessage := none })) }
      readErr).Body =
      .json (Proxy.StandardResponse.toJSON
        { Data := .string (render (Proxy.StandardResponse.toJSON
            { Data := Proxy.nestedArrays n, Success := true, ErrorMessage := none })),
          Success := true, ErrorMessage := none }) := by
  obtain ⟨hu, -, hns⟩ := envelope_refused limit n render h2
    { Data := Proxy.nestedArrays n, Success := true, ErrorMessage := none } rfl
  have hl : (Proxy.nestingCodec limit render).len (.json (Proxy.StandardResponse.toJSON
      { Data := Proxy.nestedArrays n, Success := true, ErrorMessage := none })) > 0 := by
    simp [Proxy.nestingCodec, Proxy.wireCodec]
  simp only [Proxy.transformResponse, hns, Proxy.cJSON]
  have hc : ¬ decide (200 ≥ 200 ∧ 200 < 300) = false := by decide
  simp only [hc, if_false, hl, hu, if_true]
  rfl

/-- C14 fails on the code: the decoder of `encoding/json` refuses a document nested deeper
than 10000 and its encoder has no such limit (`nestingCodec 10000`).  A body of 10000
arrays nested in one another, answered with HTTP 200, decodes and is wrapped: the body
the gateway emits is the envelope with the arrays as data, nested 10001 deep.  Fed back,
that body is refused by the decoder, so it does not pass as standard; with HTTP 200 it is
wrapped again as a text, and under any status the second body differs from the first.
This holds whatever the text of a document is (`render`). -/
theorem C14_deep_body_is_wrapped_twice :
    (Proxy.nestedArrays 9999).depth = 10000 ∧
    ∀ render : Proxy.JSON → String,
    (Proxy.transformResponse (Proxy.nestingCodec 10000 render)
        { Method := "GET", Path := "/p", RawQuery := "" } "2025-01-01T00:00:00Z" []
        { StatusCode := 200, Header := [], Read := some (.json (Proxy.nestedArrays 9999)) }
        "").Body =
      .json (Proxy.StandardResponse.toJSON
        { Data := Proxy.nestedArrays 9999, Success := true, ErrorMessage := none }) ∧
    (Proxy.StandardResponse.toJSON
      { Data := Proxy.nestedArrays 9999, Success := true, ErrorMessage := none }).depth
        = 10001 ∧
    (Proxy.nestingCodec 10000 render).UnmarshalMap
      (.json (Proxy.StandardResponse.toJSON
        { Data := Proxy.nestedArrays 9999, Success := true, ErrorMessage := none })) = none ∧
    Proxy.alreadyStandard (Proxy.nestingCodec 10000 render)
      (Proxy.transformResponse (Proxy.nestingCodec 10000 render)
        { Method := "GET", Path := "/p", RawQuery := "" } "2025-01-01T00:00:00Z" []
        { StatusCode := 200, Header := [], Read := some (.json (Proxy.nestedArrays 9999)) }
        "").Body = false ∧
    (Proxy.transformResponse (Proxy.nestingCodec 10000 render)
      { Method := "GET", Path := "/p", RawQuery := "" } "2025-01-01T00:00:01Z" []
      { StatusCode := 200, Header := [],
        Read := some (Proxy.transformResponse (Proxy.nestingCodec 10000 render)
          { Method := "GET", Path := "/p", RawQuery := "" } "2025-01-01T00:00:00Z" []
          { StatusCode := 200, Header := [],
            Read := some (.json (Proxy.nestedArrays 9999)) } "").Body }
      "").Body =
      .json (Proxy.StandardResponse.toJSON
        { Data := .string (render (Proxy.StandardResponse.toJSON
            { Data := Proxy.nestedArrays 9999, Success := true, ErrorMessage := none })),
          Success := true, ErrorMessage := none }) ∧
    (∀ (req2 : Proxy.Request) (now2 : String) (h2 : Proxy.Header) (s2 : Nat)
        (up2 : Proxy.Header) (readErr2 : String),
      (Proxy.transformResponse (Proxy.nestingCodec 10000 render) req2 now2 h2
        { StatusCode := s2, Header := up2,
          Read := some (Proxy.transformResponse (Proxy.nestingCodec 10000 render)
            { Method := "GET", Path := "/p", RawQuery := "" } "2025-01-01T00:00:00Z" []
            { StatusCode := 200, Header := [],
              Read := some (.json (Proxy.nestedArrays 9999)) } "").Body }
        readErr2).Body
        ≠ (Proxy.transformResponse (Proxy.nestingCodec 10000 render)
            { Method := "GET", Path := "/p", RawQuery := "" } "2025-01-01T00:00:00Z" []
            { StatusCode := 200, Header := [],
              Read := some (.json (Proxy.nestedArrays 9999)) } "").Body) := by
  refine ⟨depth_nestedArrays 9999, ?_⟩
  intro render
  have hfirst := nested_first_pass 10000 9999 render (by decide)
    { Method := "GET", Path := "/p", RawQuery := "" } "2025-01-01T00:00:00Z" [] [] ""
  have href := envelope_refused 10000 9999 render (by decide)
    { Data := Proxy.nestedArrays 9999, Success := true, ErrorMessage := none } rfl
  refine ⟨hfirst, ?_, href.2.1, ?_, ?_, ?_⟩
  · rw [depth_envelope]
    exact congrArg (· + 1) (depth_nestedArrays 9999)
  · rw [hfirst]; exact href.2.2
  · rw [hfirst]
    exact nested_second_pass_ok 10000 9999 render (by decide) _ _ _ _ _
  · intro req2 now2 h2 s2 up2 readErr2
    exact nested_twice_differs 10000 9999 render (by decide) (by decide) _ req2 _ now2 _ h2
      s2 _ up2 _ readErr2

/-- C14 (amended): on a JSON library that decodes the objects it encodes as long as they
are nested at most `limit` deep (`RereadsObjectsWithin`, with `limit` at least 2), and for
a body that already has the standard format, or is not a JSON document the decoder
accepts, or decodes to a value nested less than `limit` deep: the body the gateway emits
for any upstream status already has the standard format; fed back through
`transformResponse` under any status, request and header state, it comes out with status
200 and the same bytes. -/
theorem C14_envelope_idempotent_within_limit {Body : Type} (codec : Proxy.JSONCodec Body)
    (limit : Nat) (hlimit : 2 ≤ limit) (hcodec : codec.RereadsObjectsWithin limit)
    (req1 req2 : Proxy.Request) (now1 now2 : String) (h1 h2 : Proxy.Header)
    (s1 s2 : Nat) (up1 up2 : Proxy.Header) (readErr1 readErr2 : String) (body : Body)
    (hbody : Proxy.alreadyStandard codec body = true ∨
      ∀ v : Proxy.JSON, codec.Unmarshal body = some v → v.depth < limit) :
    Proxy.alreadyStandard codec
      (Proxy.transformResponse codec req1 now1 h1
        { StatusCode := s1, Header := up1, Read := some body } readErr1).Body = true ∧
    (Proxy.transformResponse codec req2 now2 h2
      { StatusCode := s2, Header := up2,
        Read := some (Proxy.transformResponse codec req1 now1 h1
          { StatusCode := s1, Header := up1, Read := some body } readErr1).Body }
      readErr2).Body
      = (Proxy.transformResponse codec req1 now1 h1
          { StatusCode := s1, Header := up1, Read := some body } readErr1).Body ∧
    (Proxy.transformResponse codec req2 now2 h2
      { StatusCode := s2, Header := up2,
        Read := some (Proxy.transformResponse codec req1 now1 h1
          { StatusCode := s1, Header := up1, Read := some body } readErr1).Body }
      readErr2).Status = 200 := by
  have hstd : Proxy.alreadyStandard codec
      (Proxy.transformResponse codec req1 now1 h1
        { StatusCode := s1, Header := up1, Read := some body } readErr1).Body = true := by
    rcases transformResponse_body_cases codec req1 now1 h1 s1 up1 readErr1 body with
      ⟨hs, hb⟩ | ⟨env, hb, hd⟩
    · rw [hb]
      exact hs
    · rcases hbody with hs | hbody
      · rw [transformResponse_body_of_standard codec req1 now1 h1 s1 up1 readErr1 body hs]
        exact hs
      · rw [hb]
        apply encoded_envelope_alreadyStandard codec limit hcodec env
        rw [depth_envelope]
        rcases hd with hd | hd
        · omega
        · exact hbody _ hd
  exact ⟨hstd, transformResponse_body_of_standard codec req2 now2 h2 s2 up2 readErr2 _ hstd,
    transformResponse_status _ _ _ _ _ _⟩

/-- C14 (amended) on two runs with the nesting limit 10000.  A body of 9999 arrays nested
in one another with HTTP 200 is wrapped into an envelope nested 10000 deep, and the
wrapped body fed back with HTTP 500 comes out unchanged.  The text `not a json` with HTTP
404 is wrapped, and the wrapped body fed back with HTTP 500 comes out unchanged. -/
theorem C14_envelope_idempotent_within_limit_witness :
    (2 ≤ 10000 ∧
      (Proxy.nestingCodec 10000 (fun _ => "")).RereadsObjectsWithin 10000 ∧
      (∀ v : Proxy.JSON,
        (Proxy.nestingCodec 10000 (fun _ => "")).Unmarshal
          (.json (Proxy.nestedArrays 9998)) = some v → v.depth < 10000)) ∧
    (Proxy.transformResponse (Proxy.nestingCodec 10000 (fun _ => ""))
      { Method := "GET", Path := "/q", RawQuery := "" } "2025-01-01T00:00:01Z" []
      { StatusCode := 500, Header := [],
        Read := some (Proxy.transformResponse (Proxy.nestingCodec 10000 (fun _ => ""))
          { Method := "GET", Path := "/p", RawQuery := "" } "2025-01-01T00:00:00Z" []
          { StatusCode := 200, Header := [],
            Read := some (.json (Proxy.nestedArrays 9998)) } "").Body }
      "").Body
      = (Proxy.transformResponse (Proxy.nestingCodec 10000 (fun _ => ""))
          { Method := "GET", Path := "/p", RawQuery := "" } "2025-01-01T00:00:00Z" []
          { StatusCode := 200, Header := [],
            Read := some (.json (Proxy.nestedArrays 9998)) } "").Body ∧
    (Proxy.transformResponse Proxy.wireCodec { Method := "GET", Path := "/q", RawQuery := "" }
      "2025-01-01T00:00:01Z" []
      { StatusCode := 500, Header := [],
        Read := some (Proxy.transformResponse Proxy.wireCodec
          { Method := "GET", Path := "/p", RawQuery := "" } "2025-01-01T00:00:00Z" []
          { StatusCode := 404, Header := [], Read := some (.text "not a json") } "").Body }
      "").Body
      = (Proxy.transformResponse Proxy.wireCodec
          { Method := "GET", Path := "/p", RawQuery := "" } "2025-01-01T00:00:00Z" []
          { StatusCode := 404, Header := [], Read := some (.text "not a json") } "").Body :=
  have hb : ∀ v : Proxy.JSON,
      (Proxy.nestingCodec 10000 (fun _ => "")).Unmarshal
        (.json (Proxy.nestedArrays 9998)) = some v → v.depth < 10000 := by
    intro v hv
    have hd := depth_nestedArrays 9998
    simp only [Proxy.nestingCodec] at hv
    rw [hd, if_pos (by decide)] at hv
    cases hv
    rw [hd]
    decide
  ⟨⟨by decide, nestingCodec_rereadsObjectsWithin 10000 (fun _ => ""), hb⟩,
    (C14_envelope_idempotent_within_limit (Proxy.nestingCodec 10000 (fun _ => "")) 10000
      (by decide) (nestingCodec_rereadsObjectsWithin 10000 (fun _ => ""))
      { Method := "GET", Path := "/p", RawQuery := "" }
      { Method := "GET", Path := "/q", RawQuery := "" }
      "2025-01-01T00:00:00Z" "2025-01-01T00:00:01Z" [] [] 200 500 [] [] "" ""
      (.json (Proxy.nestedArrays 9998)) (Or.inr hb)).2.1,
    (C14_envelope_idempotent_within_limit Proxy.wireCodec 10000 (by decide)
      (wireCodec_rereadsObjectsWithin 10000)
      { Method := "GET", Path := "/p", RawQuery := "" }
      { Method := "GET", Path := "/q", RawQuery := "" }
      "2025-01-01T00:00:00Z" "2025-01-01T00:00:01Z" [] [] 404 500 [] [] "" ""
      (.text "not a json") (Or.inr (fun v hv => by simp [Proxy.wireCodec] at hv))).2.1⟩

theorem String_length_pos_of_ne_empty (t : String) (h : t ≠ "") : 0 < t.length := by
  rcases t with ⟨l⟩
  cases l with
  | nil => exact absurd rfl h
  | cons c cs => simp [String.length]

theorem targetPath_length_pos (service : Proxy.ServiceConfig) (req : Proxy.Request) :
    0 < (Proxy.targetPath service req).length := by
  unfold Proxy.targetPath
  simp only
  split_ifs with h1 h2 h3
  · decide
  · decide
  · rw [String.length_append]
    exact Nat.lt_of_lt_of_le (by decide) (Nat.le_add_right _ _)
  · exact String_length_pos_of_ne_empty _ h1

theorem buildTargetURL_ne (backend : String) (service : Proxy.ServiceConfig)
    (req : Proxy.Request) : Proxy.buildTargetURL backend service req ≠ backend := by
  intro h
  have hl := congrArg String.length h
  have hp := targetPath_length_pos service req
  unfold Proxy.buildTargetURL at hl
  simp only at hl
  split_ifs at hl <;> simp only [String.length_append] at hl <;> omega

theorem WeightedLB_setHealthy_false_mem (url b : String) (hne : url ≠ b)
    (bs : List WeightedBackend) :
    b ∈ ((WeightedLB.setHealthy false url bs).filter (fun x => x.Healthy)).map (fun x => x.URL)
      ↔ b ∈ (bs.filter (fun x => x.Healthy)).map (fun x => x.URL) := by
  induction bs with
  | nil => simp [WeightedLB.setHealthy]
  | cons x rest ih =>
    unfold WeightedLB.setHealthy
    by_cases hx : x.URL = url
    · have hxb : x.URL ≠ b := fun hb => hne (hx ▸ hb)
      rw [if_pos hx]
      by_cases hh : x.Healthy = true
      · simp [List.filter_cons, hh, hxb, Ne.symm hxb]
      · simp [List.filter_cons, hh]
    · rw [if_neg hx]
      by_cases hh : x.Healthy = true
      · simp only [List.filter_cons, hh, if_true, List.map_cons, List.mem_cons, ih]
      · simp only [List.filter_cons, hh, Bool.false_eq_true, if_false, ih]

theorem LeastConnectionsLB_setHealthy_false_mem (url b : String) (hne : url ≠ b)
    (bs : List ConnectionBackend) :
    b ∈ ((LeastConnectionsLB.setHealthy false url bs).filter (fun x => x.Healthy)).map
        (fun x => x.URL)
      ↔ b ∈ (bs.filter (fun x => x.Healthy)).map (fun x => x.URL) := by
  induction bs with
  | nil => simp [LeastConnectionsLB.setHealthy]
  | cons x rest ih =>
    unfold LeastConnectionsLB.setHealthy
    by_cases hx : x.URL = url
    · have hxb : x.URL ≠ b := fun hb => hne (hx ▸ hb)
      rw [if_pos hx]
      by_cases hh : x.Healthy = true
      · simp [List.filter_cons, hh, hxb, Ne.symm hxb]
      · simp [List.filter_cons, hh]
    · rw [if_neg hx]
      by_cases hh : x.Healthy = true
      · simp only [List.filter_cons, hh, if_true, List.map_cons, List.mem_cons, ih]
      · simp only [List.filter_cons, hh, Bool.false_eq_true, if_false, ih]

theorem MarkBackendDown_other_mem (lb : LoadBalancer) (url b : String) (hne : url ≠ b) :
    b ∈ (lb.MarkBackendDown url).GetHealthyBackends ↔ b ∈ lb.GetHealthyBackends := by
  cases lb with
  | roundRobin l =>
    simp only [LoadBalancer.MarkBackendDown, LoadBalancer.GetHealthyBackends,
      RoundRobinLB.MarkBackendDown, RoundRobinLB.GetHealthyBackends, List.mem_filter]
    constructor
    · exact fun h => h.1
    · exact fun h => ⟨h, by simpa using Ne.symm hne⟩
  | random l =>
    simp only [LoadBalancer.MarkBackendDown, LoadBalancer.GetHealthyBackends,
      RandomLB.MarkBackendDown, RandomLB.GetHealthyBackends, List.mem_filter]
    constructor
    · exact fun h => h.1
    · exact fun h => ⟨h, by simpa using Ne.symm hne⟩
  | weighted l =>
    exact WeightedLB_setHealthy_false_mem url b hne l.backends
  | leastConnections l =>
    exact LeastConnectionsLB_setHealthy_false_mem url b hne l.backends

theorem HandleProxy_transport_failure {Body : Type} (codec : Proxy.JSONCodec Body)
    (lb : LoadBalancer) (r : Nat) (service : Proxy.ServiceConfig) (req : Proxy.Request)
    (now : String) (h : Proxy.Header) (create : String → Option String)
    (send : String → Proxy.RoundTrip Body) (err : String)
    (hb : (lb.NextBackend r).2 ≠ "")
    (hc : create (Proxy.buildTargetURL (lb.NextBackend r).2 service req) = none)
    (hs : send (Proxy.buildTargetURL (lb.NextBackend r).2 service req) = .failed err) :
    Proxy.HandleProxy codec (.present (some lb)) r service req now h create send =
      some (.present (some ((lb.NextBackend r).1.MarkBackendDown
          (Proxy.buildTargetURL (lb.NextBackend r).2 service req))),
        Proxy.sendErrorResponse codec req now h 502 "Service unavailable" (some err)) := by
  simp only [Proxy.HandleProxy, Proxy.getTargetURL, hb, if_false, hc, hs,
    Proxy.LBEntry.MarkBackendDown, Option.map_some']

/-- C11 on the code: on a transport failure `HandleProxy` calls `MarkBackendDown` with
the target URL (backend, path and query), which is never the backend `NextBackend`
returned; so that backend is in the healthy list after the handler exactly when it was
there before the failure.  With one least-connections or weighted backend `http://a`
and the request `GET /api/users`, the failed call goes to `http://a/users` and the
healthy list is still `["http://a"]`. -/
theorem C11_failed_backend_stays_healthy :
    (∀ (lb : LoadBalancer) (r : Nat) (service : Proxy.ServiceConfig) (req : Proxy.Request)
        (now : String) (h : Proxy.Header) (create : String → Option String)
        (send : String → Proxy.RoundTrip Proxy.Wire) (err : String),
      (lb.NextBackend r).2 ≠ "" →
      create (Proxy.buildTargetURL (lb.NextBackend r).2 service req) = none →
      send (Proxy.buildTargetURL (lb.NextBackend r).2 service req) = .failed err →
      ∃ lb2, (Proxy.HandleProxy Proxy.wireCodec (.present (some lb)) r service req now h
            create send).map Prod.fst = some (.present (some lb2)) ∧
        ((lb.NextBackend r).2 ∈ lb2.GetHealthyBackends ↔
          (lb.NextBackend r).2 ∈ (lb.NextBackend r).1.GetHealthyBackends)) ∧
    (Proxy.getTargetURL (Proxy.NewHandlerEntry (lbService "least_connections")) 0
        (lbService "least_connections") usersRequest).map
      (fun t => match t.2 with | .ok url => url | .error _ => "")
      = some "http://a/users" ∧
    (Proxy.HandleProxy Proxy.wireCodec (Proxy.NewHandlerEntry (lbService "least_connections")) 0
        (lbService "least_connections") usersRequest "2025-01-01T00:00:00Z" []
        (fun _ => none) (fun _ => .failed "connection refused")).map
      (fun t => t.1.GetHealthyBackends) = some ["http://a"] ∧
    (Proxy.HandleProxy Proxy.wireCodec (Proxy.NewHandlerEntry (lbService "weighted")) 0
        (lbService "weighted") usersRequest "2025-01-01T00:00:00Z" []
        (fun _ => none) (fun _ => .failed "connection refused")).map
      (fun t => t.1.GetHealthyBackends) = some ["http://a"] := by
  refine ⟨?_, by decide, by decide, by decide⟩
  intro lb r service req now h create send err hb hc hs
  refine ⟨_, ?_, MarkBackendDown_other_mem _ _ _ (buildTargetURL_ne _ service req)⟩
  rw [HandleProxy_transport_failure Proxy.wireCodec lb r service req now h create send err
    hb hc hs]
  rfl

theorem sendErrorResponse_status_body {Body : Type} (codec : Proxy.JSONCodec Body)
    (req : Proxy.Request) (now : String) (h : Proxy.Header) (statusCode : Nat)
    (message err : String) :
    ((Proxy.sendErrorResponse codec req now h statusCode message (some err)).Status,
      (Proxy.sendErrorResponse codec req now h statusCode message (some err)).Body) =
    (200, codec.Encode (.object
      [("data", .object [("code", .number (toString statusCode)),
          ("message", .string message),
          ("path", .string req.Path), ("method", .string req.Method)]),
        ("success", .bool false),
        ("errorMessage", .string (message ++ ": " ++ err))])) := rfl

/-- C17, as stated, fails for the target-resolution failure: when the balancer returns
no backend (the first pick of a factory-made round-robin balancer), the envelope has the
error message `Error determining target URL: no healthy backends available`, which does
not begin with `Service unavailable: `. -/
theorem C17_resolution_failure_message :
    (Proxy.HandleProxy Proxy.wireCodec (Proxy.NewHandlerEntry (lbService "round_robin")) 0
        (lbService "round_robin") usersRequest "2025-01-01T00:00:00Z" []
        (fun _ => none) (fun _ => .failed "connection refused")).map
      (fun t => (t.2.Status, t.2.Body)) =
      some (200, .json (.object
        [("data", .object [("code", .number "502"),
            ("message", .string "Error determining target URL"),
            ("path", .string "/api/users"), ("method", .string "GET")]),
          ("success", .bool false),
          ("errorMessage",
            .string "Error determining target URL: no healthy backends available")])) ∧
    Proxy.HasPrefix "Error determining target URL: no healthy backends available"
      "Service unavailable: " = false := by
  exact ⟨rfl, by decide⟩

/-- C17 (amended): both failures are answered with HTTP 200 and an envelope whose
`success` is false and whose `data` is an `ErrorData` with code 502, the request path
and the request method.  When the balancer returns no backend, the `ErrorData` message
is `Error determining target URL` and `errorMessage` is
`Error determining target URL: no healthy backends available`; when the upstream call
fails with a transport error, the `ErrorData` message is `Service unavailable` and
`errorMessage` is `Service unavailable: ` followed by the text of the error. -/
theorem C17_failure_envelopes {Body : Type} (codec : Proxy.JSONCodec Body)
    (entry : Proxy.LBEntry) (r : Nat) (service : Proxy.ServiceConfig) (req : Proxy.Request)
    (now : String) (h : Proxy.Header) (create : String → Option String)
    (send : String → Proxy.RoundTrip Body) :
    (∀ entry1 err, Proxy.getTargetURL entry r service req = some (entry1, .error err) →
      err = "no healthy backends available" ∧
      (Proxy.HandleProxy codec entry r service req now h create send).map
          (fun t => (t.2.Status, t.2.Body)) =
        some (200, codec.Encode (.object
          [("data", .object [("code", .number "502"),
              ("message", .string "Error determining target URL"),
              ("path", .string req.Path), ("method", .string req.Method)]),
            ("success", .bool false),
            ("errorMessage",
              .string "Error determining target URL: no healthy backends available")]))) ∧
    (∀ entry1 targetURL err,
      Proxy.getTargetURL entry r service req = some (entry1, .ok targetURL) →
      create targetURL = none → send targetURL = .failed err →
      (Proxy.HandleProxy codec entry r service req now h create send).map
          (fun t => (t.2.Status, t.2.Body)) =
        some (200, codec.Encode (.object
          [("data", .object [("code", .number "502"),
              ("message", .string "Service unavailable"),
              ("path", .string req.Path), ("method", .string req.Method)]),
            ("success", .bool false),
            ("errorMessage", .string ("Service unavailable: " ++ err))]))) := by
  constructor
  · intro entry1 err hg
    have herr : err = "no healthy backends available" := by
      unfold Proxy.getTargetURL at hg
      rcases entry with _ | (_ | lb)
      · simp at hg
      · simp at hg
      · simp only at hg
        split_ifs at hg
        · simp only [Option.some.injEq, Prod.mk.injEq, Except.error.injEq] at hg
          exact hg.2.symm
        · simp at hg
    subst herr
    refine ⟨rfl, ?_⟩
    have h502 : toString (502 : Nat) = "502" := by decide
    have hmsg : "Error determining target URL" ++ ": " ++ "no healthy backends available" =
        "Error determining target URL: no healthy backends available" := by decide
    simp only [Proxy.HandleProxy, hg, Option.map_some', sendErrorResponse_status_body, h502,
      hmsg]
  · intro entry1 targetURL err hg hc hs
    have hmark : ∃ entry2, entry1.MarkBackendDown targetURL = some entry2 := by
      unfold Proxy.getTargetURL at hg
      rcases entry with _ | (_ | lb)
      · simp only [Option.some.injEq, Prod.mk.injEq] at hg
        rw [← hg.1]
        exact ⟨_, rfl⟩
      · simp at hg
      · simp only at hg
        split_ifs at hg
        · simp at hg
        · simp only [Option.some.injEq, Prod.mk.injEq] at hg
          rw [← hg.1]
          exact ⟨_, rfl⟩
    obtain ⟨entry2, he⟩ := hmark
    have h502 : toString (502 : Nat) = "502" := by decide
    have hmsg : "Service unavailable" ++ ": " = "Service unavailable: " := by decide
    simp only [Proxy.HandleProxy, hg, hc, hs, he, Option.map_some',
      sendErrorResponse_status_body, h502, hmsg]

/-! ## Invariants of the breaker over sequences of calls -/

theorem currentState_maxRequests (cb : CircuitBreaker) (now : Time) :
    (cb.currentState now).1.maxRequests = cb.maxRequests := by
  rw [currentState_eq_strict, currentStateStrict]
  split_ifs <;> rfl

theorem setState_maxRequests (cb : CircuitBreaker) (s : State) (now : Time) :
    (cb.setState s now).maxRequests = cb.maxRequests := by
  unfold CircuitBreaker.setState
  split_ifs
  · rfl
  · rw [toNewGeneration_maxRequests]

theorem currentState_halfOpenCap (cb : CircuitBreaker) (now : Time) (h : HalfOpenCap cb) :
    HalfOpenCap (cb.currentState now).1 := by
  rw [currentState_eq_strict, currentStateStrict]
  split_ifs
  all_goals first
    | exact h
    | (intro _; exact Nat.zero_le _)

theorem u32_le (n : Nat) : u32 n ≤ n := Nat.mod_le _ _

theorem beforeRequest_halfOpenCap (cb : CircuitBreaker) (now : Time) (h : HalfOpenCap cb) :
    HalfOpenCap (cb.beforeRequest now).1 := by
  have hr := currentState_halfOpenCap cb now h
  rw [beforeRequest_eq]
  split_ifs with h1 h2
  · exact hr
  · exact hr
  · intro hs
    have hs1 : (cb.currentState now).1.state = .StateHalfOpen := hs
    have hlt : (cb.currentState now).1.counts.Requests < (cb.currentState now).1.maxRequests := by
      by_contra hge
      exact h2 ⟨hs1, Nat.le_of_not_lt hge⟩
    show u32 ((cb.currentState now).1.counts.Requests + 1) ≤ (cb.currentState now).1.maxRequests
    exact Nat.le_trans (u32_le _) hlt

theorem onSuccess_halfOpenCap (cb : CircuitBreaker) (s : State) (now : Time)
    (h : HalfOpenCap cb) : HalfOpenCap (cb.onSuccess s now) := by
  simp only [CircuitBreaker.onSuccess]
  split_ifs
  · intro hs
    rw [setState_state] at hs
    exact absurd hs (by decide)
  · exact h

theorem onFailure_halfOpenCap (cb : CircuitBreaker) (s : State) (now : Time)
    (h : HalfOpenCap cb) : HalfOpenCap (cb.onFailure s now) := by
  simp only [CircuitBreaker.onFailure]
  split_ifs
  · intro hs
    rw [setState_state] at hs
    exact absurd hs (by decide)
  · exact h

theorem afterRequest_halfOpenCap (cb : CircuitBreaker) (now : Time) (before : Nat)
    (success : Bool) (h : HalfOpenCap cb) :
    HalfOpenCap (cb.afterRequest now before success) := by
  have hr := currentState_halfOpenCap cb now h
  rw [afterRequest_eq]
  split_ifs
  · exact hr
  · exact onSuccess_halfOpenCap _ _ _ hr
  · exact onFailure_halfOpenCap _ _ _ hr

theorem call_halfOpenCap (cb : CircuitBreaker) (c : BreakerCall) (h : HalfOpenCap cb) :
    HalfOpenCap (cb.call c) := by
  cases c with
  | before now => exact beforeRequest_halfOpenCap cb now h
  | after now before success => exact afterRequest_halfOpenCap cb now before success h
  | state now => exact currentState_halfOpenCap cb now h

theorem runCalls_halfOpenCap (calls : List BreakerCall) (cb : CircuitBreaker)
    (h : HalfOpenCap cb) : HalfOpenCap (cb.runCalls calls) := by
  induction calls generalizing cb with
  | nil => exact h
  | cons c rest ih => exact ih (cb.call c) (call_halfOpenCap cb c h)

theorem u64_succ_ne (g : Nat) : u64 (g + 1) ≠ g := by
  unfold u64
  omega

theorem u64_succ_succ_ne (g : Nat) : u64 (u64 (g + 1) + 1) ≠ g := by
  unfold u64
  omega

theorem currentState_of_same_generation (cb : CircuitBreaker) (now : Time)
    (h : (cb.currentState now).1.generation = cb.generation) :
    (cb.currentState now).1 = cb := by
  rw [currentState_eq_strict, currentStateStrict] at h ⊢
  by_cases h1 : cb.state = .StateClosed ∧ cb.expiry ≠ zeroTime ∧ cb.expiry < now
  · rw [if_pos h1] at h
    exact absurd h (u64_succ_ne _)
  · rw [if_neg h1] at h ⊢
    by_cases h2 : cb.state = .StateOpen ∧ cb.expiry < now
    · rw [if_pos h2] at h
      exact absurd h (u64_succ_ne _)
    · rw [if_neg h2]

theorem setState_of_same_generation (cb : CircuitBreaker) (s : State) (now : Time)
    (h : (cb.setState s now).generation = cb.generation) : cb.setState s now = cb := by
  unfold CircuitBreaker.setState at h ⊢
  split_ifs at h ⊢ with hs
  · rfl
  · rw [toNewGeneration_generation] at h
    exact absurd h (u64_succ_ne _)

theorem onSuccess_of_same_generation (cb : CircuitBreaker) (s : State) (now : Time)
    (h : (cb.onSuccess s now).generation = cb.generation) :
    (cb.onSuccess s now).counts = cb.counts.OnSuccess := by
  simp only [CircuitBreaker.onSuccess] at h ⊢
  split_ifs at h ⊢
  · rw [setState_of_same_generation _ _ _ h]
  · rfl

theorem onFailure_of_same_generation (cb : CircuitBreaker) (s : State) (now : Time)
    (h : (cb.onFailure s now).generation = cb.generation) :
    (cb.onFailure s now).counts = cb.counts.OnFailure := by
  simp only [CircuitBreaker.onFailure] at h ⊢
  split_ifs at h ⊢
  · rw [setState_of_same_generation _ _ _ h]
  · rfl

theorem call_counts_of_same_generation (cb : CircuitBreaker) (c : BreakerCall)
    (h : (cb.call c).generation = cb.generation) :
    (cb.call c).counts = cb.counts ∨ (cb.call c).counts = cb.counts.OnRequest ∨
      (cb.call c).counts = cb.counts.OnSuccess ∨ (cb.call c).counts = cb.counts.OnFailure := by
  cases c with
  | before now =>
    simp only [CircuitBreaker.call] at h ⊢
    rw [beforeRequest_generation] at h
    have hr := currentState_of_same_generation cb now h
    rw [beforeRequest_eq, hr]
    split_ifs
    · exact Or.inl rfl
    · exact Or.inl rfl
    · exact Or.inr (Or.inl rfl)
  | state now =>
    simp only [CircuitBreaker.call, State_fst] at h ⊢
    rw [currentState_of_same_generation cb now h]
    exact Or.inl rfl
  | after now before success =>
    simp only [CircuitBreaker.call] at h ⊢
    have hg : (cb.currentState now).1.generation = cb.generation := by
      rcases currentState_generation_cases cb now with h0 | h0
      · exact h0
      · exfalso
        rw [afterRequest_eq] at h
        split_ifs at h
        · rw [h0] at h
          exact u64_succ_ne _ h
        · rcases onSuccess_generation_cases (cb.currentState now).1
            (cb.currentState now).1.state now with h1 | h1
          · rw [h1, h0] at h
            exact u64_succ_ne _ h
          · rw [h1, h0] at h
            exact u64_succ_succ_ne _ h
        · rcases onFailure_generation_cases (cb.currentState now).1
            (cb.currentState now).1.state now with h1 | h1
          · rw [h1, h0] at h
            exact u64_succ_ne _ h
          · rw [h1, h0] at h
            exact u64_succ_succ_ne _ h
    have hr := currentState_of_same_generation cb now hg
    rw [afterRequest_eq, hr] at h ⊢
    split_ifs at h ⊢
    · exact Or.inl rfl
    · exact Or.inr (Or.inr (Or.inl (onSuccess_of_same_generation _ _ _ h)))
    · exact Or.inr (Or.inr (Or.inr (onFailure_of_same_generation _ _ _ h)))

theorem call_maxRequests (cb : CircuitBreaker) (c : BreakerCall) :
    (cb.call c).maxRequests = cb.maxRequests := by
  cases c with
  | before now =>
    simp only [CircuitBreaker.call]
    rw [beforeRequest_eq]
    split_ifs <;> exact currentState_maxRequests cb now
  | state now => exact currentState_maxRequests cb now
  | after now before success =>
    simp only [CircuitBreaker.call]
    rw [afterRequest_eq]
    split_ifs
    · exact currentState_maxRequests cb now
    · simp only [CircuitBreaker.onSuccess]
      split_ifs
      · rw [setState_maxRequests]
        exact currentState_maxRequests cb now
      · exact currentState_maxRequests cb now
    · simp only [CircuitBreaker.onFailure]
      split_ifs
      · rw [setState_maxRequests]
        exact currentState_maxRequests cb now
      · exact currentState_maxRequests cb now

theorem runCalls_maxRequests (calls : List BreakerCall) (cb : CircuitBreaker) :
    (cb.runCalls calls).maxRequests = cb.maxRequests := by
  induction calls generalizing cb with
  | nil => rfl
  | cons c rest ih =>
    show ((cb.call c).runCalls rest).maxRequests = cb.maxRequests
    rw [ih, call_maxRequests]

/-- C18, as stated, fails for the consecutive counters: on the scenario breaker, tripped
and then probed, the HalfOpen generation 2 holds one success (`ConsecutiveSuccesses = 1`);
the next admitted request fails without tripping, the breaker stays HalfOpen in
generation 2, and `ConsecutiveSuccesses` is back to 0. -/
theorem C18_consecutive_counter_decreases :
    (((NewCircuitBreaker scenarioSettings 0).runCalls halfOpenCalls).state = .StateHalfOpen ∧
      ((NewCircuitBreaker scenarioSettings 0).runCalls halfOpenCalls).generation = 2 ∧
      ((NewCircuitBreaker scenarioSettings 0).runCalls halfOpenCalls).counts.ConsecutiveSuccesses
        = 1) ∧
    (((NewCircuitBreaker scenarioSettings 0).runCalls
        (halfOpenCalls ++ [.before (41 * Second), .after (41 * Second) 2 false])).state
        = .StateHalfOpen ∧
      ((NewCircuitBreaker scenarioSettings 0).runCalls
        (halfOpenCalls ++ [.before (41 * Second), .after (41 * Second) 2 false])).generation
        = 2 ∧
      ((NewCircuitBreaker scenarioSettings 0).runCalls
        (halfOpenCalls ++ [.before (41 * Second),
          .after (41 * Second) 2 false])).counts.ConsecutiveSuccesses = 0) := by
  decide

/-- C18 (amended): in every state reached from `NewCircuitBreaker` by calls of
`beforeRequest`, `afterRequest` and `State` at any clock readings, a HalfOpen breaker has
`counts.Requests ≤ maxRequests`; an admission in HalfOpen raises `counts.Requests` by
exactly one and keeps it within `maxRequests`.  A call that leaves the generation as it
was leaves the counters as they were or applies one of `OnRequest`, `OnSuccess`,
`OnFailure`: so `Requests`, `TotalSuccesses` and `TotalFailures` do not decrease within a
generation unless a `uint32` wraps, while a consecutive counter is set to 0 by the
opposite outcome. -/
theorem C18_half_open_cap (settings : CircuitBreakerSettings) (t0 : Time)
    (calls : List BreakerCall) (hmax : settings.MaxRequests < 4294967296) :
    (((NewCircuitBreaker settings t0).runCalls calls).state = .StateHalfOpen →
      ((NewCircuitBreaker settings t0).runCalls calls).counts.Requests ≤
        ((NewCircuitBreaker settings t0).runCalls calls).maxRequests) ∧
    (∀ now : Time, ((NewCircuitBreaker settings t0).runCalls calls).state = .StateHalfOpen →
      (((NewCircuitBreaker settings t0).runCalls calls).beforeRequest now).2.2 = none →
      (((NewCircuitBreaker settings t0).runCalls calls).beforeRequest now).1.counts.Requests =
          ((NewCircuitBreaker settings t0).runCalls calls).counts.Requests + 1 ∧
        (((NewCircuitBreaker settings t0).runCalls calls).beforeRequest now).1.counts.Requests ≤
          ((NewCircuitBreaker settings t0).runCalls calls).maxRequests) ∧
    (∀ (cb : CircuitBreaker) (c : BreakerCall), (cb.call c).generation = cb.generation →
      ((cb.call c).counts = cb.counts ∨ (cb.call c).counts = cb.counts.OnRequest ∨
        (cb.call c).counts = cb.counts.OnSuccess ∨ (cb.call c).counts = cb.counts.OnFailure) ∧
      (cb.counts.Requests + 1 < 4294967296 →
        cb.counts.Requests ≤ (cb.call c).counts.Requests) ∧
      (cb.counts.TotalSuccesses + 1 < 4294967296 →
        cb.counts.TotalSuccesses ≤ (cb.call c).counts.TotalSuccesses) ∧
      (cb.counts.TotalFailures + 1 < 4294967296 →
        cb.counts.TotalFailures ≤ (cb.call c).counts.TotalFailures)) := by
  have hinit : HalfOpenCap (NewCircuitBreaker settings t0) := by
    intro hs
    simp [NewCircuitBreaker] at hs
  have hcap : HalfOpenCap ((NewCircuitBreaker settings t0).runCalls calls) :=
    runCalls_halfOpenCap calls _ hinit
  have hm : ((NewCircuitBreaker settings t0).runCalls calls).maxRequests = settings.MaxRequests :=
    runCalls_maxRequests calls _
  generalize (NewCircuitBreaker settings t0).runCalls calls = cbR at hcap hm ⊢
  refine ⟨hcap, fun now hs hadm => ?_, fun cb c hg => ?_⟩
  · have hr := currentState_of_halfOpen cbR now hs
    have hno : ¬ (cbR.state = .StateOpen) := by
      rw [hs]
      decide
    rw [beforeRequest_eq, hr, if_neg hno] at hadm ⊢
    by_cases h2 : cbR.state = .StateHalfOpen ∧ cbR.counts.Requests ≥ cbR.maxRequests
    · rw [if_pos h2] at hadm
      simp at hadm
    · rw [if_neg h2]
      have hlt : cbR.counts.Requests < cbR.maxRequests := by
        by_contra hge
        exact h2 ⟨hs, Nat.le_of_not_lt hge⟩
      have hu : u32 (cbR.counts.Requests + 1) = cbR.counts.Requests + 1 :=
        Nat.mod_eq_of_lt (by omega)
      refine ⟨hu, ?_⟩
      show u32 (cbR.counts.Requests + 1) ≤ cbR.maxRequests
      rw [hu]
      exact hlt
  · have hc := call_counts_of_same_generation cb c hg
    refine ⟨hc, fun h1 => ?_, fun h1 => ?_, fun h1 => ?_⟩
    · rcases hc with hc | hc | hc | hc <;> rw [hc] <;>
        simp only [Counts.OnRequest, Counts.OnSuccess, Counts.OnFailure, u32] <;> omega
    · rcases hc with hc | hc | hc | hc <;> rw [hc] <;>
        simp only [Counts.OnRequest, Counts.OnSuccess, Counts.OnFailure, u32] <;> omega
    · rcases hc with hc | hc | hc | hc <;> rw [hc] <;>
        simp only [Counts.OnRequest, Counts.OnSuccess, Counts.OnFailure, u32] <;> omega

/-- C18 (amended) on the scenario breaker after it was tripped and probed once. -/
theorem C18_half_open_cap_witness :
    ((NewCircuitBreaker scenarioSettings 0).runCalls halfOpenCalls).state = .StateHalfOpen ∧
      ((NewCircuitBreaker scenarioSettings 0).runCalls halfOpenCalls).counts.Requests ≤
        ((NewCircuitBreaker scenarioSettings 0).runCalls halfOpenCalls).maxRequests :=
  ⟨by decide,
    (C18_half_open_cap scenarioSettings 0 halfOpenCalls (by decide)).1 (by decide)⟩

/-- C19 on the code: `NewCircuitBreaker` with `Interval = 0` made at time 5 is Closed with
`expiry = 5`, not the unset expiry; the first call after that instant starts generation
1; a request admitted at time 5 and completed with success at time 6 is dropped as stale
and its admission is cleared.  Only from then on is the expiry unset. -/
theorem C19_zero_interval_breaker_expires_once :
    ((NewCircuitBreaker noWindowSettings 5).state = .StateClosed ∧
      (NewCircuitBreaker noWindowSettings 5).interval = 0 ∧
      (NewCircuitBreaker noWindowSettings 5).expiry = 5 ∧
      (NewCircuitBreaker noWindowSettings 5).expiry ≠ zeroTime) ∧
    (((NewCircuitBreaker noWindowSettings 5).State 6).1.generation = 1 ∧
      ((NewCircuitBreaker noWindowSettings 5).State 6).1.expiry = zeroTime) ∧
    (((NewCircuitBreaker noWindowSettings 5).runCalls [.before 5]).counts.Requests = 1 ∧
      ((NewCircuitBreaker noWindowSettings 5).runCalls [.before 5, .after 6 0 true]).counts
        = zeroCounts ∧
      ((NewCircuitBreaker noWindowSettings 5).runCalls [.before 5, .after 6 0 true]).generation
        = 1) := by
  decide

/-! ## The weighted pick -/

theorem i64_i64_add (a b : Int) : i64 (i64 a + b) = i64 (a + b) := by
  unfold i64; omega

theorem i64_idem (x : Int) : i64 (i64 x) = i64 x := by
  unfold i64; omega

theorem i64_of_range (x : Int) (h1 : -9223372036854775808 ≤ x)
    (h2 : x ≤ 9223372036854775807) : i64 x = x := by
  unfold i64; omega

theorem healthyWeight_append_singleton (bs : List WeightedBackend) (b : WeightedBackend) :
    healthyWeight (bs ++ [b]) =
      if b.Healthy = false then healthyWeight bs else i64 (healthyWeight bs + b.Weight) := by
  simp [healthyWeight, List.foldl_append]

theorem healthyWeight_i64 (bs : List WeightedBackend) :
    i64 (healthyWeight bs) = healthyWeight bs := by
  induction bs using List.reverseRecOn with
  | nil => decide
  | append_singleton bs b ih =>
    rw [healthyWeight_append_singleton]
    by_cases h : b.Healthy = false
    · rw [if_pos h]; exact ih
    · rw [if_neg h]; exact i64_idem _

theorem healthyWeight_foldl (bs : List WeightedBackend) : ∀ acc : Int,
    i64 (bs.foldl (fun t b => if b.Healthy = false then t else i64 (t + b.Weight)) acc) =
      i64 (acc + healthyWeightSum bs) := by
  induction bs with
  | nil => intro acc; simp [healthyWeightSum]
  | cons b bs ih =>
    intro acc
    rw [List.foldl_cons, ih]
    by_cases h : b.Healthy = false
    · rw [if_pos h]; simp [healthyWeightSum, h]
    · have ht : b.Healthy = true := by simpa using h
      rw [if_neg h, i64_i64_add]
      simp [healthyWeightSum, ht, add_assoc]

theorem healthyWeight_eq_sum (bs : List WeightedBackend) :
    healthyWeight bs = i64 (healthyWeightSum bs) := by
  rw [← healthyWeight_i64, healthyWeight, healthyWeight_foldl, zero_add]

theorem bump_of_unhealthy (b : WeightedBackend) (h : b.Healthy = false) : b.bump = b := by
  simp [WeightedBackend.bump, h]

theorem bump_of_healthy (b : WeightedBackend) (h : b.Healthy = true) :
    b.bump = { b with CurrentWeight := b.raised } := by
  simp [WeightedBackend.bump, h]

theorem bump_URL (b : WeightedBackend) : b.bump.URL = b.URL := by
  unfold WeightedBackend.bump; split <;> rfl

theorem pickStep_unhealthy (st : WeightedPick) (i : Nat) (b : WeightedBackend)
    (hb : st.backends[i]? = some b) (hh : b.Healthy = false) :
    WeightedLB.pickStep st i = st := by
  simp [WeightedLB.pickStep, hb, hh]

theorem pickStep_first (st : WeightedPick) (i : Nat) (b : WeightedBackend)
    (hb : st.backends[i]? = some b) (hh : b.Healthy = true)
    (hs : st.selectedBackend = none) :
    WeightedLB.pickStep st i =
      { backends := st.backends.set i b.bump,
        totalWeight := i64 (st.totalWeight + b.Weight), selectedBackend := some i } := by
  simp [WeightedLB.pickStep, hb, hh, hs, WeightedBackend.bump, WeightedBackend.raised]

theorem pickStep_later (st : WeightedPick) (i j : Nat) (b c : WeightedBackend)
    (hb : st.backends[i]? = some b) (hh : b.Healthy = true)
    (hs : st.selectedBackend = some j) (hji : j ≠ i) (hc : st.backends[j]? = some c) :
    WeightedLB.pickStep st i =
      { backends := st.backends.set i b.bump,
        totalWeight := i64 (st.totalWeight + b.Weight),
        selectedBackend := if b.raised > c.CurrentWeight then some i else some j } := by
  have hget : ∀ x : WeightedBackend, (st.backends.set i x).getD j x = c := by
    intro x
    rw [List.getD_eq_getElem?_getD, List.getElem?_set_ne (Ne.symm hji), hc]; rfl
  simp only [WeightedLB.pickStep, hb, hh, hs, WeightedBackend.bump, WeightedBackend.raised,
    hget]
  by_cases hgt : i64 (b.CurrentWeight + b.Weight) > c.CurrentWeight
  · simp [hgt]
  · simp [hgt]

theorem pickStep_inv (bs : List WeightedBackend) (k : Nat) (st : WeightedPick)
    (hk : k < bs.length) (h : PickInv bs k st) :
    PickInv bs (k + 1) (WeightedLB.pickStep st k) := by
  obtain ⟨hlen, hget, htot, hnone, hsome⟩ := h
  obtain ⟨b, hb⟩ : ∃ b, bs[k]? = some b := ⟨bs[k], List.getElem?_eq_getElem hk⟩
  have hstk : st.backends[k]? = some b := by rw [hget k, if_neg (Nat.lt_irrefl k), hb]
  have htake : healthyWeight (bs.take (k + 1)) =
      if b.Healthy = false then healthyWeight (bs.take k)
      else i64 (healthyWeight (bs.take k) + b.Weight) := by
    rw [List.take_succ, hb]; exact healthyWeight_append_singleton _ _
  have hother : ∀ i, i ≠ k → ((i < k + 1) ↔ (i < k)) := by intro i hi; omega
  have hgetset : ∀ i, (st.backends.set k b.bump)[i]? =
      if i < k + 1 then (bs[i]?).map WeightedBackend.bump else bs[i]? := by
    intro i
    by_cases hik : i = k
    · subst hik
      rw [List.getElem?_set_self (by rw [hlen]; exact hk), if_pos (Nat.lt_succ_self _), hb]
      rfl
    · rw [List.getElem?_set_ne (Ne.symm hik), hget i]
      simp only [hother i hik]
  by_cases hh : b.Healthy = false
  · rw [pickStep_unhealthy st k b hstk hh]
    refine ⟨hlen, ?_, ?_, ?_, ?_⟩
    · intro i
      by_cases hik : i = k
      · subst hik
        rw [hstk, if_pos (Nat.lt_succ_self _), hb]
        simp [bump_of_unhealthy b hh]
      · rw [hget i]; simp only [hother i hik]
    · rw [htake, if_pos hh]; exact htot
    · intro hs i c hi hc
      by_cases hik : i = k
      · subst hik; rw [hb] at hc; cases hc; exact hh
      · exact hnone hs i c ((hother i hik).1 hi) hc
    · intro j hs
      obtain ⟨hjk, sel, hsel, hselh, hmax, hfirst⟩ := hsome j hs
      refine ⟨Nat.lt_succ_of_lt hjk, sel, hsel, hselh, ?_, hfirst⟩
      intro i c hi hc hch
      by_cases hik : i = k
      · subst hik; rw [hb] at hc; cases hc; rw [hh] at hch; cases hch
      · exact hmax i c ((hother i hik).1 hi) hc hch
  · have ht : b.Healthy = true := by simpa using hh
    cases hs : st.selectedBackend with
    | none =>
      rw [pickStep_first st k b hstk ht hs]
      refine ⟨by simp [hlen], hgetset, ?_, ?_, ?_⟩
      · show i64 (st.totalWeight + b.Weight) = _
        rw [htake, if_neg hh, htot]
      · intro h; cases h
      · intro j hj
        cases hj
        refine ⟨Nat.lt_succ_self _, b, hb, ht, ?_, ?_⟩
        · intro i c hi hc hch
          by_cases hik : i = k
          · subst hik; rw [hb] at hc; cases hc; exact le_refl _
          · have := hnone hs i c ((hother i hik).1 hi) hc
            rw [this] at hch; cases hch
        · intro i c hi hc hch
          have := hnone hs i c hi hc
          rw [this] at hch; cases hch
    | some j =>
      obtain ⟨hjk, sel, hsel, hselh, hmax, hfirst⟩ := hsome j hs
      have hstj : st.backends[j]? = some sel.bump := by
        rw [hget j, if_pos hjk, hsel]; rfl
      rw [pickStep_later st k j b sel.bump hstk ht hs (Nat.ne_of_lt hjk) hstj]
      have hcw : sel.bump.CurrentWeight = sel.raised := by rw [bump_of_healthy sel hselh]
      rw [hcw]
      by_cases hgt : b.raised > sel.raised
      · rw [if_pos hgt]
        refine ⟨by simp [hlen], hgetset, ?_, ?_, ?_⟩
        · show i64 (st.totalWeight + b.Weight) = _
          rw [htake, if_neg hh, htot]
        · intro h; cases h
        · intro j1 hj
          cases hj
          refine ⟨Nat.lt_succ_self _, b, hb, ht, ?_, ?_⟩
          · intro i c hi hc hch
            by_cases hik : i = k
            · subst hik; rw [hb] at hc; cases hc; exact le_refl _
            · exact le_of_lt (lt_of_le_of_lt (hmax i c ((hother i hik).1 hi) hc hch) hgt)
          · intro i c hi hc hch
            exact lt_of_le_of_lt (hmax i c hi hc hch) hgt
      · rw [if_neg hgt]
        refine ⟨by simp [hlen], hgetset, ?_, ?_, ?_⟩
        · show i64 (st.totalWeight + b.Weight) = _
          rw [htake, if_neg hh, htot]
        · intro h; cases h
        · intro j1 hj
          cases hj
          refine ⟨Nat.lt_succ_of_lt hjk, sel, hsel, hselh, ?_, hfirst⟩
          intro i c hi hc hch
          by_cases hik : i = k
          · subst hik; rw [hb] at hc; cases hc; exact not_lt.1 hgt
          · exact hmax i c ((hother i hik).1 hi) hc hch

theorem pickLoop_inv (bs : List WeightedBackend) : ∀ k, k ≤ bs.length →
    PickInv bs k ((List.range k).foldl WeightedLB.pickStep
      { backends := bs, totalWeight := 0, selectedBackend := none }) := by
  intro k
  induction k with
  | zero =>
    intro _
    refine ⟨rfl, ?_, ?_, ?_, ?_⟩
    · intro i; simp
    · simp [healthyWeight]
    · intro _ i b hi; exact absurd hi (Nat.not_lt_zero i)
    · intro j hj; cases hj
  | succ k ih =>
    intro hk
    rw [List.range_succ, List.foldl_append]
    exact pickStep_inv bs k _ hk (ih (Nat.le_of_succ_le hk))

theorem NextBackend_of_cons (lb : WeightedLB) (first : WeightedBackend)
    (rest : List WeightedBackend) (h : lb.backends = first :: rest) (st : WeightedPick)
    (hst : st = (List.range lb.backends.length).foldl WeightedLB.pickStep
      { backends := lb.backends, totalWeight := 0, selectedBackend := none }) :
    lb.NextBackend =
      match st.selectedBackend with
      | none => ({ lb with backends := st.backends }, (st.backends.headD first).URL)
      | some j =>
        (WeightedLB.mk
          (st.backends.set j
            { (st.backends.getD j first) with
              CurrentWeight := i64 ((st.backends.getD j first).CurrentWeight - st.totalWeight) })
          lb.current,
          (st.backends.getD j first).URL) := by
  obtain ⟨bs, c⟩ := lb
  simp only at h
  subst h
  subst hst
  rfl

theorem getElem?_lt_length {α : Type} (l : List α) (i : Nat) (a : α) (h : l[i]? = some a) :
    i < l.length := by
  obtain ⟨hi, _⟩ := List.getElem?_eq_some_iff.1 h
  exact hi

theorem pickLoop_backends (bs : List WeightedBackend) (st : WeightedPick)
    (h : PickInv bs bs.length st) (i : Nat) :
    st.backends[i]? = (bs[i]?).map WeightedBackend.bump := by
  rw [h.2.1 i]
  by_cases hi : i < bs.length
  · rw [if_pos hi]
  · rw [if_neg hi, List.getElem?_eq_none (not_lt.1 hi)]; rfl

theorem NextBackend_none_healthy (lb : WeightedLB) (first : WeightedBackend)
    (rest : List WeightedBackend) (h : lb.backends = first :: rest)
    (hall : ∀ b ∈ lb.backends, b.Healthy = false) :
    lb.NextBackend = (lb, first.URL) := by
  have hinv := pickLoop_inv lb.backends lb.backends.length (le_refl _)
  rw [NextBackend_of_cons lb first rest h _ rfl]
  generalize (List.range lb.backends.length).foldl WeightedLB.pickStep
    { backends := lb.backends, totalWeight := 0, selectedBackend := none } = st at hinv
  have hback := pickLoop_backends lb.backends st hinv
  obtain ⟨backends, totalWeight, selected⟩ := st
  obtain ⟨hlen, hget, htot, hnone, hsome⟩ := hinv
  have hsame : backends = lb.backends := by
    apply List.ext_getElem?
    intro i
    have := hback i
    simp only at this
    rw [this]
    cases hb : lb.backends[i]? with
    | none => rfl
    | some b => simp [bump_of_unhealthy b (hall b (List.getElem?_mem hb))]
  cases selected with
  | none =>
    simp only [hsame]
    obtain ⟨bs, c⟩ := lb
    simp only at h
    subst h
    rfl
  | some j =>
    obtain ⟨_, sel, hsel, hselh, _⟩ := hsome j rfl
    have := hall sel (List.getElem?_mem hsel)
    rw [this] at hselh; cases hselh

theorem NextBackend_some_healthy (lb : WeightedLB) (first : WeightedBackend)
    (rest : List WeightedBackend) (h : lb.backends = first :: rest)
    (hex : ∃ b ∈ lb.backends, b.Healthy = true) :
    ∃ (j : Nat) (sel : WeightedBackend), lb.backends[j]? = some sel ∧ sel.Healthy = true ∧
      lb.NextBackend.2 = sel.URL ∧
      (∀ (i : Nat) (b : WeightedBackend), lb.backends[i]? = some b → b.Healthy = true →
        b.raised ≤ sel.raised) ∧
      (∀ (i : Nat) (b : WeightedBackend), i < j → lb.backends[i]? = some b →
        b.Healthy = true → b.raised < sel.raised) ∧
      lb.NextBackend.1.current = lb.current ∧
      lb.NextBackend.1.backends.length = lb.backends.length ∧
      ∀ (i : Nat) (b : WeightedBackend), lb.backends[i]? = some b →
        lb.NextBackend.1.backends[i]? = some
          (if b.Healthy = false then b
           else if i = j then
             { b with CurrentWeight := i64 (b.raised - healthyWeight lb.backends) }
           else { b with CurrentWeight := b.raised }) := by
  have hinv := pickLoop_inv lb.backends lb.backends.length (le_refl _)
  rw [NextBackend_of_cons lb first rest h _ rfl]
  generalize (List.range lb.backends.length).foldl WeightedLB.pickStep
    { backends := lb.backends, totalWeight := 0, selectedBackend := none } = st at hinv
  have hback := pickLoop_backends lb.backends st hinv
  obtain ⟨backends, totalWeight, selected⟩ := st
  obtain ⟨hlen, hget, htot, hnone, hsome⟩ := hinv
  simp only at hlen htot hnone hsome hback
  rw [List.take_length] at htot
  obtain ⟨b0, hb0, hb0h⟩ := hex
  obtain ⟨i0, hi0⟩ := List.getElem?_of_mem hb0
  cases selected with
  | none =>
    have := hnone rfl i0 b0 (getElem?_lt_length _ _ _ hi0) hi0
    rw [this] at hb0h; cases hb0h
  | some j =>
    obtain ⟨hj, sel, hsel, hselh, hmax, hfirst⟩ := hsome j rfl
    have hgetD : backends.getD j first = sel.bump := by
      rw [List.getD_eq_getElem?_getD, hback j, hsel]; rfl
    simp only [hgetD]
    refine ⟨j, sel, hsel, hselh, bump_URL sel, ?_, hfirst, trivial, ?_, ?_⟩
    · intro i b hb hbh
      exact hmax i b (getElem?_lt_length _ _ _ hb) hb hbh
    · simp [hlen]
    · intro i b hb
      by_cases hij : i = j
      · subst hij
        rw [hsel] at hb; cases hb
        rw [List.getElem?_set_self (by rw [hlen]; exact hj), bump_of_healthy _ hselh, htot]
        simp [hselh]
      · rw [List.getElem?_set_ne (Ne.symm hij), hback i, hb]
        by_cases hh : b.Healthy = false
        · simp [hh, bump_of_unhealthy b hh]
        · have ht : b.Healthy = true := by simpa using hh
          simp [ht, hij, bump_of_healthy b ht]

/-- C20 on the code: a balancer made by `NewWeightedLB` with the largest `int` as the
weight of both backends has, after one pick, the current weights `-maxInt` and `maxInt`.
At the next pick the weight added to the second backend would give `maxInt + maxInt`,
the greatest updated weight, but the sum wraps to `-2`: the pick returns the first
backend and leaves the second with `-2`, not with its weight added. -/
theorem C20_weighted_pick_overflows :
    heavyWeighted.NextBackend.1.backends =
      [{ URL := "http://a", Weight := maxInt, CurrentWeight := -maxInt, Healthy := true },
       { URL := "http://b", Weight := maxInt, CurrentWeight := maxInt, Healthy := true }] ∧
    -maxInt + maxInt < maxInt + maxInt ∧
    heavyWeighted.NextBackend.1.NextBackend.2 = "http://a" ∧
    heavyWeighted.NextBackend.1.NextBackend.1.backends =
      [{ URL := "http://a", Weight := maxInt, CurrentWeight := 2, Healthy := true },
       { URL := "http://b", Weight := maxInt, CurrentWeight := -2, Healthy := true }] ∧
    (-2 : Int) ≠ maxInt + maxInt := by
  decide

/-- C20 (amended): for a weighted balancer with the backends `first :: rest`, in Go `int`
arithmetic.  When no backend is healthy, `NextBackend` returns the first configured URL
and changes nothing.  When some backend is healthy, it returns the URL of a healthy
backend `sel` at an index `j` whose raised weight (current weight plus weight, wrapped to
`int`) is greatest among the healthy backends and strictly greater than that of every
healthy backend before it; afterwards an unhealthy backend is unchanged, a healthy one
other than `j` carries its raised weight, and the one at `j` carries its raised weight
minus the wrapped sum of the healthy weights, wrapped again.  The wrapped sum is the
reduction of the integer sum, and the reduction is the identity on the `int` range. -/
theorem C20_weighted_pick_in_int_arithmetic (lb : WeightedLB) (first : WeightedBackend)
    (rest : List WeightedBackend) (h : lb.backends = first :: rest) :
    ((∀ b ∈ lb.backends, b.Healthy = false) → lb.NextBackend = (lb, first.URL)) ∧
    ((∃ b ∈ lb.backends, b.Healthy = true) →
      ∃ (j : Nat) (sel : WeightedBackend), lb.backends[j]? = some sel ∧ sel.Healthy = true ∧
        lb.NextBackend.2 = sel.URL ∧
        (∀ (i : Nat) (b : WeightedBackend), lb.backends[i]? = some b → b.Healthy = true →
          b.raised ≤ sel.raised) ∧
        (∀ (i : Nat) (b : WeightedBackend), i < j → lb.backends[i]? = some b →
          b.Healthy = true → b.raised < sel.raised) ∧
        lb.NextBackend.1.current = lb.current ∧
        lb.NextBackend.1.backends.length = lb.backends.length ∧
        ∀ (i : Nat) (b : WeightedBackend), lb.backends[i]? = some b →
          lb.NextBackend.1.backends[i]? = some
            (if b.Healthy = false then b
             else if i = j then
               { b with CurrentWeight := i64 (b.raised - healthyWeight lb.backends) }
             else { b with CurrentWeight := b.raised })) ∧
    healthyWeight lb.backends = i64 (healthyWeightSum lb.backends) ∧
    (∀ x : Int, -9223372036854775808 ≤ x → x ≤ 9223372036854775807 → i64 x = x) :=
  ⟨NextBackend_none_healthy lb first rest h, NextBackend_some_healthy lb first rest h,
    healthyWeight_eq_sum lb.backends, i64_of_range⟩

/-- C20 (amended) on the balancer with the weights 5, 1 and 1: the pick returns the URL of
a healthy backend, here the first, and lowers its current weight from 5 to -2. -/
theorem C20_weighted_pick_in_int_arithmetic_witness :
    smoothWeighted.backends =
      { URL := "http://a", Weight := 5, CurrentWeight := 0, Healthy := true } ::
        [{ URL := "http://b", Weight := 1, CurrentWeight := 0, Healthy := true },
         { URL := "http://c", Weight := 1, CurrentWeight := 0, Healthy := true }] ∧
    (∃ (j : Nat) (sel : WeightedBackend), smoothWeighted.backends[j]? = some sel ∧
      sel.Healthy = true ∧ smoothWeighted.NextBackend.2 = sel.URL) ∧
    smoothWeighted.NextBackend =
      ({ backends :=
          [{ URL := "http://a", Weight := 5, CurrentWeight := -2, Healthy := true },
           { URL := "http://b", Weight := 1, CurrentWeight := 1, Healthy := true },
           { URL := "http://c", Weight := 1, CurrentWeight := 1, Healthy := true }],
         current := 0 }, "http://a") :=
  ⟨by decide,
    (let ⟨j, sel, h1, h2, h3, _⟩ :=
      (C20_weighted_pick_in_int_arithmetic smoothWeighted _ _ rfl).2.1
        ⟨_, List.mem_cons_self _ _, rfl⟩
     ⟨j, sel, h1, h2, h3⟩),
    by decide⟩

/-! ## The least-connections pick -/

theorem leastStep_inv (bs : List ConnectionBackend) (k : Nat) (st : ConnectionPick)
    (hk : k < bs.length) (h : LeastInv bs k st) :
    LeastInv bs (k + 1) (LeastConnectionsLB.pickStep bs st k) := by
  obtain ⟨hnone, hsome⟩ := h
  obtain ⟨b, hb⟩ : ∃ b, bs[k]? = some b := ⟨bs[k], List.getElem?_eq_getElem hk⟩
  have hother : ∀ i, i ≠ k → ((i < k + 1) ↔ (i < k)) := by intro i hi; omega
  unfold LeastConnectionsLB.pickStep
  rw [hb]
  simp only
  by_cases hh : b.Healthy = false
  · rw [if_pos hh]
    refine ⟨?_, ?_⟩
    · intro hs i c hi hc
      by_cases hik : i = k
      · subst hik; rw [hb] at hc; cases hc; exact hh
      · exact hnone hs i c ((hother i hik).1 hi) hc
    · intro j hs
      obtain ⟨hjk, sel, hsel, hselh, hmin, hall, hfirst⟩ := hsome j hs
      refine ⟨Nat.lt_succ_of_lt hjk, sel, hsel, hselh, hmin, ?_, hfirst⟩
      intro i c hi hc hch
      by_cases hik : i = k
      · subst hik; rw [hb] at hc; cases hc; rw [hh] at hch; cases hch
      · exact hall i c ((hother i hik).1 hi) hc hch
  · have ht : b.Healthy = true := by simpa using hh
    rw [if_neg hh]
    cases hs : st.selectedBackend with
    | none =>
      rw [if_pos (Or.inl rfl)]
      refine ⟨(fun h => by cases h), ?_⟩
      intro j hj
      cases hj
      refine ⟨Nat.lt_succ_self _, b, hb, ht, rfl, ?_, ?_⟩
      · intro i c hi hc hch
        by_cases hik : i = k
        · subst hik; rw [hb] at hc; cases hc; exact le_refl _
        · have := hnone hs i c ((hother i hik).1 hi) hc
          rw [this] at hch; cases hch
      · intro i c hi hc hch
        have := hnone hs i c hi hc
        rw [this] at hch; cases hch
    | some j =>
      obtain ⟨hjk, sel, hsel, hselh, hmin, hall, hfirst⟩ := hsome j hs
      by_cases hlt : b.Connections < st.minConnections
      · rw [if_pos (Or.inr hlt)]
        rw [hmin] at hlt
        refine ⟨(fun h => by cases h), ?_⟩
        intro j1 hj
        cases hj
        refine ⟨Nat.lt_succ_self _, b, hb, ht, rfl, ?_, ?_⟩
        · intro i c hi hc hch
          by_cases hik : i = k
          · subst hik; rw [hb] at hc; cases hc; exact le_refl _
          · exact le_of_lt (lt_of_lt_of_le hlt (hall i c ((hother i hik).1 hi) hc hch))
        · intro i c hi hc hch
          exact lt_of_lt_of_le hlt (hall i c hi hc hch)
      · rw [if_neg (fun h => h.elim (fun h1 => by cases h1) (fun h2 => hlt h2))]
        rw [hmin] at hlt
        refine ⟨(fun h => by rw [hs] at h; cases h), ?_⟩
        intro j1 hj
        rw [hs] at hj
        cases hj
        refine ⟨Nat.lt_succ_of_lt hjk, sel, hsel, hselh, hmin, ?_, hfirst⟩
        intro i c hi hc hch
        by_cases hik : i = k
        · subst hik; rw [hb] at hc; cases hc; exact not_lt.1 hlt
        · exact hall i c ((hother i hik).1 hi) hc hch

theorem leastLoop_inv (bs : List ConnectionBackend) : ∀ k, k ≤ bs.length →
    LeastInv bs k ((List.range k).foldl (LeastConnectionsLB.pickStep bs)
      { selectedBackend := none, minConnections := -1 }) := by
  intro k
  induction k with
  | zero =>
    intro _
    refine ⟨?_, ?_⟩
    · intro _ i b hi; exact absurd hi (Nat.not_lt_zero i)
    · intro j hj; cases hj
  | succ k ih =>
    intro hk
    rw [List.range_succ, List.foldl_append]
    exact leastStep_inv bs k _ hk (ih (Nat.le_of_succ_le hk))

theorem LeastConnections_NextBackend_of_healthy (lb : LeastConnectionsLB)
    (hex : ∃ b ∈ lb.backends, b.Healthy = true) :
    ∃ (j : Nat) (sel : ConnectionBackend), lb.backends[j]? = some sel ∧ sel.Healthy = true ∧
      (∀ (i : Nat) (b : ConnectionBackend), lb.backends[i]? = some b → b.Healthy = true →
        sel.Connections ≤ b.Connections) ∧
      (∀ (i : Nat) (b : ConnectionBackend), i < j → lb.backends[i]? = some b →
        b.Healthy = true → sel.Connections < b.Connections) ∧
      lb.NextBackend =
        ({ backends := lb.backends.set j { sel with Connections := i32 (sel.Connections + 1) } },
          sel.URL) := by
  obtain ⟨bs⟩ := lb
  obtain ⟨b0, hb0, hb0h⟩ := hex
  simp only at hb0
  obtain ⟨i0, hi0⟩ := List.getElem?_of_mem hb0
  have hinv := leastLoop_inv bs bs.length (le_refl _)
  cases bs with
  | nil => cases hb0
  | cons first rest =>
    simp only [LeastConnectionsLB.NextBackend]
    generalize (List.range (first :: rest).length).foldl
      (LeastConnectionsLB.pickStep (first :: rest))
      { selectedBackend := none, minConnections := -1 } = st at hinv
    obtain ⟨selected, minConnections⟩ := st
    obtain ⟨hnone, hsome⟩ := hinv
    simp only at hnone hsome
    cases selected with
    | none =>
      have := hnone rfl i0 b0 (getElem?_lt_length _ _ _ hi0) hi0
      rw [this] at hb0h; cases hb0h
    | some j =>
      obtain ⟨hj, sel, hsel, hselh, hmin, hall, hfirst⟩ := hsome j rfl
      have hgetD : (first :: rest).getD j first = sel := by
        rw [List.getD_eq_getElem?_getD, hsel]; rfl
      refine ⟨j, sel, hsel, hselh, ?_, hfirst, ?_⟩
      · intro i b hb hbh
        exact hall i b (getElem?_lt_length _ _ _ hb) hb hbh
      · simp only [hgetD]

theorem i32_succ_of_lt (x : Int) (h1 : -2147483648 ≤ x) (h2 : x < 2147483647) :
    i32 (x + 1) = x + 1 := by
  unfold i32; omega

/-- C21 on the code: the counter is an `int32`.  A healthy backend that carries
2147483647 connections is picked and its counter becomes -2147483648, which is not the
counter plus 1. -/
theorem C21_connection_counter_wraps :
    fullConnections.NextBackend =
      ({ backends := [{ URL := "http://a", Connections := -2147483648, Healthy := true }] },
        "http://a") ∧
    (-2147483648 : Int) ≠ 2147483647 + 1 := by
  decide

/-- C21 (amended): for every least-connections balancer with a healthy backend,
`NextBackend` returns the URL of a healthy backend `sel` at an index `j` whose counter
is least among the healthy backends and strictly less than that of every healthy backend
before it; the balancer afterwards differs from the one before only at index `j`, where
the counter is the old one plus 1 in `int32` arithmetic, which is the old one plus 1
unless the old one is the largest `int32`. -/
theorem C21_least_connections_pick (lb : LeastConnectionsLB)
    (hex : ∃ b ∈ lb.backends, b.Healthy = true) :
    ∃ (j : Nat) (sel : ConnectionBackend), lb.backends[j]? = some sel ∧ sel.Healthy = true ∧
      (∀ (i : Nat) (b : ConnectionBackend), lb.backends[i]? = some b → b.Healthy = true →
        sel.Connections ≤ b.Connections) ∧
      (∀ (i : Nat) (b : ConnectionBackend), i < j → lb.backends[i]? = some b →
        b.Healthy = true → sel.Connections < b.Connections) ∧
      lb.NextBackend =
        ({ backends := lb.backends.set j { sel with Connections := i32 (sel.Connections + 1) } },
          sel.URL) ∧
      (-2147483648 ≤ sel.Connections → sel.Connections < 2147483647 →
        i32 (sel.Connections + 1) = sel.Connections + 1) := by
  obtain ⟨j, sel, h1, h2, h3, h4, h5⟩ := LeastConnections_NextBackend_of_healthy lb hex
  exact ⟨j, sel, h1, h2, h3, h4, h5, i32_succ_of_lt sel.Connections⟩

/-- C21 (amended) on a balancer with the counters 3, 1, 1 and an unhealthy backend with
0: the pick returns the second backend, the first of the two with the least counter among
the healthy ones, and raises only its counter. -/
theorem C21_least_connections_pick_witness :
    (∃ b ∈ tiedConnections.backends, b.Healthy = true) ∧
    (∃ (j : Nat) (sel : ConnectionBackend), tiedConnections.backends[j]? = some sel ∧
      sel.Healthy = true ∧
      tiedConnections.NextBackend =
        ({ backends := tiedConnections.backends.set j
            { sel with Connections := i32 (sel.Connections + 1) } }, sel.URL)) ∧
    tiedConnections.NextBackend =
      ({ backends :=
          [{ URL := "http://a", Connections := 3, Healthy := true },
           { URL := "http://b", Connections := 2, Healthy := true },
           { URL := "http://c", Connections := 1, Healthy := true },
           { URL := "http://d", Connections := 0, Healthy := false }] }, "http://b") :=
  ⟨⟨_, List.mem_cons_self _ _, rfl⟩,
    (let ⟨j, sel, h1, h2, _, _, h5, _⟩ :=
      C21_least_connections_pick tiedConnections ⟨_, List.mem_cons_self _ _, rfl⟩
     ⟨j, sel, h1, h2, h5⟩),
    by decide⟩

/-! ## The rate limiter -/

theorem sliceTo_min (userAgent : RateLimit.GoString) :
    RateLimit.sliceTo userAgent (RateLimit.min userAgent.length 50) = userAgent.take 50 := by
  unfold RateLimit.sliceTo RateLimit.min
  by_cases h : (userAgent.length : Int) < 50
  · rw [if_pos h]
    have h1 : userAgent.length ≤ 50 := by omega
    simp [List.take_of_length_le h1]
  · rw [if_neg h]; rfl

/-- C22: `getClientID` returns `user:` followed by the user id when the context holds a
non-empty string under `user_id`; in every other case it returns `ip:`, the client
address, `:ua:` and the first 50 bytes of the User-Agent (all of it when it is shorter);
a key of the first kind is never a key of the second kind, whatever the addresses and
User-Agents. -/
theorem C22_client_key_derivation :
    (∀ (uid ip ua : RateLimit.GoString), uid ≠ [] →
      RateLimit.getClientID (.str uid) ip ua = RateLimit.ascii "user:" ++ uid) ∧
    (∀ (v : RateLimit.ContextValue) (ip ua : RateLimit.GoString),
      (∀ uid, v = .str uid → uid = []) →
      RateLimit.getClientID v ip ua =
        RateLimit.ascii "ip:" ++ ip ++ RateLimit.ascii ":ua:" ++ ua.take 50 ∧
      (ua.length ≤ 50 → ua.take 50 = ua) ∧ (ua.take 50).length = Nat.min ua.length 50) ∧
    (∀ (uid : RateLimit.GoString) (v : RateLimit.ContextValue)
      (ip ua ip1 ua1 : RateLimit.GoString), uid ≠ [] → (∀ u, v = .str u → u = []) →
      RateLimit.getClientID (.str uid) ip ua ≠ RateLimit.getClientID v ip1 ua1) := by
  have hauth : ∀ (uid ip ua : RateLimit.GoString), uid ≠ [] →
      RateLimit.getClientID (.str uid) ip ua = RateLimit.ascii "user:" ++ uid := by
    intro uid ip ua h
    simp only [RateLimit.getClientID, if_pos h]
  have hanon : ∀ (v : RateLimit.ContextValue) (ip ua : RateLimit.GoString),
      (∀ uid, v = .str uid → uid = []) →
      RateLimit.getClientID v ip ua =
        RateLimit.ascii "ip:" ++ ip ++ RateLimit.ascii ":ua:" ++ ua.take 50 := by
    intro v ip ua h
    cases v with
    | absent => simp only [RateLimit.getClientID, sliceTo_min]
    | other => simp only [RateLimit.getClientID, sliceTo_min]
    | str s =>
      have hs : s = [] := h s rfl
      subst hs
      simp only [RateLimit.getClientID, sliceTo_min]
      simp
  refine ⟨hauth, ?_, ?_⟩
  · intro v ip ua h
    refine ⟨hanon v ip ua h, fun hl => List.take_of_length_le hl, ?_⟩
    rw [List.length_take, Nat.min_comm]
  · intro uid v ip ua ip1 ua1 huid hv heq
    rw [hauth uid ip ua huid, hanon v ip1 ua1 hv] at heq
    have h1 : RateLimit.ascii "user:" = 117 :: [115, 101, 114, 58] := by decide
    have h2 : RateLimit.ascii "ip:" = 105 :: [112, 58] := by decide
    rw [h1, h2] at heq
    simp at heq

/-! ## Target resolution -/

theorem HasPrefix_slash_cons (s : String) :
    Proxy.HasPrefix s "/" = true ↔ ∃ t : List Char, s.data = '/' :: t := by
  unfold Proxy.HasPrefix
  show List.isPrefixOf ['/'] s.data = true ↔ _
  cases hs : s.data with
  | nil => simp [List.isPrefixOf]
  | cons c t =>
    simp [List.isPrefixOf]
    exact eq_comm

theorem targetPath_starts_with_slash (service : Proxy.ServiceConfig) (req : Proxy.Request) :
    Proxy.HasPrefix (Proxy.targetPath service req) "/" = true := by
  unfold Proxy.targetPath
  simp only
  split_ifs with h1 h2 h2
  · exact (HasPrefix_slash_cons _).2 ⟨_, rfl⟩
  · simpa using h2
  · exact (HasPrefix_slash_cons _).2 ⟨_, rfl⟩
  · simpa using h2

theorem HasPrefix_append_of_slash (u p rest : String) (hp : Proxy.HasPrefix p "/" = true) :
    Proxy.HasPrefix (u ++ p ++ rest) (u ++ "/") = true := by
  obtain ⟨t, ht⟩ := (HasPrefix_slash_cons p).1 hp
  unfold Proxy.HasPrefix
  rw [List.isPrefixOf_iff_prefix]
  simp only [String.data_append, ht]
  refine ⟨t ++ rest.data, ?_⟩
  show (u.data ++ ['/']) ++ (t ++ rest.data) = u.data ++ '/' :: t ++ rest.data
  simp

theorem HasPrefix_iff (s p : String) :
    Proxy.HasPrefix s p = true ↔ ∃ rest : String, s = p ++ rest := by
  unfold Proxy.HasPrefix
  rw [List.isPrefixOf_iff_prefix]
  constructor
  · rintro ⟨t, ht⟩
    exact ⟨String.mk t, String.ext (by rw [String.data_append, ht])⟩
  · rintro ⟨rest, rfl⟩
    exact ⟨rest.data, by rw [String.data_append]⟩

theorem TrimPrefix_append (p rest : String) : Proxy.TrimPrefix (p ++ rest) p = rest := by
  unfold Proxy.TrimPrefix
  rw [if_pos ((HasPrefix_iff _ _).2 ⟨rest, rfl⟩)]
  apply String.ext
  simp [String.data_append]

theorem TrimPrefix_of_not_prefix (s p : String) (h : ¬ ∃ rest : String, s = p ++ rest) :
    Proxy.TrimPrefix s p = s := by
  unfold Proxy.TrimPrefix
  rw [if_neg (fun hp => h ((HasPrefix_iff s p).1 hp))]

theorem targetPath_of_trimmed (service : Proxy.ServiceConfig) (req : Proxy.Request) :
    Proxy.targetPath service req =
      (if Proxy.TrimPrefix req.Path service.Prefix = "" then "/"
       else if Proxy.HasPrefix (Proxy.TrimPrefix req.Path service.Prefix) "/" = true then
         Proxy.TrimPrefix req.Path service.Prefix
       else "/" ++ Proxy.TrimPrefix req.Path service.Prefix) := by
  unfold Proxy.targetPath
  simp only
  by_cases h1 : Proxy.TrimPrefix req.Path service.Prefix = ""
  · simp only [h1, if_true]
    decide
  · simp only [h1, if_false]
    by_cases h2 : Proxy.HasPrefix (Proxy.TrimPrefix req.Path service.Prefix) "/" = true
    · simp [h2]
    · simp [h2]

/-- C24: the target built by `getTargetURL` from a base URL `u` (the configured base URL
when the service has no balancer entry, the backend the balancer returns otherwise) is
`u`, then the path `p`, then `?` and the raw query when the query is not empty; `p` is
the request path without the service prefix, `/` when nothing is left, with a `/` put in
front when it does not start with one; so the target starts with `u` followed by `/`.
Stripping is that of `strings.TrimPrefix`: a path that is the prefix followed by `rest`
becomes `rest`, and a path that does not begin with the prefix stays as it is.  With the
prefix `/api` and the base `http://users:3001`: `/api/users/7` with the query `page=2`
gives `http://users:3001/users/7?page=2`, `/api` gives `http://users:3001/`, `/apiusers`
gives `http://users:3001/users`, and `/health` gives `http://users:3001/health`. -/
theorem C24_target_url_resolution :
    (∀ (u : String) (service : Proxy.ServiceConfig) (req : Proxy.Request),
      Proxy.buildTargetURL u service req =
        u ++ Proxy.targetPath service req ++
          (if req.RawQuery ≠ "" then "?" ++ req.RawQuery else "") ∧
      Proxy.targetPath service req =
        (if Proxy.TrimPrefix req.Path service.Prefix = "" then "/"
         else if Proxy.HasPrefix (Proxy.TrimPrefix req.Path service.Prefix) "/" = true then
           Proxy.TrimPrefix req.Path service.Prefix
         else "/" ++ Proxy.TrimPrefix req.Path service.Prefix) ∧
      Proxy.HasPrefix (Proxy.buildTargetURL u service req) (u ++ "/") = true) ∧
    (∀ s p : String, Proxy.HasPrefix s p = true ↔ ∃ rest : String, s = p ++ rest) ∧
    (∀ p rest : String, Proxy.TrimPrefix (p ++ rest) p = rest) ∧
    (∀ s p : String, (¬ ∃ rest : String, s = p ++ rest) → Proxy.TrimPrefix s p = s) ∧
    (∀ (service : Proxy.ServiceConfig) (req : Proxy.Request) (rest : String),
      req.Path = service.Prefix ++ rest →
      Proxy.targetPath service req =
        (if rest = "" then "/"
         else if Proxy.HasPrefix rest "/" = true then rest else "/" ++ rest)) ∧
    (∀ (service : Proxy.ServiceConfig) (req : Proxy.Request),
      (¬ ∃ rest : String, req.Path = service.Prefix ++ rest) →
      Proxy.targetPath service req =
        (if req.Path = "" then "/"
         else if Proxy.HasPrefix req.Path "/" = true then req.Path else "/" ++ req.Path)) ∧
    (∀ (r : Nat) (service : Proxy.ServiceConfig) (req : Proxy.Request),
      Proxy.getTargetURL .absent r service req =
        some (.absent, .ok (Proxy.buildTargetURL service.BaseURL service req))) ∧
    (∀ (lb : LoadBalancer) (r : Nat) (service : Proxy.ServiceConfig) (req : Proxy.Request),
      (lb.NextBackend r).2 ≠ "" →
      Proxy.getTargetURL (.present (some lb)) r service req =
        some (.present (some (lb.NextBackend r).1),
          .ok (Proxy.buildTargetURL (lb.NextBackend r).2 service req))) ∧
    (Proxy.getTargetURL .absent 0 usersService
        { Method := "GET", Path := "/api/users/7", RawQuery := "page=2" }
      = some (.absent, .ok "http://users:3001/users/7?page=2") ∧
     Proxy.getTargetURL .absent 0 usersService
        { Method := "GET", Path := "/api", RawQuery := "" }
      = some (.absent, .ok "http://users:3001/") ∧
     Proxy.getTargetURL .absent 0 usersService
        { Method := "GET", Path := "/apiusers", RawQuery := "" }
      = some (.absent, .ok "http://users:3001/users") ∧
     Proxy.getTargetURL .absent 0 usersService
        { Method := "GET", Path := "/health", RawQuery := "" }
      = some (.absent, .ok "http://users:3001/health")) := by
  refine ⟨?_, HasPrefix_iff, TrimPrefix_append, TrimPrefix_of_not_prefix, ?_, ?_, ?_, ?_, ?_⟩
  · intro u service req
    have hbuild : Proxy.buildTargetURL u service req =
        u ++ Proxy.targetPath service req ++
          (if req.RawQuery ≠ "" then "?" ++ req.RawQuery else "") := by
      unfold Proxy.buildTargetURL
      simp only
      by_cases hq : req.RawQuery ≠ ""
      · rw [if_pos hq, if_pos hq, String.append_assoc (u ++ Proxy.targetPath service req)]
      · rw [if_neg hq, if_neg hq]; simp
    refine ⟨hbuild, targetPath_of_trimmed service req, ?_⟩
    rw [hbuild]
    exact HasPrefix_append_of_slash _ _ _ (targetPath_starts_with_slash service req)
  · intro service req rest hp
    rw [targetPath_of_trimmed, hp, TrimPrefix_append]
  · intro service req hp
    rw [targetPath_of_trimmed, TrimPrefix_of_not_prefix _ _ hp]
  · intro r service req
    rfl
  · intro lb r service req h
    simp only [Proxy.getTargetURL, if_neg h]
  · exact ⟨rfl, rfl, rfl, rfl⟩

/-! ## Request headers -/

theorem addAll_apply (canon : String → String) (key : String) (values : List String) :
    ∀ (d : Proxy.HeaderMap) (k : String),
      (values.foldl (fun dst value => Proxy.HeaderMap.Add canon dst key value) d) k =
        if k = canon key then d k ++ values else d k := by
  induction values with
  | nil => intro d k; simp
  | cons v vs ih =>
    intro d k
    rw [List.foldl_cons, ih]
    unfold Proxy.HeaderMap.Add
    by_cases hk : k = canon key
    · simp [hk]
    · simp [hk]

theorem copyRequestHeaders_apply (canon : String → String) :
    ∀ (src : Proxy.HeaderEntries) (dst : Proxy.HeaderMap) (key : String),
      (src.map Prod.fst).Nodup → (∀ k ∈ src.map Prod.fst, canon k = k) →
      Proxy.copyRequestHeaders canon src dst key =
        dst key ++
          (match src.lookup key with
           | some values => if Proxy.shouldCopyHeader key = true then values else []
           | none => []) := by
  intro src
  induction src with
  | nil => intro dst key _ _; simp [Proxy.copyRequestHeaders]
  | cons kv rest ih =>
    intro dst key hnd hcanon
    obtain ⟨k0, v0⟩ := kv
    have hnd1 : (rest.map Prod.fst).Nodup := (List.nodup_cons.1 hnd).2
    have hk0 : k0 ∉ rest.map Prod.fst := (List.nodup_cons.1 hnd).1
    have hc0 : canon k0 = k0 := hcanon k0 (List.mem_cons_self _ _)
    have hcanon1 : ∀ k ∈ rest.map Prod.fst, canon k = k :=
      fun k hk => hcanon k (List.mem_cons_of_mem _ hk)
    have hstep : Proxy.copyRequestHeaders canon ((k0, v0) :: rest) dst =
        Proxy.copyRequestHeaders canon rest
          (if Proxy.shouldCopyHeader k0 = true then
            v0.foldl (fun dst value => Proxy.HeaderMap.Add canon dst k0 value) dst
           else dst) := rfl
    rw [hstep, ih _ key hnd1 hcanon1]
    by_cases hkey : key = k0
    · subst hkey
      have hlook : rest.lookup key = none := by
        rw [List.lookup_eq_none_iff]
        intro p hp
        have hne : key ≠ p.1 := fun h => hk0 (h ▸ List.mem_map_of_mem Prod.fst hp)
        simpa using hne
      simp only [hlook, List.lookup, beq_self_eq_true, List.append_nil]
      by_cases hs : Proxy.shouldCopyHeader key = true
      · simp only [hs, if_true, addAll_apply, hc0]
      · simp only [hs, if_false]; simp
    · have hbeq : (key == k0) = false := by simpa using hkey
      simp only [List.lookup, hbeq]
      by_cases hs : Proxy.shouldCopyHeader k0 = true
      · simp only [hs, if_true, addAll_apply, hc0, if_neg hkey]
      · rw [if_neg hs]

theorem lookup_of_mem_nodup (src : Proxy.HeaderEntries) (key : String) (values : List String)
    (hnd : (src.map Prod.fst).Nodup) (hmem : (key, values) ∈ src) :
    src.lookup key = some values := by
  induction src with
  | nil => cases hmem
  | cons kv rest ih =>
    obtain ⟨k0, v0⟩ := kv
    have hk0 : k0 ∉ rest.map Prod.fst := (List.nodup_cons.1 hnd).1
    rcases List.mem_cons.1 hmem with h | h
    · cases h
      simp [List.lookup]
    · have hne : key ≠ k0 := fun heq => hk0 (heq ▸ List.mem_map_of_mem Prod.fst h)
      have hbeq : (key == k0) = false := by simpa using hne
      simp only [List.lookup, hbeq]
      exact ih (List.nodup_cons.1 hnd).2 h

theorem ToLower_idem_decision (h1 h2 : String) (h : Proxy.ToLower h1 = Proxy.ToLower h2) :
    Proxy.shouldCopyHeader h1 = Proxy.shouldCopyHeader h2 := by
  unfold Proxy.shouldCopyHeader
  rw [h]

/-- C25: `shouldCopyHeader` accepts a field name exactly when its lower-cased form is
none of connection, keep-alive, proxy-authenticate, proxy-authorization, te, trailers,
transfer-encoding, upgrade and host, so two names with the same lower-cased form get the
same decision; and for a header with distinct canonical keys, `copyRequestHeaders` puts
under every accepted key of the source all of its values, in their order, after what the
destination held, and nothing under a rejected key. -/
theorem C25_hop_by_hop_filtering (canon : String → String) (src : Proxy.HeaderEntries)
    (hnd : (src.map Prod.fst).Nodup) (hcanon : ∀ k ∈ src.map Prod.fst, canon k = k) :
    (∀ header : String, Proxy.shouldCopyHeader header = true ↔
      Proxy.ToLower header ∉
        ["connection", "keep-alive", "proxy-authenticate", "proxy-authorization", "te",
         "trailers", "transfer-encoding", "upgrade", "host"]) ∧
    (∀ h1 h2 : String, Proxy.ToLower h1 = Proxy.ToLower h2 →
      Proxy.shouldCopyHeader h1 = Proxy.shouldCopyHeader h2) ∧
    (∀ (dst : Proxy.HeaderMap) (key : String) (values : List String), (key, values) ∈ src →
      Proxy.copyRequestHeaders canon src dst key =
        dst key ++ (if Proxy.shouldCopyHeader key = true then values else [])) := by
  refine ⟨?_, ToLower_idem_decision, ?_⟩
  · intro header
    unfold Proxy.shouldCopyHeader Proxy.skipHeaders
    simp
  · intro dst key values hmem
    rw [copyRequestHeaders_apply canon src dst key hnd hcanon,
      lookup_of_mem_nodup src key values hnd hmem]

/-- C25 on a request header with the fields Connection, Accept, Host and X-Trace: the
two values of Accept and the value of X-Trace are forwarded, Connection and Host are
not, and `CONNECTION` is rejected like `Connection`. -/
theorem C25_hop_by_hop_filtering_witness :
    (inboundHeader.map Prod.fst).Nodup ∧ (∀ k ∈ inboundHeader.map Prod.fst, id k = k) ∧
    Proxy.copyRequestHeaders id inboundHeader (fun _ => []) "Accept" =
      ["text/html", "application/json"] ∧
    Proxy.copyRequestHeaders id inboundHeader (fun _ => []) "Connection" = [] ∧
    Proxy.copyRequestHeaders id inboundHeader (fun _ => []) "Host" = [] ∧
    Proxy.shouldCopyHeader "CONNECTION" = Proxy.shouldCopyHeader "Connection" :=
  ⟨by decide, fun _ _ => rfl,
    ((C25_hop_by_hop_filtering id inboundHeader (by decide) (fun _ _ => rfl)).2.2
      (fun _ => []) "Accept" ["text/html", "application/json"] (by decide)).trans (by decide),
    by decide, by decide, by decide⟩

/-! ## The health checker -/

theorem updateServiceHealth_output (format : Time → String) (hc : Health.Checker)
    (u : Health.Update) :
    (hc.updateServiceHealth format u.now u.serviceName u.healthy u.errorMsg).2 =
      if Health.flips hc.flags u = true then Health.transitionOutput format u else [] := by
  unfold Health.Checker.updateServiceHealth Health.flips Health.Checker.flags
    Health.transitionOutput
  cases hs : hc.services u.serviceName with
  | none => simp
  | some service =>
    simp only [Option.map_some']
    by_cases hflip : service.Healthy = u.healthy
    · simp [hflip]
    · by_cases he : u.errorMsg = ""
      · simp [hflip, he]
      · simp [hflip, he]

theorem updateServiceHealth_flags (format : Time → String) (hc : Health.Checker)
    (u : Health.Update) :
    (hc.updateServiceHealth format u.now u.serviceName u.healthy u.errorMsg).1.flags =
      Health.flagsAfter hc.flags u := by
  funext n
  unfold Health.Checker.updateServiceHealth Health.flagsAfter Health.Checker.flags
  cases hs : hc.services u.serviceName with
  | none =>
    by_cases hn : n = u.serviceName
    · subst hn; simp [hs]
    · simp [hn]
  | some service =>
    by_cases hn : n = u.serviceName
    · subst hn
      by_cases hflip : service.Healthy = u.healthy
      · simp [hflip, hs]
      · by_cases he : u.errorMsg = ""
        · simp [hflip, he, hs]
        · simp [hflip, he, hs]
    · by_cases hflip : service.Healthy = u.healthy
      · simp [hflip, hn]
      · by_cases he : u.errorMsg = ""
        · simp [hflip, he, hn]
        · simp [hflip, he, hn]

theorem runUpdates_output (format : Time → String) :
    ∀ (us : List Health.Update) (hc : Health.Checker),
      (hc.runUpdates format us).2 =
        (us.zip (Health.transitions hc.flags us)).map
          (fun p => if p.2 = true then Health.transitionOutput format p.1 else []) := by
  intro us
  induction us with
  | nil => intro hc; rfl
  | cons u us ih =>
    intro hc
    simp only [Health.Checker.runUpdates, Health.transitions, List.zip_cons_cons,
      List.map_cons]
    rw [ih, updateServiceHealth_flags, updateServiceHealth_output]

theorem flips_iff (hc : Health.Checker) (u : Health.Update) :
    Health.flips hc.flags u = true ↔
      ∃ service, hc.services u.serviceName = some service ∧ service.Healthy ≠ u.healthy := by
  unfold Health.flips Health.Checker.flags
  cases hs : hc.services u.serviceName with
  | none => simp
  | some service => simp

theorem statusLines_transitionOutput (format : Time → String) (u : Health.Update) :
    (Health.statusLines (Health.transitionOutput format u)).length = 1 := by
  unfold Health.statusLines Health.transitionOutput
  by_cases he : u.errorMsg = ""
  · simp [he]
  · simp [he]

/-- C26 on the code: the service `users` is registered and healthy; an update with a
failed probe and the error text `Request failed: EOF` changes the flag and prints two
lines, the status line and then a line with the error. -/
theorem C26_transition_prints_two_lines :
    usersChecker.IsHealthy "users" = true ∧
    (usersChecker.updateServiceHealth (fun _ => "00:00:10") 10 "users" false
        "Request failed: EOF").1.IsHealthy "users" = false ∧
    (usersChecker.updateServiceHealth (fun _ => "00:00:10") 10 "users" false
        "Request failed: EOF").2 =
      [.nowStatus "users" "❌ UNHEALTHY" "00:00:10", .errorDetail "Request failed: EOF"] ∧
    ((usersChecker.updateServiceHealth (fun _ => "00:00:10") 10 "users" false
        "Request failed: EOF").2.map (Health.Printed.text (fun _ => "30s"))) =
      ["🏥 Service users is now ❌ UNHEALTHY (checked at 00:00:10)\n",
       "   Error: Request failed: EOF\n"] := by
  decide

/-- C26 (amended): for every checker and every sequence of updates, an update prints
nothing when the service is not registered or its flag stays as it is; an update that
changes the flag of a registered service prints exactly one status line, followed by one
line with the error text when that text is not empty.  So the status lines of a run are
one for each update that changes a flag. -/
theorem C26_transition_logging (format : Time → String) (hc : Health.Checker)
    (us : List Health.Update) :
    (hc.runUpdates format us).2 =
      (us.zip (Health.transitions hc.flags us)).map
        (fun p => if p.2 = true then Health.transitionOutput format p.1 else []) ∧
    (hc.runUpdates format us).2.map (fun out => (Health.statusLines out).length) =
      (Health.transitions hc.flags us).map (fun b => if b = true then 1 else 0) ∧
    (∀ (hc1 : Health.Checker) (u : Health.Update),
      (Health.flips hc1.flags u = true ↔
        ∃ service, hc1.services u.serviceName = some service ∧
          service.Healthy ≠ u.healthy) ∧
      (hc1.updateServiceHealth format u.now u.serviceName u.healthy u.errorMsg).2 =
        (if Health.flips hc1.flags u = true then
          Health.Printed.nowStatus u.serviceName
              (if u.healthy = true then "✅ HEALTHY" else "❌ UNHEALTHY") (format u.now) ::
            (if u.errorMsg ≠ "" then [Health.Printed.errorDetail u.errorMsg] else [])
         else []) ∧
      (hc1.updateServiceHealth format u.now u.serviceName u.healthy u.errorMsg).1.flags =
        Health.flagsAfter hc1.flags u) := by
  refine ⟨runUpdates_output format us hc, ?_, ?_⟩
  · rw [runUpdates_output]
    have hlen : ∀ (l : List Health.Update) (flag : String → Option Bool),
        (Health.transitions flag l).length = l.length := by
      intro l
      induction l with
      | nil => intro _; rfl
      | cons u l ih => intro flag; simp [Health.transitions, ih]
    generalize hts : Health.transitions hc.flags us = ts
    have hl : ts.length = us.length := by rw [← hts]; exact hlen us _
    clear hts
    induction us generalizing ts with
    | nil =>
      cases ts with
      | nil => rfl
      | cons _ _ => cases hl
    | cons u us ih =>
      cases ts with
      | nil => cases hl
      | cons t ts =>
        simp only [List.zip_cons_cons, List.map_cons]
        rw [ih ts (by simpa using hl)]
        cases t with
        | true => simp [statusLines_transitionOutput]
        | false => simp [Health.statusLines]
  · intro hc1 u
    refine ⟨flips_iff hc1 u, ?_, updateServiceHealth_flags format hc1 u⟩
    rw [updateServiceHealth_output]
    rfl

/-- The run `probeRun` on the checker with the service `users`: the first probe prints
the status line and the error line, the second (the flag stays) prints nothing, the third
prints the status line alone, and the probe of the unknown service prints nothing. -/
theorem probeRun_output :
    (usersChecker.runUpdates (fun _ => "now") probeRun).2 =
      [[.nowStatus "users" "❌ UNHEALTHY" "now", .errorDetail "Request failed: EOF"],
       [],
       [.nowStatus "users" "✅ HEALTHY" "now"],
       []] := by
  decide

/-! ## The balancer entry of a service -/

/-- C28 on the code: for a service whose balancer is enabled and has no backend,
`NewLoadBalancer` returns nil and `NewHandler` stores that nil under the name of the
service; the lookup in `getTargetURL` then finds an entry and calls `NextBackend` on the
nil interface value, which panics: the call yields neither the base URL nor the error
`no healthy backends available`, and `HandleProxy` writes no response. -/
theorem C28_nil_balancer_is_called :
    (∀ (service : Proxy.ServiceConfig) (r : Nat) (req : Proxy.Request),
      service.LoadBalancer.Enabled = true → service.LoadBalancer.Backends = [] →
      NewLoadBalancer service.LoadBalancer = none ∧
      Proxy.NewHandlerEntry service = .present none ∧
      Proxy.getTargetURL (Proxy.NewHandlerEntry service) r service req = none) ∧
    (Proxy.getTargetURL (Proxy.NewHandlerEntry emptyBalancerService) 0 emptyBalancerService
      usersRequest).isNone = true ∧
    (Proxy.HandleProxy Proxy.wireCodec (Proxy.NewHandlerEntry emptyBalancerService) 0
        emptyBalancerService usersRequest "2025-01-01T00:00:00Z" []
        (fun _ => none) (fun _ => .failed "connection refused")).isNone = true := by
  refine ⟨?_, by decide, by decide⟩
  intro service r req h1 h2
  have hnil : NewLoadBalancer service.LoadBalancer = none := by
    unfold NewLoadBalancer
    rw [if_pos (Or.inr (by rw [h2]; rfl))]
  have hentry : Proxy.NewHandlerEntry service = .present none := by
    unfold Proxy.NewHandlerEntry
    rw [if_pos h1, hnil]
  exact ⟨hnil, hentry, by rw [hentry]; rfl⟩

/-! ## The manager middleware and the breaker mutex -/

theorem setStateLocked_false (cb : CircuitBreaker) (state : State) (now : Time) :
    cb.setStateLocked false state now = some (cb.setState state now) := by
  unfold CircuitBreaker.setStateLocked CircuitBreaker.setState
  by_cases h : cb.state = state
  · rw [if_pos h, if_pos h]
  · rw [if_neg h, if_neg h]; rfl

theorem currentStateLocked_false (cb : CircuitBreaker) (now : Time) :
    cb.currentStateLocked false now = some (cb.currentState now) := by
  obtain ⟨name, maxRequests, interval, timeout, readyToTrip, state, generation, counts,
    expiry⟩ := cb
  cases state <;>
    simp only [CircuitBreaker.currentStateLocked, CircuitBreaker.currentState,
      setStateLocked_false] <;>
    (try split_ifs) <;> rfl

theorem beforeRequestLocked_false (cb : CircuitBreaker) (now : Time) :
    cb.beforeRequestLocked false now = some (cb.beforeRequest now) := by
  unfold CircuitBreaker.beforeRequestLocked CircuitBreaker.beforeRequest
  rw [currentStateLocked_false]
  rcases cb.currentState now with ⟨cb1, state, generation⟩
  simp only
  split_ifs <;> rfl

theorem afterRequestLocked_false (cb : CircuitBreaker) (now : Time) (before : Nat)
    (success : Bool) :
    cb.afterRequestLocked false now before success =
      some (cb.afterRequest now before success) := by
  unfold CircuitBreaker.afterRequestLocked CircuitBreaker.afterRequest
  rw [currentStateLocked_false]
  rcases cb.currentState now with ⟨cb1, state, generation⟩
  simp only [CircuitBreaker.onSuccessLocked, CircuitBreaker.onFailureLocked,
    CircuitBreaker.onSuccess, CircuitBreaker.onFailure, setStateLocked_false]
  split_ifs <;> rfl

theorem StateLocked_false (cb : CircuitBreaker) (now : Time) :
    cb.StateLocked false now = some (cb.State now) := by
  unfold CircuitBreaker.StateLocked CircuitBreaker.State
  rw [currentStateLocked_false]

theorem ExecuteLocked_false {σ : Type} (cb : CircuitBreaker) (t1 t2 : Time)
    (req : σ → ReqOutcome × σ) (w : σ) :
    cb.ExecuteLocked false t1 t2 req w = some (cb.Execute t1 t2 req w) := by
  unfold CircuitBreaker.ExecuteLocked CircuitBreaker.Execute
  rw [beforeRequestLocked_false]
  rcases cb.beforeRequest t1 with ⟨cb1, generation, err⟩
  cases err with
  | some e => rfl
  | none =>
    simp only
    rcases req w with ⟨o, w1⟩
    cases o <;> simp only [afterRequestLocked_false] <;> rfl

theorem MiddlewareLocked_false {σ : Type} (cb : CircuitBreaker) (t1 t2 t3 : Time)
    (next : σ → HandlerResult × σ) (w : σ) :
    MiddlewareLocked false cb t1 t2 t3 next w = some (Middleware cb t1 t2 t3 next w) := by
  unfold MiddlewareLocked Middleware
  rw [ExecuteLocked_false]
  simp only
  rcases cb.Execute t1 t2 (managerRequest next) w with ⟨cb1, w1, res⟩
  cases res with
  | rejected e =>
    simp only [StateLocked_false]
    split_ifs <;> rfl
  | ran o =>
    cases o <;> simp only [StateLocked_false] <;> (try split_ifs) <;> rfl

theorem setStateLocked_true_state (cb cb1 : CircuitBreaker) (state : State) (now : Time)
    (h : cb.setStateLocked true state now = some cb1) : cb1 = cb ∧ cb.state = state := by
  unfold CircuitBreaker.setStateLocked at h
  by_cases hs : cb.state = state
  · rw [if_pos hs] at h
    exact ⟨(Option.some.inj h).symm, hs⟩
  · rw [if_neg hs, if_pos rfl] at h
    cases h

theorem currentStateLocked_true_state (cb cb1 : CircuitBreaker) (now : Time) (s : State)
    (g : Nat) (h : cb.currentStateLocked true now = some (cb1, s, g)) :
    s = cb.state ∧ cb1.state = cb.state ∧ g = cb1.generation := by
  unfold CircuitBreaker.currentStateLocked at h
  cases hs : cb.state with
  | StateClosed =>
    rw [hs] at h
    simp only at h
    split_ifs at h
    · cases h
      exact ⟨by rw [toNewGeneration_state, hs], by rw [toNewGeneration_state, hs], rfl⟩
    · cases h
      exact ⟨rfl, hs, rfl⟩
  | StateOpen =>
    rw [hs] at h
    simp only at h
    split_ifs at h
    · cases hset : cb.setStateLocked true .StateHalfOpen now with
      | none => rw [hset] at h; cases h
      | some cb2 =>
        have := (setStateLocked_true_state cb cb2 _ now hset).2
        rw [hs] at this; cases this
    · cases h
      exact ⟨rfl, hs, rfl⟩
  | StateHalfOpen =>
    rw [hs] at h
    cases h
    exact ⟨rfl, hs, rfl⟩

theorem beforeRequestLocked_true_state (cb cb1 : CircuitBreaker) (now : Time) (g : Nat)
    (err : Option BreakerError) (h : cb.beforeRequestLocked true now = some (cb1, g, err)) :
    cb1.state = cb.state ∧ (err = none → cb.state ≠ .StateOpen) ∧
      (cb.state = .StateOpen → err = some .isOpen) := by
  unfold CircuitBreaker.beforeRequestLocked at h
  cases hc : cb.currentStateLocked true now with
  | none => rw [hc] at h; cases h
  | some r =>
    obtain ⟨cb2, s, g2⟩ := r
    obtain ⟨h1, h2, _⟩ := currentStateLocked_true_state cb cb2 now s g2 hc
    rw [hc] at h
    simp only at h
    by_cases ho : s = .StateOpen
    · rw [if_pos ho] at h
      cases h
      exact ⟨h2, (fun hn => by cases hn), fun _ => rfl⟩
    · rw [if_neg ho] at h
      have hno : cb.state ≠ .StateOpen := by rw [← h1]; exact ho
      split_ifs at h
      · cases h
        exact ⟨h2, (fun hn => by cases hn), fun hopen => absurd hopen hno⟩
      · cases h
        exact ⟨h2, fun _ => hno, fun hopen => absurd hopen hno⟩

theorem afterRequestLocked_true_state (cb cb2 : CircuitBreaker) (now : Time) (before : Nat)
    (success : Bool) (h : cb.afterRequestLocked true now before success = some cb2) :
    cb2.state = cb.state := by
  unfold CircuitBreaker.afterRequestLocked at h
  cases hc : cb.currentStateLocked true now with
  | none => rw [hc] at h; cases h
  | some r =>
    obtain ⟨cb1, s, g⟩ := r
    obtain ⟨_, h2, _⟩ := currentStateLocked_true_state cb cb1 now s g hc
    rw [hc] at h
    simp only at h
    by_cases hg : g ≠ before
    · rw [if_pos hg] at h
      cases h
      exact h2
    · rw [if_neg hg] at h
      by_cases hsucc : success = true
      · rw [if_pos hsucc] at h
        unfold CircuitBreaker.onSuccessLocked at h
        simp only at h
        split_ifs at h
        · have := (setStateLocked_true_state _ cb2 _ now h).1
          rw [this]; exact h2
        · cases h
          exact h2
      · rw [if_neg hsucc] at h
        unfold CircuitBreaker.onFailureLocked at h
        simp only at h
        split_ifs at h
        · have := (setStateLocked_true_state _ cb2 _ now h).1
          rw [this]; exact h2
        · cases h
          exact h2

theorem StateLocked_true_state (cb cb1 : CircuitBreaker) (now : Time) (s : State)
    (h : cb.StateLocked true now = some (cb1, s)) : s = cb.state := by
  unfold CircuitBreaker.StateLocked at h
  cases hc : cb.currentStateLocked true now with
  | none => rw [hc] at h; cases h
  | some r =>
    obtain ⟨cb2, s2, g⟩ := r
    have h1 := (currentStateLocked_true_state cb cb2 now s2 g hc).1
    rw [hc] at h
    cases h
    exact h1

theorem MiddlewareLocked_true_unavailable {σ : Type} (cb cb3 : CircuitBreaker)
    (t1 t2 t3 : Time) (next : σ → HandlerResult × σ) (w w3 : σ) (f q : Nat)
    (h : MiddlewareLocked true cb t1 t2 t3 next w = some (cb3, w3, .serviceUnavailable f q)) :
    (∃ cb1 g, cb.beforeRequestLocked true t1 = some (cb1, g, some .isOpen)) ∧ w3 = w := by
  unfold MiddlewareLocked CircuitBreaker.ExecuteLocked at h
  cases hb : cb.beforeRequestLocked true t1 with
  | none => rw [hb] at h; cases h
  | some r =>
    obtain ⟨cb1, g, err⟩ := r
    obtain ⟨hst, hadm, hopen⟩ := beforeRequestLocked_true_state cb cb1 t1 g err hb
    rw [hb] at h
    cases err with
    | some e =>
      simp only at h
      cases hS : cb1.StateLocked true t3 with
      | none => rw [hS] at h; cases h
      | some st =>
        obtain ⟨cb2, s⟩ := st
        have hs := StateLocked_true_state cb1 cb2 t3 s hS
        rw [hS] at h
        simp only at h
        by_cases ho : s = .StateOpen
        · rw [if_pos ho] at h
          have he := hopen (by rw [← hst, ← hs]; exact ho)
          cases he
          cases h
          exact ⟨⟨cb1, g, rfl⟩, rfl⟩
        · rw [if_neg ho] at h
          cases h
    | none =>
      have hno : cb1.state ≠ .StateOpen := by rw [hst]; exact hadm rfl
      simp only at h
      rcases hreq : managerRequest next w with ⟨o, w1⟩
      rw [hreq] at h
      cases o with
      | ok =>
        simp only at h
        cases ha : cb1.afterRequestLocked true t2 g true with
        | none => rw [ha] at h; cases h
        | some cb2 => rw [ha] at h; cases h
      | failed =>
        simp only at h
        cases ha : cb1.afterRequestLocked true t2 g false with
        | none => rw [ha] at h; cases h
        | some cb2 =>
          have h2 := afterRequestLocked_true_state cb1 cb2 t2 g false ha
          rw [ha] at h
          simp only [Option.map_some'] at h
          cases hS : cb2.StateLocked true t3 with
          | none => rw [hS] at h; cases h
          | some st =>
            obtain ⟨cb4, s⟩ := st
            have hs := StateLocked_true_state cb2 cb4 t3 s hS
            rw [hS] at h
            simp only at h
            have ho : s ≠ .StateOpen := by rw [hs, h2]; exact hno
            rw [if_neg ho] at h
            cases h
      | panicked =>
        simp only at h
        cases ha : cb1.afterRequestLocked true t2 g false with
        | none => rw [ha] at h; cases h
        | some cb2 =>
          have h2 := afterRequestLocked_true_state cb1 cb2 t2 g false ha
          rw [ha] at h
          simp only [Option.map_some'] at h
          cases hS : cb2.StateLocked true t3 with
          | none => rw [hS] at h; cases h
          | some st =>
            obtain ⟨cb4, s⟩ := st
            have hs := StateLocked_true_state cb2 cb4 t3 s hS
            rw [hS] at h
            simp only at h
            have ho : s ≠ .StateOpen := by rw [hs, h2]; exact hno
            rw [if_neg ho] at h
            cases h

/-- C29 on the code: a Closed manager breaker with four failures in a row admits the
request; the wrapped handler runs and returns an error, and that fifth failure trips the
breaker.  `setState` then calls the callback of the manager, which calls `Counts` on the
breaker whose mutex is held: the request never gets an answer.  With a callback that
returns, the answer is the 503, since the state is read after `Execute`.  In neither
case is the answer the error of the handler. -/
theorem C29_tripping_request_gets_no_handler_error :
    (fourFailuresBreaker.beforeRequest Second).2.2 = none ∧
    (managerRequest failingHandler 0) = (.failed, 1) ∧
    ((fourFailuresBreaker.beforeRequest Second).1.afterRequest (2 * Second) 0 false).state
      = .StateOpen ∧
    (MiddlewareLocked true fourFailuresBreaker Second (2 * Second) (3 * Second)
      failingHandler 0).isNone = true ∧
    (MiddlewareLocked false fourFailuresBreaker Second (2 * Second) (3 * Second)
        failingHandler 0).map (fun r => (r.2.1, r.2.2))
      = some (1, .serviceUnavailable 0 0) := by
  decide

theorem Middleware_unavailable_iff {σ : Type} (cb : CircuitBreaker) (t1 t2 t3 : Time)
    (next : σ → HandlerResult × σ) (w : σ) :
    (∃ f q, (Middleware cb t1 t2 t3 next w).2.2 = .serviceUnavailable f q) ↔
      ((cb.Execute t1 t2 (managerRequest next) w).2.2 ≠ .ran .ok ∧
        ((cb.Execute t1 t2 (managerRequest next) w).1.State t3).2 = .StateOpen) := by
  unfold Middleware
  simp only
  rcases cb.Execute t1 t2 (managerRequest next) w with ⟨cb1, w1, res⟩
  cases res with
  | rejected e =>
    simp only
    by_cases ho : (cb1.State t3).2 = .StateOpen
    · rw [if_pos ho]
      exact ⟨fun _ => ⟨by simp, ho⟩, fun _ => ⟨_, _, rfl⟩⟩
    · rw [if_neg ho]
      exact ⟨fun ⟨f, q, h⟩ => (by cases h), fun h => absurd h.2 ho⟩
  | ran o =>
    cases o with
    | ok =>
      simp only
      exact ⟨fun ⟨f, q, h⟩ => (by cases h), fun h => absurd rfl h.1⟩
    | failed =>
      simp only
      by_cases ho : (cb1.State t3).2 = .StateOpen
      · rw [if_pos ho]
        exact ⟨fun _ => ⟨by simp, ho⟩, fun _ => ⟨_, _, rfl⟩⟩
      · rw [if_neg ho]
        exact ⟨fun ⟨f, q, h⟩ => (by cases h), fun h => absurd h.2 ho⟩
    | panicked =>
      simp only
      by_cases ho : (cb1.State t3).2 = .StateOpen
      · rw [if_pos ho]
        exact ⟨fun _ => ⟨by simp, ho⟩, fun _ => ⟨_, _, rfl⟩⟩
      · rw [if_neg ho]
        exact ⟨fun ⟨f, q, h⟩ => (by cases h), fun h => absurd h.2 ho⟩

theorem Middleware_world {σ : Type} (cb : CircuitBreaker) (t1 t2 t3 : Time)
    (next : σ → HandlerResult × σ) (w : σ) :
    (Middleware cb t1 t2 t3 next w).2.1 = (cb.Execute t1 t2 (managerRequest next) w).2.1 := by
  unfold Middleware
  simp only
  rcases cb.Execute t1 t2 (managerRequest next) w with ⟨cb1, w1, res⟩
  cases res with
  | rejected e => simp only; split_ifs <;> rfl
  | ran o => cases o <;> simp only <;> (try split_ifs) <;> rfl

theorem Middleware_rejected {σ : Type} (cb : CircuitBreaker) (t1 t2 t3 : Time)
    (next : σ → HandlerResult × σ) (w : σ) (e : BreakerError)
    (h : (cb.beforeRequest t1).2.2 = some e) :
    Middleware cb t1 t2 t3 next w =
      (((cb.beforeRequest t1).1.State t3).1, w,
        if ((cb.beforeRequest t1).1.State t3).2 = .StateOpen then
          .serviceUnavailable ((cb.beforeRequest t1).1.State t3).1.Counts.TotalFailures
            ((cb.beforeRequest t1).1.State t3).1.Counts.Requests
        else .error) := by
  unfold Middleware
  rw [Execute_rejected cb t1 t2 _ w e h]
  simp only
  split_ifs <;> rfl

theorem beforeRequest_tooManyRequests (cb : CircuitBreaker) (now : Time)
    (h : (cb.beforeRequest now).2.2 = some .tooManyRequests) :
    (cb.beforeRequest now).1.state = .StateHalfOpen := by
  rw [beforeRequest_eq] at h ⊢
  by_cases h1 : (cb.currentState now).1.state = .StateOpen
  · rw [if_pos h1] at h; cases h
  · rw [if_neg h1] at h ⊢
    by_cases h2 : (cb.currentState now).1.state = .StateHalfOpen ∧
        (cb.currentState now).1.counts.Requests ≥ (cb.currentState now).1.maxRequests
    · rw [if_pos h2]; exact h2.1
    · rw [if_neg h2] at h; cases h

theorem managerRequest_snd {σ : Type} (next : σ → HandlerResult × σ) (w : σ) :
    (managerRequest next w).2 = (next w).2 := by
  unfold managerRequest
  simp only
  split_ifs <;> rfl

theorem managerRequest_fst {σ : Type} (next : σ → HandlerResult × σ) (w : σ) :
    (managerRequest next w).1 =
      if (next w).1.failed = true ∨ (next w).1.Status ≥ 500 then .failed else .ok := by
  unfold managerRequest
  simp only
  by_cases h1 : (next w).1.failed = true
  · simp [h1]
  · by_cases h2 : (next w).1.Status ≥ 500
    · simp [h1, h2]
    · simp [h1, h2]

/-- C29 (amended): one request through the breaker middleware of the manager, with a
state-change callback that returns.  The middleware answers 503 exactly when `Execute`
ended in an error and the breaker is Open when its state is read afterwards.  When
`beforeRequest` rejected the request, the wrapped handler was not invoked (the world is
as before and the outcome is the same for every handler), and a 503 means the rejection
was the one of an Open breaker.  When the request was admitted, the handler ran, and the
answer is the 503 exactly when the handler failed (it returned an error or left a status
of 500 or more) and the breaker, after that failure is recorded, is Open when read: a
request whose own failure trips the breaker gets the 503, not the error of the
handler. -/
theorem C29_unavailable_after_rejection_or_failure {σ : Type} (cb : CircuitBreaker)
    (t1 t2 t3 : Time) (next : σ → HandlerResult × σ) (w : σ) :
    ((∃ f q, (Middleware cb t1 t2 t3 next w).2.2 = .serviceUnavailable f q) ↔
      ((cb.Execute t1 t2 (managerRequest next) w).2.2 ≠ .ran .ok ∧
        ((cb.Execute t1 t2 (managerRequest next) w).1.State t3).2 = .StateOpen)) ∧
    (∀ e : BreakerError, (cb.beforeRequest t1).2.2 = some e →
      (cb.Execute t1 t2 (managerRequest next) w).2.2 = .rejected e ∧
      (Middleware cb t1 t2 t3 next w).2.1 = w ∧
      (∀ next1 : σ → HandlerResult × σ,
        Middleware cb t1 t2 t3 next1 w = Middleware cb t1 t2 t3 next w) ∧
      ((∃ f q, (Middleware cb t1 t2 t3 next w).2.2 = .serviceUnavailable f q) →
        e = .isOpen)) ∧
    ((cb.beforeRequest t1).2.2 = none →
      (Middleware cb t1 t2 t3 next w).2.1 = (next w).2 ∧
      ((∃ f q, (Middleware cb t1 t2 t3 next w).2.2 = .serviceUnavailable f q) ↔
        (((next w).1.failed = true ∨ (next w).1.Status ≥ 500) ∧
          (((cb.beforeRequest t1).1.afterRequest t2 (cb.beforeRequest t1).2.1 false).State
            t3).2 = .StateOpen))) := by
  refine ⟨Middleware_unavailable_iff cb t1 t2 t3 next w, ?_, ?_⟩
  · intro e he
    refine ⟨by rw [Execute_rejected cb t1 t2 _ w e he], ?_, ?_, ?_⟩
    · rw [Middleware_rejected cb t1 t2 t3 next w e he]
    · intro next1
      rw [Middleware_rejected cb t1 t2 t3 next w e he,
        Middleware_rejected cb t1 t2 t3 next1 w e he]
    · rintro ⟨f, q, h⟩
      cases e with
      | isOpen => rfl
      | tooManyRequests =>
        exfalso
        have hs := beforeRequest_tooManyRequests cb t1 he
        rw [Middleware_rejected cb t1 t2 t3 next w _ he] at h
        have hS : ((cb.beforeRequest t1).1.State t3).2 = .StateHalfOpen := by
          rw [State_snd, currentState_of_halfOpen _ _ hs, hs]
        simp only [hS] at h
        cases h
  · intro hadm
    have hE := Execute_admitted cb t1 t2 (managerRequest next) w hadm
    refine ⟨by rw [Middleware_world, hE, managerRequest_snd], ?_⟩
    rw [Middleware_unavailable_iff, hE]
    simp only [managerRequest_fst]
    by_cases hf : (next w).1.failed = true ∨ (next w).1.Status ≥ 500
    · simp [hf]
    · simp [hf]

/-- C29 (amended) on a manager breaker made at time 0: four requests whose handler fails
get the error of the handler and leave the breaker Closed with four failures in a row.
The fifth is admitted, its handler runs and fails, and the answer is the 503; the sixth
is rejected, its handler does not run (the world still counts five calls), and the answer
is the 503 again. -/
theorem C29_unavailable_after_rejection_or_failure_witness :
    (MiddlewareAll freshManagerBreaker 0 fourFailedRequests).2 =
      (4, [.error, .error, .error, .error]) ∧
    (MiddlewareAll freshManagerBreaker 0 fourFailedRequests).1 = fourFailuresBreaker ∧
    (fourFailuresBreaker.beforeRequest (5 * Second)).2.2 = none ∧
    (Middleware fourFailuresBreaker (5 * Second) (5 * Second) (5 * Second)
      failingHandler 4).2 = (5, .serviceUnavailable 0 0) ∧
    ((Middleware fourFailuresBreaker (5 * Second) (5 * Second) (5 * Second)
      failingHandler 4).1.beforeRequest (6 * Second)).2.2 = some .isOpen ∧
    (Middleware
      (Middleware fourFailuresBreaker (5 * Second) (5 * Second) (5 * Second)
        failingHandler 4).1 (6 * Second) (6 * Second) (6 * Second) failingHandler 5).2 =
      (5, .serviceUnavailable 0 0) ∧
    ((∃ f q, (Middleware fourFailuresBreaker (5 * Second) (5 * Second) (5 * Second)
        failingHandler 4).2.2 = .serviceUnavailable f q) ↔
      (((failingHandler 4).1.failed = true ∨ (failingHandler 4).1.Status ≥ 500) ∧
        (((fourFailuresBreaker.beforeRequest (5 * Second)).1.afterRequest (5 * Second)
          (fourFailuresBreaker.beforeRequest (5 * Second)).2.1 false).State
            (5 * Second)).2 = .StateOpen)) :=
  ⟨by decide, rfl, by decide, by decide, by decide, by decide,
    ((C29_unavailable_after_rejection_or_failure fourFailuresBreaker (5 * Second)
      (5 * Second) (5 * Second) failingHandler 4).2.2 (by decide)).2⟩

/-! ## The counters of the breaker over sequences of calls -/

theorem currentState_cases (cb : CircuitBreaker) (now : Time) :
    (cb.currentState now).1 = cb ∨
      ((cb.currentState now).1.generation = u64 (cb.generation + 1) ∧
        (cb.currentState now).1.counts = zeroCounts) := by
  rw [currentState_eq_strict, currentStateStrict]
  split_ifs
  all_goals first | exact Or.inl rfl | exact Or.inr ⟨rfl, rfl⟩

theorem setState_cases (cb : CircuitBreaker) (s : State) (now : Time) :
    cb.setState s now = cb ∨
      ((cb.setState s now).generation = u64 (cb.generation + 1) ∧
        (cb.setState s now).counts = zeroCounts) := by
  unfold CircuitBreaker.setState
  split_ifs
  · exact Or.inl rfl
  · exact Or.inr ⟨toNewGeneration_generation _ _, toNewGeneration_counts _ _⟩

theorem onSuccess_cases (cb : CircuitBreaker) (s : State) (now : Time) :
    cb.onSuccess s now = { cb with counts := cb.counts.OnSuccess } ∨
      ((cb.onSuccess s now).generation = u64 (cb.generation + 1) ∧
        (cb.onSuccess s now).counts = zeroCounts) := by
  unfold CircuitBreaker.onSuccess
  simp only
  split_ifs
  · exact setState_cases _ _ _
  · exact Or.inl rfl

theorem onFailure_cases (cb : CircuitBreaker) (s : State) (now : Time) :
    cb.onFailure s now = { cb with counts := cb.counts.OnFailure } ∨
      ((cb.onFailure s now).generation = u64 (cb.generation + 1) ∧
        (cb.onFailure s now).counts = zeroCounts) := by
  unfold CircuitBreaker.onFailure
  simp only
  split_ifs
  · exact setState_cases _ _ _
  · exact Or.inl rfl

theorem Consistent_zero : zeroCounts.Consistent := by
  unfold Counts.Consistent zeroCounts
  simp

theorem Consistent_OnRequest (c : Counts) (h : c.Consistent) : c.OnRequest.Consistent := h

theorem Consistent_OnSuccess (c : Counts) (h : c.Consistent)
    (h1 : c.TotalSuccesses ≠ 4294967295) : c.OnSuccess.Consistent := by
  obtain ⟨r, ts, tf, cs, cf⟩ := c
  simp only [Counts.Consistent, Counts.OnSuccess, u32] at h h1 ⊢
  obtain ⟨h2, h3, _, h5, h6⟩ := h
  refine ⟨?_, ?_, Or.inr trivial, ?_, ?_⟩ <;> omega

theorem Consistent_OnFailure (c : Counts) (h : c.Consistent)
    (h1 : c.TotalFailures ≠ 4294967295) : c.OnFailure.Consistent := by
  obtain ⟨r, ts, tf, cs, cf⟩ := c
  simp only [Counts.Consistent, Counts.OnFailure, u32] at h h1 ⊢
  obtain ⟨h2, h3, _, h5, h6⟩ := h
  refine ⟨?_, ?_, Or.inl trivial, ?_, ?_⟩ <;> omega

theorem call_consistent (cb : CircuitBreaker) (c : BreakerCall) (h : cb.counts.Consistent)
    (hw : cb.wraps c = false) : (cb.call c).counts.Consistent := by
  have h1 : ∀ now, (cb.currentState now).1.counts.Consistent := by
    intro now
    rcases currentState_cases cb now with hc | hc
    · rw [hc]; exact h
    · rw [hc.2]; exact Consistent_zero
  cases c with
  | before now =>
    simp only [CircuitBreaker.call]
    rw [beforeRequest_eq]
    split_ifs
    · exact h1 now
    · exact h1 now
    · exact Consistent_OnRequest _ (h1 now)
  | state now => exact h1 now
  | after now before success =>
    simp only [CircuitBreaker.call]
    rw [afterRequest_eq]
    simp only [CircuitBreaker.wraps] at hw
    by_cases hg : (cb.currentState now).1.generation ≠ before
    · rw [if_pos hg]; exact h1 now
    · rw [if_neg hg]
      have hg1 : (cb.currentState now).1.generation = before := not_not.1 hg
      simp only [hg1, decide_True, Bool.true_and] at hw
      by_cases hs : success = true
      · rw [if_pos hs]
        rw [if_pos hs] at hw
        have hne : (cb.currentState now).1.counts.TotalSuccesses ≠ 4294967295 := by
          intro heq; simp [heq] at hw
        rcases onSuccess_cases (cb.currentState now).1 (cb.currentState now).1.state now
          with hc | hc
        · rw [hc]; exact Consistent_OnSuccess _ (h1 now) hne
        · rw [hc.2]; exact Consistent_zero
      · rw [if_neg hs]
        rw [if_neg hs] at hw
        have hne : (cb.currentState now).1.counts.TotalFailures ≠ 4294967295 := by
          intro heq; simp [heq] at hw
        rcases onFailure_cases (cb.currentState now).1 (cb.currentState now).1.state now
          with hc | hc
        · rw [hc]; exact Consistent_OnFailure _ (h1 now) hne
        · rw [hc.2]; exact Consistent_zero

theorem runCalls_consistent (calls : List BreakerCall) :
    ∀ cb : CircuitBreaker, cb.counts.Consistent → noOverflow cb calls = true →
      (cb.runCalls calls).counts.Consistent := by
  induction calls with
  | nil => intro cb h _; exact h
  | cons c rest ih =>
    intro cb h hno
    simp only [noOverflow, Bool.and_eq_true, Bool.not_eq_true'] at hno
    exact ih (cb.call c) (call_consistent cb c h hno.1) hno.2

theorem u64_lt (n : Nat) : u64 n < 18446744073709551616 := by
  unfold u64
  omega

theorem Tracked_of_zero (x : CircuitBreaker) (out : List Nat) (G : Nat)
    (hc : x.counts = zeroCounts) (hlt : x.generation < 18446744073709551616)
    (hG : G < x.generation) (hout : ∀ g ∈ out, g ≤ G) : Tracked x out := by
  have hnot : x.generation ∉ out := fun hm => by
    have := hout _ hm
    omega
  refine ⟨?_, ?_, hlt, ?_⟩
  · rw [hc, List.count_eq_zero_of_not_mem hnot]
    simp [zeroCounts]
  · intro g hg
    have := hout g hg
    omega
  · rw [hc]; simp [zeroCounts]

theorem Tracked_erase (cb : CircuitBreaker) (out : List Nat) (tok : Nat)
    (h : Tracked cb out) : Tracked cb (out.erase tok) := by
  obtain ⟨h1, h2, h3, h4⟩ := h
  refine ⟨?_, fun g hg => h2 g (List.mem_of_mem_erase hg), h3, h4⟩
  have : (out.erase tok).count cb.generation ≤ out.count cb.generation := by
    rw [List.count_erase]
    split_ifs <;> omega
  omega

theorem currentState_tracked (cb : CircuitBreaker) (out : List Nat) (now : Time)
    (h : Tracked cb out) (hg : cb.generation ≤ (cb.currentState now).1.generation) :
    Tracked (cb.currentState now).1 out := by
  rcases currentState_cases cb now with hc | hc
  · rw [hc]; exact h
  · refine Tracked_of_zero _ out cb.generation hc.2 (by rw [hc.1]; exact u64_lt _) ?_ h.2.1
    have hne := u64_succ_ne cb.generation
    rw [hc.1] at hg ⊢
    omega

theorem before_tracked (cb : CircuitBreaker) (out : List Nat) (now : Time)
    (h : Tracked cb out) (hw : cb.wraps (.before now) = false)
    (hg : cb.generation ≤ (cb.call (.before now)).generation) :
    Tracked (cb.call (.before now)) (cb.pending out (.before now)) := by
  simp only [CircuitBreaker.call, CircuitBreaker.pending, CircuitBreaker.wraps] at hg hw ⊢
  rw [beforeRequest_eq] at hg hw ⊢
  by_cases h1 : (cb.currentState now).1.state = .StateOpen
  · simp only [if_pos h1] at hg hw ⊢
    exact currentState_tracked cb out now h hg
  · simp only [if_neg h1] at hg hw ⊢
    by_cases h2 : (cb.currentState now).1.state = .StateHalfOpen ∧
        (cb.currentState now).1.counts.Requests ≥ (cb.currentState now).1.maxRequests
    · simp only [if_pos h2] at hg hw ⊢
      exact currentState_tracked cb out now h hg
    · simp only [if_neg h2] at hg hw ⊢
      simp only [Option.isNone_none, Bool.true_and, decide_eq_false_iff_not, if_true] at hw ⊢
      obtain ⟨t1, t2, t3, t4⟩ := currentState_tracked cb out now h hg
      refine ⟨?_, ?_, t3, ?_⟩
      · simp only [Counts.OnRequest, u32, List.count_cons_self]
        omega
      · intro g hgm
        rcases List.mem_cons.1 hgm with heq | hmem
        · exact le_of_eq heq
        · exact t2 g hmem
      · simp only [Counts.OnRequest, u32]
        omega

theorem after_tracked (cb : CircuitBreaker) (out : List Nat) (now : Time) (tok : Nat)
    (success : Bool) (h : Tracked cb out) (hw : cb.wraps (.after now tok success) = false)
    (hin : tok ∈ out)
    (hg : cb.generation ≤ (cb.call (.after now tok success)).generation) :
    Tracked (cb.call (.after now tok success)) (cb.pending out (.after now tok success)) := by
  simp only [CircuitBreaker.call, CircuitBreaker.pending, CircuitBreaker.wraps] at hg hw ⊢
  rw [afterRequest_eq] at hg ⊢
  by_cases hne : (cb.currentState now).1.generation ≠ tok
  · rw [if_pos hne] at hg ⊢
    exact Tracked_erase _ _ _ (currentState_tracked cb out now h hg)
  · rw [if_neg hne] at hg ⊢
    have heq : (cb.currentState now).1.generation = tok := not_not.1 hne
    simp only [heq, decide_True, Bool.true_and] at hw
    have htokle : tok ≤ cb.generation := h.2.1 tok hin
    have hG : cb.generation < 18446744073709551616 := h.2.2.1
    -- the step applied to the refreshed breaker
    have hstep : ∀ (res : CircuitBreaker) (counts1 : Counts),
        (res = { (cb.currentState now).1 with counts := counts1 } ∨
          (res.generation = u64 ((cb.currentState now).1.generation + 1) ∧
            res.counts = zeroCounts)) →
        cb.generation ≤ res.generation →
        ((cb.currentState now).1 = cb →
          counts1.TotalSuccesses + counts1.TotalFailures + out.count cb.generation
            ≤ counts1.Requests + 1 ∧ counts1.Requests = cb.counts.Requests) →
        Tracked res (out.erase tok) := by
      intro res counts1 hres hge hcount
      rcases currentState_cases cb now with hc | hc
      · -- no refresh: the token is of the current generation
        rw [hc] at heq hres
        rcases hres with hr | hr
        · obtain ⟨hc1, hc2⟩ := hcount hc
          have hpos : 0 < out.count cb.generation := by
            rw [List.count_pos_iff]; rw [heq]; exact hin
          rw [hr]
          refine ⟨?_, fun g hgm => h.2.1 g (List.mem_of_mem_erase hgm), hG, ?_⟩
          · show counts1.TotalSuccesses + counts1.TotalFailures +
              (out.erase tok).count cb.generation ≤ counts1.Requests
            rw [← heq, List.count_erase_self]
            omega
          · show counts1.Requests ≤ 4294967295
            rw [hc2]; exact h.2.2.2
        · have hne2 := u64_succ_ne cb.generation
          refine Tracked_of_zero res _ cb.generation hr.2 (by rw [hr.1]; exact u64_lt _) ?_
            (fun g hgm => h.2.1 g (List.mem_of_mem_erase hgm))
          rw [hr.1] at hge ⊢
          omega
      · -- the refresh started a generation that equals the token: the generation wrapped
        exfalso
        have h1 : (cb.currentState now).1.generation = u64 (cb.generation + 1) := hc.1
        rcases hres with hr | hr
        · have : res.generation = (cb.currentState now).1.generation := by rw [hr]
          unfold u64 at h1
          omega
        · have h2 := hr.1
          unfold u64 at h1 h2
          omega
    by_cases hs : success = true
    · rw [if_pos hs] at hg hw ⊢
      refine hstep _ (cb.currentState now).1.counts.OnSuccess
        (onSuccess_cases _ _ _) hg ?_
      intro hc
      rw [hc] at hw ⊢
      have hts : cb.counts.TotalSuccesses ≠ 4294967295 := by
        intro he; simp [he] at hw
      obtain ⟨t1, _, _, t4⟩ := h
      simp only [Counts.OnSuccess, u32]
      refine ⟨?_, trivial⟩
      omega
    · rw [if_neg hs] at hg hw ⊢
      refine hstep _ (cb.currentState now).1.counts.OnFailure
        (onFailure_cases _ _ _) hg ?_
      intro hc
      rw [hc] at hw ⊢
      have hts : cb.counts.TotalFailures ≠ 4294967295 := by
        intro he; simp [he] at hw
      obtain ⟨t1, _, _, t4⟩ := h
      simp only [Counts.OnFailure, u32]
      refine ⟨?_, trivial⟩
      omega

theorem state_tracked (cb : CircuitBreaker) (out : List Nat) (now : Time)
    (h : Tracked cb out) (hg : cb.generation ≤ (cb.call (.state now)).generation) :
    Tracked (cb.call (.state now)) (cb.pending out (.state now)) :=
  currentState_tracked cb out now h hg

theorem runCalls_tracked (calls : List BreakerCall) :
    ∀ (cb : CircuitBreaker) (out : List Nat), Tracked cb out →
      noOverflow cb calls = true → oncePerAdmission cb out calls = true →
      noGenerationWrap cb calls = true →
      (cb.runCalls calls).counts.TotalSuccesses + (cb.runCalls calls).counts.TotalFailures
        ≤ (cb.runCalls calls).counts.Requests := by
  induction calls with
  | nil =>
    intro cb out h _ _ _
    have := h.1
    show cb.counts.TotalSuccesses + cb.counts.TotalFailures ≤ cb.counts.Requests
    omega
  | cons c rest ih =>
    intro cb out h hno honce hgen
    simp only [noOverflow, Bool.and_eq_true, Bool.not_eq_true'] at hno
    simp only [oncePerAdmission, Bool.and_eq_true] at honce
    simp only [noGenerationWrap, Bool.and_eq_true, decide_eq_true_eq] at hgen
    have hstep : Tracked (cb.call c) (cb.pending out c) := by
      cases c with
      | before now => exact before_tracked cb out now h hno.1 hgen.1
      | state now => exact state_tracked cb out now h hgen.1
      | after now tok success =>
        have hin : tok ∈ out := by simpa using honce.1
        exact after_tracked cb out now tok success h hno.1 hin hgen.1
    exact ih (cb.call c) (cb.pending out c) hstep hno.2 honce.2 hgen.2

theorem NewCircuitBreaker_tracked (settings : CircuitBreakerSettings) (t0 : Time) :
    Tracked (NewCircuitBreaker settings t0) [] := by
  refine ⟨?_, ?_, ?_, ?_⟩ <;> simp [NewCircuitBreaker]

theorem NewCircuitBreaker_consistent (settings : CircuitBreakerSettings) (t0 : Time) :
    (NewCircuitBreaker settings t0).counts.Consistent := by
  simp [NewCircuitBreaker, Counts.Consistent]

theorem tick_step (n : Nat) :
    (tickState n).call (.before (2 * ((n : Int) + 1))) = tickState (n + 1) ∧
    (tickState n).wraps (.before (2 * ((n : Int) + 1))) = false ∧
    ∀ out, (tickState n).pending out (.before (2 * ((n : Int) + 1))) =
      ((n + 1) % 18446744073709551616) :: out := by
  have hexp : (2 * (n : Int) + 1 = 0) = False := by
    apply eq_false; omega
  have hlt : (2 * (n : Int) + 1 < 2 * ((n : Int) + 1)) = True := by
    apply eq_true; omega
  have hgen : u64 (n % 18446744073709551616 + 1) = (n + 1) % 18446744073709551616 := by
    unfold u64; omega
  have hexp2 : Add (2 * ((n : Int) + 1)) 1 = 2 * ((n + 1 : Nat) : Int) + 1 := by
    unfold Add; push_cast; ring
  have hone : ((1 : Duration) = 0) = False := eq_false (by decide)
  refine ⟨?_, ?_, ?_⟩
  · simp only [CircuitBreaker.call, CircuitBreaker.beforeRequest, CircuitBreaker.currentState,
      tickState, IsZero, Before, zeroTime, hexp, hlt, decide_False, decide_True, Bool.not_false,
      Bool.and_self, if_true, CircuitBreaker.toNewGeneration, Counts.Clear, hgen, hone,
      if_false, hexp2, zeroCounts, Counts.OnRequest, u32]
    simp
  · simp only [CircuitBreaker.wraps, CircuitBreaker.beforeRequest, CircuitBreaker.currentState,
      tickState, IsZero, Before, zeroTime, hexp, hlt, decide_False, decide_True, Bool.not_false,
      Bool.and_self, if_true, CircuitBreaker.toNewGeneration, Counts.Clear, hgen, hone,
      if_false, hexp2, zeroCounts, Counts.OnRequest, u32]
    simp
  · intro out
    simp only [CircuitBreaker.pending, CircuitBreaker.beforeRequest, CircuitBreaker.currentState,
      tickState, IsZero, Before, zeroTime, hexp, hlt, decide_False, decide_True, Bool.not_false,
      Bool.and_self, if_true, CircuitBreaker.toNewGeneration, Counts.Clear, hgen, hone,
      if_false, hexp2, zeroCounts, Counts.OnRequest, u32]
    simp

theorem runCalls_ticks (n : Nat) : ∀ (m : Nat) (rest : List BreakerCall),
    (tickState m).runCalls (ticks m n ++ rest) = (tickState (m + n)).runCalls rest := by
  induction n with
  | zero => intro m rest; rfl
  | succ n ih =>
    intro m rest
    show ((tickState m).call (.before (2 * ((m : Int) + 1)))).runCalls (ticks (m + 1) n ++ rest)
      = _
    rw [(tick_step m).1, ih, Nat.add_right_comm, Nat.add_assoc]

theorem noOverflow_ticks (n : Nat) : ∀ (m : Nat) (rest : List BreakerCall),
    noOverflow (tickState m) (ticks m n ++ rest) = noOverflow (tickState (m + n)) rest := by
  induction n with
  | zero => intro m rest; rfl
  | succ n ih =>
    intro m rest
    have h : noOverflow (tickState m) (ticks m (n + 1) ++ rest) =
        (!((tickState m).wraps (.before (2 * ((m : Int) + 1)))) &&
          noOverflow ((tickState m).call (.before (2 * ((m : Int) + 1))))
            (ticks (m + 1) n ++ rest)) := rfl
    rw [h, (tick_step m).1, (tick_step m).2.1, ih, Nat.add_right_comm, Nat.add_assoc]
    rfl

theorem oncePerAdmission_ticks (n : Nat) :
    ∀ (m : Nat) (out : List Nat) (rest : List BreakerCall),
      ∃ l : List Nat,
        oncePerAdmission (tickState m) out (ticks m (n + 1) ++ rest) =
          oncePerAdmission (tickState (m + n + 1))
            (((m + n + 1) % 18446744073709551616) :: l) rest ∧
        ∀ x ∈ out, x ∈ l := by
  induction n with
  | zero =>
    intro m out rest
    refine ⟨out, ?_, fun x hx => hx⟩
    have h : oncePerAdmission (tickState m) out (ticks m 1 ++ rest) =
        (true && oncePerAdmission ((tickState m).call (.before (2 * ((m : Int) + 1))))
          ((tickState m).pending out (.before (2 * ((m : Int) + 1)))) rest) := rfl
    rw [h, (tick_step m).1, (tick_step m).2.2]
    rfl
  | succ n ih =>
    intro m out rest
    have h : oncePerAdmission (tickState m) out (ticks m (n + 1 + 1) ++ rest) =
        (true && oncePerAdmission ((tickState m).call (.before (2 * ((m : Int) + 1))))
          ((tickState m).pending out (.before (2 * ((m : Int) + 1))))
          (ticks (m + 1) (n + 1) ++ rest)) := rfl
    obtain ⟨l, hl, hsub⟩ := ih (m + 1) (((m + 1) % 18446744073709551616) :: out) rest
    refine ⟨l, ?_, fun x hx => hsub x (List.mem_cons_of_mem _ hx)⟩
    rw [h, (tick_step m).1, (tick_step m).2.2, Bool.true_and, hl]
    have : m + 1 + n + 1 = m + (n + 1) + 1 := by omega
    rw [this]

theorem chain_ticks (n : Nat) : ∀ (m : Nat) (a last : Time), a ≤ 2 * ((m : Int) + 1) →
    2 * ((m : Int) + n) ≤ last → a ≤ last →
    List.Chain (fun x y : Time => x ≤ y) a
      ((ticks m n ++ [BreakerCall.after last 0 true, BreakerCall.after last 0 true]).map
        BreakerCall.now) := by
  induction n with
  | zero =>
    intro m a last _ _ h3
    exact List.Chain.cons h3 (List.Chain.cons (le_refl _) List.Chain.nil)
  | succ n ih =>
    intro m a last h1 h2 _
    simp only [Time] at *
    show List.Chain _ a (2 * ((m : Int) + 1) ::
      (ticks (m + 1) n ++ [BreakerCall.after last 0 true, BreakerCall.after last 0 true]).map
        BreakerCall.now)
    refine List.Chain.cons h1 (ih (m + 1) _ last ?_ ?_ ?_)
    · push_cast; omega
    · push_cast at h2 ⊢; omega
    · push_cast at h2 ⊢; omega

theorem before_zero_tick :
    (NewCircuitBreaker tickSettings 0).call (.before 0) = tickState 0 ∧
    (NewCircuitBreaker tickSettings 0).wraps (.before 0) = false ∧
    (NewCircuitBreaker tickSettings 0).pending [] (.before 0) = [0] := by
  refine ⟨rfl, by decide, by decide⟩

theorem runCalls_tickRun (n : Nat) :
    (NewCircuitBreaker tickSettings 0).runCalls (tickRun n) =
      ((tickState n).call (.after (2 * (n : Int)) 0 true)).call
        (.after (2 * (n : Int)) 0 true) := by
  show ((NewCircuitBreaker tickSettings 0).call (.before 0)).runCalls
    (ticks 0 n ++ [BreakerCall.after (2 * (n : Int)) 0 true,
      BreakerCall.after (2 * (n : Int)) 0 true]) = _
  rw [before_zero_tick.1, runCalls_ticks, Nat.zero_add]
  rfl

theorem tickState_after (n : Nat) (hn : n % 18446744073709551616 = 0) :
    (tickState n).call (.after (2 * (n : Int)) 0 true) =
      { tickState n with counts :=
          { Requests := 1, TotalSuccesses := 1, TotalFailures := 0,
            ConsecutiveSuccesses := 1, ConsecutiveFailures := 0 } } ∧
    (tickState n).wraps (.after (2 * (n : Int)) 0 true) = false ∧
    (({ tickState n with counts :=
          { Requests := 1, TotalSuccesses := 1, TotalFailures := 0,
            ConsecutiveSuccesses := 1, ConsecutiveFailures := 0 } } : CircuitBreaker).call
        (.after (2 * (n : Int)) 0 true)).counts =
      { Requests := 1, TotalSuccesses := 2, TotalFailures := 0, ConsecutiveSuccesses := 2,
        ConsecutiveFailures := 0 } ∧
    ({ tickState n with counts :=
          { Requests := 1, TotalSuccesses := 1, TotalFailures := 0,
            ConsecutiveSuccesses := 1, ConsecutiveFailures := 0 } } : CircuitBreaker).wraps
        (.after (2 * (n : Int)) 0 true) = false := by
  have hexp : (2 * (n : Int) + 1 = 0) = False := by
    apply eq_false; omega
  have hlt : (2 * (n : Int) + 1 < 2 * (n : Int)) = False := by
    apply eq_false; omega
  refine ⟨?_, ?_, ?_, ?_⟩
  · simp only [CircuitBreaker.call, CircuitBreaker.afterRequest, CircuitBreaker.currentState,
      tickState, IsZero, Before, zeroTime, hexp, hlt, decide_False, Bool.not_false,
      Bool.and_false, Bool.false_eq_true, if_false, hn, ne_eq, not_true_eq_false,
      if_true, CircuitBreaker.onSuccess, Counts.OnSuccess, zeroCounts, u32]
    simp
  · simp only [CircuitBreaker.wraps, CircuitBreaker.currentState,
      tickState, IsZero, Before, zeroTime, hexp, hlt, decide_False, Bool.not_false,
      Bool.and_false, Bool.false_eq_true, if_false, hn, zeroCounts]
    simp
  · simp only [CircuitBreaker.call, CircuitBreaker.afterRequest, CircuitBreaker.currentState,
      tickState, IsZero, Before, zeroTime, hexp, hlt, decide_False, Bool.not_false,
      Bool.and_false, Bool.false_eq_true, if_false, hn, ne_eq, not_true_eq_false,
      if_true, CircuitBreaker.onSuccess, Counts.OnSuccess, zeroCounts, u32]
    simp
  · simp only [CircuitBreaker.wraps, CircuitBreaker.currentState,
      tickState, IsZero, Before, zeroTime, hexp, hlt, decide_False, Bool.not_false,
      Bool.and_false, Bool.false_eq_true, if_false, hn, zeroCounts]
    simp

theorem tickRun_conditions (k : Nat) (hn : (k + 1) % 18446744073709551616 = 0) :
    List.Chain' (fun x y : Time => x ≤ y) ((tickRun (k + 1)).map BreakerCall.now) ∧
    noOverflow (NewCircuitBreaker tickSettings 0) (tickRun (k + 1)) = true ∧
    oncePerAdmission (NewCircuitBreaker tickSettings 0) [] (tickRun (k + 1)) = true := by
  refine ⟨?_, ?_, ?_⟩
  · exact chain_ticks (k + 1) 0 0 (2 * ((k + 1 : Nat) : Int)) (by decide)
      (by push_cast; omega) (by simp only [Time]; omega)
  · have h : noOverflow (NewCircuitBreaker tickSettings 0) (tickRun (k + 1)) =
        (!((NewCircuitBreaker tickSettings 0).wraps (.before 0)) &&
          noOverflow ((NewCircuitBreaker tickSettings 0).call (.before 0))
            (ticks 0 (k + 1) ++ [BreakerCall.after (2 * ((k + 1 : Nat) : Int)) 0 true,
              BreakerCall.after (2 * ((k + 1 : Nat) : Int)) 0 true])) := rfl
    rw [h, before_zero_tick.1, before_zero_tick.2.1, noOverflow_ticks, Nat.zero_add]
    obtain ⟨h1, h2, _, h4⟩ := tickState_after (k + 1) hn
    simp only [noOverflow, h1, h2, h4]
    rfl
  · have h : oncePerAdmission (NewCircuitBreaker tickSettings 0) [] (tickRun (k + 1)) =
        (true && oncePerAdmission ((NewCircuitBreaker tickSettings 0).call (.before 0))
          ((NewCircuitBreaker tickSettings 0).pending [] (.before 0))
          (ticks 0 (k + 1) ++ [BreakerCall.after (2 * ((k + 1 : Nat) : Int)) 0 true,
            BreakerCall.after (2 * ((k + 1 : Nat) : Int)) 0 true])) := rfl
    rw [h, before_zero_tick.1, before_zero_tick.2.2, Bool.true_and]
    obtain ⟨l, hl, hsub⟩ := oncePerAdmission_ticks k 0 [0]
      [BreakerCall.after (2 * ((k + 1 : Nat) : Int)) 0 true,
        BreakerCall.after (2 * ((k + 1 : Nat) : Int)) 0 true]
    have hmem : 0 ∈ l := hsub 0 (List.mem_singleton.2 rfl)
    rw [hl, Nat.zero_add, hn]
    simp only [oncePerAdmission, CircuitBreaker.pending, List.erase_cons_head]
    simp [hmem]

/-- C30 on the code: the breaker of `tickSettings` admits a request at time 0, in
generation 0, and then `2^64` more at the times 2, 4, ..., each in a new generation; the
`uint64` generation is 0 again at the last of them.  Two completions that pass the
generation 0, the one of the first admission and the one of the last, are then both
counted in the generation that has admitted one request.  The times do not decrease, no
`uint32` counter wraps, each `afterRequest` uses the generation of an admitted
`beforeRequest` of its own; at the end `total_successes` is 2 and `requests` is 1. -/
theorem C30_generation_wrap_breaks_request_bound :
    List.Chain' (fun x y : Time => x ≤ y) (wrapRun.map BreakerCall.now) ∧
    noOverflow (NewCircuitBreaker tickSettings 0) wrapRun = true ∧
    oncePerAdmission (NewCircuitBreaker tickSettings 0) [] wrapRun = true ∧
    ((NewCircuitBreaker tickSettings 0).runCalls wrapRun).counts =
      { Requests := 1, TotalSuccesses := 2, TotalFailures := 0, ConsecutiveSuccesses := 2,
        ConsecutiveFailures := 0 } := by
  have hn : (18446744073709551615 + 1) % 18446744073709551616 = 0 := by norm_num
  obtain ⟨h1, h2, h3⟩ := tickRun_conditions 18446744073709551615 hn
  refine ⟨h1, h2, h3, ?_⟩
  have h4 := runCalls_tickRun (18446744073709551615 + 1)
  obtain ⟨h5, _, h6, _⟩ := tickState_after (18446744073709551615 + 1) hn
  rw [h5] at h4
  exact (congrArg CircuitBreaker.counts h4).trans h6

/-- C30 (amended): in every state reached from `NewCircuitBreaker` by a sequence of
`beforeRequest`, `afterRequest` and `State` calls, at any times, in which no `uint32`
counter wraps: `consecutive_successes ≤ total_successes`,
`consecutive_failures ≤ total_failures`, and one of the two consecutive counters is 0;
and when, moreover, every `afterRequest` is passed the generation of an earlier admitted
`beforeRequest`, each at most once, and the `uint64` generation does not wrap, then
`total_successes + total_failures ≤ requests`. -/
theorem C30_counter_consistency (settings : CircuitBreakerSettings) (t0 : Time)
    (calls : List BreakerCall)
    (hno : noOverflow (NewCircuitBreaker settings t0) calls = true) :
    ((NewCircuitBreaker settings t0).runCalls calls).counts.ConsecutiveSuccesses ≤
      ((NewCircuitBreaker settings t0).runCalls calls).counts.TotalSuccesses ∧
    ((NewCircuitBreaker settings t0).runCalls calls).counts.ConsecutiveFailures ≤
      ((NewCircuitBreaker settings t0).runCalls calls).counts.TotalFailures ∧
    (((NewCircuitBreaker settings t0).runCalls calls).counts.ConsecutiveSuccesses = 0 ∨
      ((NewCircuitBreaker settings t0).runCalls calls).counts.ConsecutiveFailures = 0) ∧
    (oncePerAdmission (NewCircuitBreaker settings t0) [] calls = true →
      noGenerationWrap (NewCircuitBreaker settings t0) calls = true →
      ((NewCircuitBreaker settings t0).runCalls calls).counts.TotalSuccesses +
          ((NewCircuitBreaker settings t0).runCalls calls).counts.TotalFailures ≤
        ((NewCircuitBreaker settings t0).runCalls calls).counts.Requests) := by
  have hA := runCalls_consistent calls (NewCircuitBreaker settings t0)
    (NewCircuitBreaker_consistent settings t0) hno
  exact ⟨hA.1, hA.2.1, hA.2.2.1, fun honce hgen =>
    runCalls_tracked calls (NewCircuitBreaker settings t0) []
      (NewCircuitBreaker_tracked settings t0) hno honce hgen⟩

/-- C30 (amended) on the scenario breaker tripped by five failures and probed once in
HalfOpen: the run meets the three conditions, and at its end one success and no failure
are counted against one admitted request. -/
theorem C30_counter_consistency_witness :
    noOverflow (NewCircuitBreaker scenarioSettings 0) halfOpenCalls = true ∧
    oncePerAdmission (NewCircuitBreaker scenarioSettings 0) [] halfOpenCalls = true ∧
    noGenerationWrap (NewCircuitBreaker scenarioSettings 0) halfOpenCalls = true ∧
    ((NewCircuitBreaker scenarioSettings 0).runCalls halfOpenCalls).counts.TotalSuccesses +
        ((NewCircuitBreaker scenarioSettings 0).runCalls halfOpenCalls).counts.TotalFailures ≤
      ((NewCircuitBreaker scenarioSettings 0).runCalls halfOpenCalls).counts.Requests ∧
    ((NewCircuitBreaker scenarioSettings 0).runCalls halfOpenCalls).counts =
      { Requests := 1, TotalSuccesses := 1, TotalFailures := 0, ConsecutiveSuccesses := 1,
        ConsecutiveFailures := 0 } :=
  ⟨by decide, by decide, by decide,
    (C30_counter_consistency scenarioSettings 0 halfOpenCalls (by decide)).2.2.2
      (by decide) (by decide),
    by decide⟩

/-! ## The Retry-After header -/

theorem roundHalfEven_le (p q K : Nat) (hq : 0 < q) (h : p ≤ K * q) :
    RateLimit.roundHalfEven p q ≤ K := by
  have hdm : q * (p / q) + p % q = p := Nat.div_add_mod p q
  have hd : p / q ≤ K := by
    apply Nat.div_le_of_le_mul
    rw [Nat.mul_comm]; exact h
  unfold RateLimit.roundHalfEven
  rcases Nat.lt_or_ge (p / q) K with hlt | hge
  · split_ifs <;> omega
  · have heq : p / q = K := Nat.le_antisymm hd hge
    have hr : p % q = 0 := by
      rw [heq, Nat.mul_comm] at hdm
      omega
    rw [hr, heq]
    simp [hq]

theorem le_roundHalfEven (p q K : Nat) (hq : 0 < q) (h : K * q ≤ p) :
    K ≤ RateLimit.roundHalfEven p q := by
  have hd : K ≤ p / q := (Nat.le_div_iff_mul_le hq).2 h
  unfold RateLimit.roundHalfEven
  split_ifs <;> omega

theorem roundHalfEven_pos (p q : Nat) (hq : 0 < q) (h : q < 2 * p) :
    1 ≤ RateLimit.roundHalfEven p q := by
  rcases Nat.lt_or_ge p q with hlt | hge
  · have hd : p / q = 0 := Nat.div_eq_of_lt hlt
    have hr : p % q = p := Nat.mod_eq_of_lt hlt
    unfold RateLimit.roundHalfEven
    rw [hd, hr, if_neg (by omega), if_pos h]
  · exact le_roundHalfEven p q 1 hq (by omega)

theorem roundHalfEven_eq_zero (p q : Nat) (hq : 0 < q) (h : 2 * p ≤ q) :
    RateLimit.roundHalfEven p q = 0 := by
  have hlt : p < q := by omega
  have hd : p / q = 0 := Nat.div_eq_of_lt hlt
  have hr : p % q = p := Nat.mod_eq_of_lt hlt
  unfold RateLimit.roundHalfEven
  rw [hd, hr]
  split_ifs <;> omega

theorem roundHalfEven_one (p : Nat) : RateLimit.roundHalfEven p 1 = p := by
  unfold RateLimit.roundHalfEven
  rw [Nat.mod_one, Nat.div_one, if_pos (by decide)]

theorem scale_upper (p q : Nat) : ∀ (fuel e : Nat), p * 2 ^ e < 2 ^ 53 * q →
    p * 2 ^ RateLimit.scale p q fuel e < 2 ^ 53 * q := by
  intro fuel
  induction fuel with
  | zero => intro e h; exact h
  | succ fuel ih =>
    intro e h
    unfold RateLimit.scale
    split_ifs with hc
    · apply ih
      rw [Nat.pow_succ]
      have : (2 : Nat) ^ 53 = 2 ^ 52 * 2 := by norm_num
      rw [this]
      calc p * (2 ^ e * 2) = (p * 2 ^ e) * 2 := by ring
        _ < (2 ^ 52 * q) * 2 := Nat.mul_lt_mul_of_pos_right hc (by norm_num)
        _ = 2 ^ 52 * 2 * q := by ring
    · exact h

theorem scale_lower (p q : Nat) (hpq : p < q) : ∀ (fuel e : Nat), 53 ≤ fuel + e →
    53 ≤ RateLimit.scale p q fuel e := by
  intro fuel
  induction fuel with
  | zero => intro e h; simpa [RateLimit.scale] using h
  | succ fuel ih =>
    intro e h
    unfold RateLimit.scale
    split_ifs with hc
    · exact ih (e + 1) (by omega)
    · by_contra hlt
      have he : e ≤ 52 := by omega
      have hpow : 2 ^ e ≤ 2 ^ 52 := Nat.pow_le_pow_right (by norm_num) he
      have h1 : p * 2 ^ e ≤ p * 2 ^ 52 := Nat.mul_le_mul_left p hpow
      have h2 : p * 2 ^ 52 < q * 2 ^ 52 := Nat.mul_lt_mul_of_pos_right hpq (by norm_num)
      rw [Nat.mul_comm q] at h2
      omega

theorem excess_small (n : Nat) (h : n < 2 ^ 53) : RateLimit.excess n 128 0 = 0 := by
  unfold RateLimit.excess
  rw [if_neg (by simpa using h)]

theorem excess_cases (n : Nat) : ∀ (fuel s0 : Nat), (s0 = 0 ∨ 2 ^ (53 + s0 - 1) ≤ n) →
    (RateLimit.excess n fuel s0 = 0 ∨ 2 ^ (53 + RateLimit.excess n fuel s0 - 1) ≤ n) := by
  intro fuel
  induction fuel with
  | zero => intro s0 h; exact h
  | succ fuel ih =>
    intro s0 h
    unfold RateLimit.excess
    split_ifs with hc
    · exact ih (s0 + 1) (Or.inr (by simpa using hc))
    · exact h

theorem round53_of_le (m : Nat) (h : m ≤ 2 ^ 53) :
    RateLimit.roundHalfEven m (2 ^ RateLimit.excess m 128 0) * 2 ^ RateLimit.excess m 128 0
      = m := by
  rcases Nat.lt_or_ge m (2 ^ 53) with hlt | hge
  · rw [excess_small m hlt, Nat.pow_zero, roundHalfEven_one, Nat.mul_one]
  · have heq : m = 2 ^ 53 := Nat.le_antisymm h hge
    subst heq
    decide

theorem Seconds_sub_second (d : Nat) (hpos : 0 < d) (hlt : d < 1000000000) :
    RateLimit.Seconds d =
      { num := RateLimit.roundHalfEven (d * 2 ^ RateLimit.scale d 1000000000 128 0) 1000000000,
        exp := RateLimit.scale d 1000000000 128 0 } ∧
    53 ≤ RateLimit.scale d 1000000000 128 0 := by
  have hsec : d / 1000000000 = 0 := Nat.div_eq_of_lt hlt
  have hnsec : d % 1000000000 = d := Nat.mod_eq_of_lt hlt
  have hup := scale_upper d 1000000000 128 0 (by simp only [Nat.pow_zero, Nat.mul_one]; omega)
  have hm : RateLimit.roundHalfEven (d * 2 ^ RateLimit.scale d 1000000000 128 0) 1000000000
      ≤ 2 ^ 53 :=
    roundHalfEven_le _ _ _ (by norm_num) (Nat.le_of_lt hup)
  refine ⟨?_, scale_lower d 1000000000 hlt 128 0 (by norm_num)⟩
  unfold RateLimit.Seconds RateLimit.divFloat64 RateLimit.addFloat64
  rw [hsec, hnsec, if_neg (by omega)]
  simp only [Nat.zero_mul, Nat.zero_add]
  rw [round53_of_le _ hm]

theorem formatF0_sub_second (d : Nat) (hpos : 0 < d) (hlt : d < 1000000000) :
    RateLimit.formatF0 (RateLimit.Seconds d) = 0 ↔ d ≤ 500000000 := by
  obtain ⟨hS, he⟩ := Seconds_sub_second d hpos hlt
  rw [hS]
  unfold RateLimit.formatF0
  simp only
  generalize RateLimit.scale d 1000000000 128 0 = e at he
  obtain ⟨k, rfl⟩ : ∃ k, e = k + 1 := ⟨e - 1, by omega⟩
  have hpow : 2 ^ (k + 1) = 2 * 2 ^ k := by rw [Nat.pow_succ, Nat.mul_comm]
  have hbig : 1000000000 ≤ 2 ^ (k + 1) := by
    calc 1000000000 ≤ 2 ^ 53 := by norm_num
      _ ≤ 2 ^ (k + 1) := Nat.pow_le_pow_right (by norm_num) he
  have hq : 0 < 2 ^ (k + 1) := Nat.pos_pow_of_pos _ (by norm_num)
  constructor
  · intro hzero
    by_contra hgt
    have hd : 500000001 ≤ d := by omega
    have hm : 2 ^ k + 1 ≤
        RateLimit.roundHalfEven (d * 2 ^ (k + 1)) 1000000000 := by
      apply le_roundHalfEven _ _ _ (by norm_num)
      have h1 : 500000001 * 2 ^ (k + 1) ≤ d * 2 ^ (k + 1) := Nat.mul_le_mul_right _ hd
      rw [hpow] at h1 hbig ⊢
      have h2 : 500000001 * (2 * 2 ^ k) = 1000000000 * 2 ^ k + 2 * 2 ^ k := by ring
      have h3 : (2 ^ k + 1) * 1000000000 = 1000000000 * 2 ^ k + 1000000000 := by ring
      omega
    generalize RateLimit.roundHalfEven (d * 2 ^ (k + 1)) 1000000000 = m at hm hzero
    have := roundHalfEven_pos m (2 ^ (k + 1)) hq (by rw [hpow]; omega)
    omega
  · intro hd
    apply roundHalfEven_eq_zero _ _ hq
    have hm : RateLimit.roundHalfEven (d * 2 ^ (k + 1)) 1000000000 ≤ 2 ^ k := by
      apply roundHalfEven_le _ _ _ (by norm_num)
      have h1 : d * 2 ^ (k + 1) ≤ 500000000 * 2 ^ (k + 1) := Nat.mul_le_mul_right _ hd
      rw [hpow] at h1 ⊢
      have h2 : 500000000 * (2 * 2 ^ k) = 2 ^ k * 1000000000 := by ring
      omega
    generalize RateLimit.roundHalfEven (d * 2 ^ (k + 1)) 1000000000 = m at hm
    rw [hpow]
    omega

theorem formatF0_add_ge (sec nsec : Nat) (hsec : sec + 1 ≤ 2 ^ 34)
    (hnsec : nsec < 1000000000) :
    sec ≤ RateLimit.formatF0
      (RateLimit.addFloat64 sec (RateLimit.divFloat64 nsec 1000000000)) := by
  by_cases hz : nsec = 0
  · have hlt : sec < 2 ^ 53 := by
      have : (2 : Nat) ^ 34 < 2 ^ 53 := by norm_num
      omega
    subst hz
    simp only [RateLimit.divFloat64, if_true, RateLimit.addFloat64, Nat.pow_zero,
      Nat.mul_one, Nat.add_zero, RateLimit.formatF0]
    rw [excess_small sec hlt]
    simp [roundHalfEven_one]
  · have hup := scale_upper nsec 1000000000 128 0
      (by simp only [Nat.pow_zero, Nat.mul_one]; omega)
    have hm : RateLimit.roundHalfEven (nsec * 2 ^ RateLimit.scale nsec 1000000000 128 0)
        1000000000 ≤ 2 ^ 53 :=
      roundHalfEven_le _ _ _ (by norm_num) (Nat.le_of_lt hup)
    have he : 53 ≤ RateLimit.scale nsec 1000000000 128 0 :=
      scale_lower nsec 1000000000 hnsec 128 0 (by norm_num)
    simp only [RateLimit.divFloat64, if_neg hz, RateLimit.addFloat64, RateLimit.formatF0]
    generalize RateLimit.scale nsec 1000000000 128 0 = e at hm he
    generalize RateLimit.roundHalfEven (nsec * 2 ^ e) 1000000000 = m at hm
    have hme : m ≤ 2 ^ e := le_trans hm (Nat.pow_le_pow_right (by norm_num) he)
    have hn : sec * 2 ^ e + m ≤ 2 ^ (34 + e) := by
      calc sec * 2 ^ e + m ≤ sec * 2 ^ e + 2 ^ e := Nat.add_le_add_left hme _
        _ = (sec + 1) * 2 ^ e := by ring
        _ ≤ 2 ^ 34 * 2 ^ e := Nat.mul_le_mul_right _ hsec
        _ = 2 ^ (34 + e) := by rw [Nat.pow_add]
    have hs : RateLimit.excess (sec * 2 ^ e + m) 128 0 ≤ e := by
      rcases excess_cases (sec * 2 ^ e + m) 128 0 (Or.inl rfl) with h0 | h1
      · rw [h0]; exact Nat.zero_le _
      · have h2 := le_trans h1 hn
        have h3 := (Nat.pow_le_pow_iff_right (by norm_num : 1 < 2)).1 h2
        omega
    generalize RateLimit.excess (sec * 2 ^ e + m) 128 0 = s at hs
    have hq : 0 < 2 ^ s := Nat.pos_pow_of_pos _ (by norm_num)
    have hqe : 0 < 2 ^ e := Nat.pos_pow_of_pos _ (by norm_num)
    have hsplit : 2 ^ e = 2 ^ (e - s) * 2 ^ s := by
      rw [← Nat.pow_add, Nat.sub_add_cancel hs]
    have h1 : sec * 2 ^ (e - s) ≤ RateLimit.roundHalfEven (sec * 2 ^ e + m) (2 ^ s) := by
      apply le_roundHalfEven _ _ _ hq
      calc sec * 2 ^ (e - s) * 2 ^ s = sec * (2 ^ (e - s) * 2 ^ s) := by ring
        _ = sec * 2 ^ e := by rw [← hsplit]
        _ ≤ sec * 2 ^ e + m := Nat.le_add_right _ _
    apply le_roundHalfEven _ _ _ hqe
    calc sec * 2 ^ e = sec * 2 ^ (e - s) * 2 ^ s := by rw [hsplit]; ring
      _ ≤ RateLimit.roundHalfEven (sec * 2 ^ e + m) (2 ^ s) * 2 ^ s :=
        Nat.mul_le_mul_right _ h1

theorem formatF0_whole_seconds (d : Nat) (hge : 1000000000 ≤ d)
    (hlt : d < 9223372036854775808) :
    1 ≤ RateLimit.formatF0 (RateLimit.Seconds d) := by
  have hsec1 : 1 ≤ d / 1000000000 := (Nat.le_div_iff_mul_le (by norm_num)).2 (by omega)
  have hsec2 : d / 1000000000 + 1 ≤ 2 ^ 34 := by
    have : d / 1000000000 < 9223372037 :=
      (Nat.div_lt_iff_lt_mul (by norm_num)).2 (by omega)
    have h34 : (2 : Nat) ^ 34 = 17179869184 := by norm_num
    omega
  exact le_trans hsec1
    (formatF0_add_ge (d / 1000000000) (d % 1000000000) hsec2 (Nat.mod_lt _ (by norm_num)))

theorem retryAfterSeconds_eq_zero_iff (delay : Duration) (hpos : 0 < delay)
    (hmax : delay ≤ 9223372036854775807) :
    RateLimit.retryAfterSeconds delay = 0 ↔ delay ≤ 500000000 := by
  unfold RateLimit.retryAfterSeconds
  simp only [Duration] at *
  have hnat : (delay.natAbs : Int) = delay := Int.natAbs_of_nonneg (le_of_lt hpos)
  generalize delay.natAbs = d at hnat
  subst hnat
  rcases Nat.lt_or_ge d 1000000000 with hlt | hge
  · rw [formatF0_sub_second d (by omega) hlt]
    omega
  · have := formatF0_whole_seconds d hge (by omega)
    constructor
    · intro h; omega
    · intro h; omega

theorem formatF0_add_le (sec nsec : Nat) (hsec : sec + 1 ≤ 2 ^ 34)
    (hnsec : nsec < 1000000000) :
    RateLimit.formatF0
      (RateLimit.addFloat64 sec (RateLimit.divFloat64 nsec 1000000000)) ≤ sec + 1 := by
  by_cases hz : nsec = 0
  · have hlt : sec < 2 ^ 53 := by
      have : (2 : Nat) ^ 34 < 2 ^ 53 := by norm_num
      omega
    subst hz
    simp only [RateLimit.divFloat64, if_true, RateLimit.addFloat64, Nat.pow_zero,
      Nat.mul_one, Nat.add_zero, RateLimit.formatF0]
    rw [excess_small sec hlt]
    simp [roundHalfEven_one]
  · have hup := scale_upper nsec 1000000000 128 0
      (by simp only [Nat.pow_zero, Nat.mul_one]; omega)
    have hm : RateLimit.roundHalfEven (nsec * 2 ^ RateLimit.scale nsec 1000000000 128 0)
        1000000000 ≤ 2 ^ 53 :=
      roundHalfEven_le _ _ _ (by norm_num) (Nat.le_of_lt hup)
    have he : 53 ≤ RateLimit.scale nsec 1000000000 128 0 :=
      scale_lower nsec 1000000000 hnsec 128 0 (by norm_num)
    simp only [RateLimit.divFloat64, if_neg hz, RateLimit.addFloat64, RateLimit.formatF0]
    generalize RateLimit.scale nsec 1000000000 128 0 = e at hm he
    generalize RateLimit.roundHalfEven (nsec * 2 ^ e) 1000000000 = m at hm
    have hme : m ≤ 2 ^ e := le_trans hm (Nat.pow_le_pow_right (by norm_num) he)
    have hn1 : sec * 2 ^ e + m ≤ (sec + 1) * 2 ^ e := by
      calc sec * 2 ^ e + m ≤ sec * 2 ^ e + 2 ^ e := Nat.add_le_add_left hme _
        _ = (sec + 1) * 2 ^ e := by ring
    have hn : sec * 2 ^ e + m ≤ 2 ^ (34 + e) := by
      calc sec * 2 ^ e + m ≤ (sec + 1) * 2 ^ e := hn1
        _ ≤ 2 ^ 34 * 2 ^ e := Nat.mul_le_mul_right _ hsec
        _ = 2 ^ (34 + e) := by rw [Nat.pow_add]
    have hs : RateLimit.excess (sec * 2 ^ e + m) 128 0 ≤ e := by
      rcases excess_cases (sec * 2 ^ e + m) 128 0 (Or.inl rfl) with h0 | h1
      · rw [h0]; exact Nat.zero_le _
      · have h2 := le_trans h1 hn
        have h3 := (Nat.pow_le_pow_iff_right (by norm_num : 1 < 2)).1 h2
        omega
    generalize RateLimit.excess (sec * 2 ^ e + m) 128 0 = s at hs
    have hq : 0 < 2 ^ s := Nat.pos_pow_of_pos _ (by norm_num)
    have hqe : 0 < 2 ^ e := Nat.pos_pow_of_pos _ (by norm_num)
    have hsplit : 2 ^ e = 2 ^ (e - s) * 2 ^ s := by
      rw [← Nat.pow_add, Nat.sub_add_cancel hs]
    have h1 : RateLimit.roundHalfEven (sec * 2 ^ e + m) (2 ^ s) ≤ (sec + 1) * 2 ^ (e - s) := by
      apply roundHalfEven_le _ _ _ hq
      calc sec * 2 ^ e + m ≤ (sec + 1) * 2 ^ e := hn1
        _ = (sec + 1) * 2 ^ (e - s) * 2 ^ s := by rw [hsplit]; ring
    apply roundHalfEven_le _ _ _ hqe
    calc RateLimit.roundHalfEven (sec * 2 ^ e + m) (2 ^ s) * 2 ^ s
        ≤ (sec + 1) * 2 ^ (e - s) * 2 ^ s := Nat.mul_le_mul_right _ h1
      _ = (sec + 1) * 2 ^ e := by rw [hsplit]; ring

theorem retryAfterSeconds_bounds (delay : Duration) (hpos : 0 < delay)
    (hmax : delay ≤ 9223372036854775807) :
    delay / 1000000000 ≤ (RateLimit.retryAfterSeconds delay : Int) ∧
      (RateLimit.retryAfterSeconds delay : Int) ≤ delay / 1000000000 + 1 := by
  unfold RateLimit.retryAfterSeconds RateLimit.Seconds
  simp only [Duration] at *
  have hnat : (delay.natAbs : Int) = delay := Int.natAbs_of_nonneg (le_of_lt hpos)
  generalize delay.natAbs = d at hnat
  subst hnat
  have hsec2 : d / 1000000000 + 1 ≤ 2 ^ 34 := by
    have : d / 1000000000 < 9223372037 :=
      (Nat.div_lt_iff_lt_mul (by norm_num)).2 (by omega)
    have h34 : (2 : Nat) ^ 34 = 17179869184 := by norm_num
    omega
  have h1 := formatF0_add_ge (d / 1000000000) (d % 1000000000) hsec2
    (Nat.mod_lt _ (by norm_num))
  have h2 := formatF0_add_le (d / 1000000000) (d % 1000000000) hsec2
    (Nat.mod_lt _ (by norm_num))
  constructor
  · exact_mod_cast h1
  · exact_mod_cast h2

/-- C23 on the code: `Retry-After` is `fmt.Sprintf("%.0f", delay.Seconds())`, which
rounds to the nearest whole number.  A request rejected with a delay of 0.4 s gets the
header `0`, where the ceiling is 1; a delay of 0.5 s gets `0` as well, and a delay of
2.5 s gets `2`, where the ceiling is 3. -/
theorem C23_retry_after_is_zero_below_half_a_second :
    (0 : Int) < 400000000 ∧
    (RateLimit.reject 2 0 400000000).RetryAfter = "0" ∧
    (400000000 + 999999999) / 1000000000 = (1 : Int) ∧
    (RateLimit.reject 2 0 500000000).RetryAfter = "0" ∧
    (RateLimit.reject 2 0 2500000000).RetryAfter = "2" ∧
    (2500000000 + 999999999) / 1000000000 = (3 : Int) := by
  decide

/-- C23 (amended): for a request rejected with a delay `d > 0` (an `int64` number of
nanoseconds), the `Retry-After` header is the decimal form of the `float64` value of `d`
in seconds rounded to a whole number by `%.0f`: the whole seconds of `d`, or one more;
it is 0 exactly when `d` is at most half a second, and so greater than 0 exactly when
`d` is more than half a second. -/
theorem C23_retry_after_rounds_to_nearest (requestsPerSecond : Int) (now : Time)
    (delay : Duration) (hpos : 0 < delay) (hmax : delay ≤ 9223372036854775807) :
    (RateLimit.reject requestsPerSecond now delay).RetryAfter =
      toString (RateLimit.retryAfterSeconds delay) ∧
    (RateLimit.retryAfterSeconds delay = 0 ↔ delay ≤ 500000000) ∧
    (0 < RateLimit.retryAfterSeconds delay ↔ 500000000 < delay) ∧
    delay / 1000000000 ≤ (RateLimit.retryAfterSeconds delay : Int) ∧
    (RateLimit.retryAfterSeconds delay : Int) ≤ delay / 1000000000 + 1 := by
  have hz := retryAfterSeconds_eq_zero_iff delay hpos hmax
  have hb := retryAfterSeconds_bounds delay hpos hmax
  refine ⟨?_, hz, ?_, hb.1, hb.2⟩
  · unfold RateLimit.reject
    simp only [if_neg (not_lt.2 (le_of_lt hpos)), String.empty_append]
  · constructor
    · intro h
      by_contra hle
      exact absurd (hz.2 (not_lt.1 hle)) (Nat.ne_of_gt h)
    · intro h
      exact Nat.pos_of_ne_zero (fun h0 => absurd (hz.1 h0) (not_le.2 h))

/-- C23 (amended) at the delay of 0.4 s of a limiter with two requests per second: the
header is `0`. -/
theorem C23_retry_after_rounds_to_nearest_witness :
    (0 : Int) < 400000000 ∧ (400000000 : Int) ≤ 9223372036854775807 ∧
    (RateLimit.reject 2 0 400000000).RetryAfter =
      toString (RateLimit.retryAfterSeconds 400000000) ∧
    RateLimit.retryAfterSeconds 400000000 = 0 :=
  ⟨by decide, by decide,
    (C23_retry_after_rounds_to_nearest 2 0 400000000 (by decide) (by decide)).1,
    by decide⟩

/-! ## Consecutive weighted picks -/

theorem NextBackend_selected (lb : WeightedLB) (first : WeightedBackend)
    (rest : List WeightedBackend) (h : lb.backends = first :: rest)
    (hex : ∃ b ∈ lb.backends, b.Healthy = true) :
    ∃ (j : Nat) (sel : WeightedBackend), lb.selected = some j ∧
      lb.backends[j]? = some sel ∧ sel.Healthy = true ∧
      lb.NextBackend.2 = sel.URL ∧
      (∀ (i : Nat) (b : WeightedBackend), lb.backends[i]? = some b → b.Healthy = true →
        b.raised ≤ sel.raised) ∧
      (∀ (i : Nat) (b : WeightedBackend), i < j → lb.backends[i]? = some b →
        b.Healthy = true → b.raised < sel.raised) ∧
      lb.NextBackend.1.current = lb.current ∧
      lb.NextBackend.1.backends.length = lb.backends.length ∧
      ∀ (i : Nat) (b : WeightedBackend), lb.backends[i]? = some b →
        lb.NextBackend.1.backends[i]? = some
          (if b.Healthy = false then b
           else if i = j then
             { b with CurrentWeight := i64 (b.raised - healthyWeight lb.backends) }
           else { b with CurrentWeight := b.raised }) := by
  have hinv := pickLoop_inv lb.backends lb.backends.length (le_refl _)
  rw [NextBackend_of_cons lb first rest h _ rfl]
  unfold WeightedLB.selected
  generalize (List.range lb.backends.length).foldl WeightedLB.pickStep
    { backends := lb.backends, totalWeight := 0, selectedBackend := none } = st at hinv
  have hback := pickLoop_backends lb.backends st hinv
  obtain ⟨backends, totalWeight, selected⟩ := st
  obtain ⟨hlen, hget, htot, hnone, hsome⟩ := hinv
  simp only at hlen htot hnone hsome hback
  rw [List.take_length] at htot
  obtain ⟨b0, hb0, hb0h⟩ := hex
  obtain ⟨i0, hi0⟩ := List.getElem?_of_mem hb0
  cases selected with
  | none =>
    have := hnone rfl i0 b0 (getElem?_lt_length _ _ _ hi0) hi0
    rw [this] at hb0h; cases hb0h
  | some j =>
    obtain ⟨hj, sel, hsel, hselh, hmax, hfirst⟩ := hsome j rfl
    have hgetD : backends.getD j first = sel.bump := by
      rw [List.getD_eq_getElem?_getD, hback j, hsel]; rfl
    simp only [hgetD]
    refine ⟨j, sel, rfl, hsel, hselh, bump_URL sel, ?_, hfirst, trivial, ?_, ?_⟩
    · intro i b hb hbh
      exact hmax i b (getElem?_lt_length _ _ _ hb) hb hbh
    · simp [hlen]
    · intro i b hb
      by_cases hij : i = j
      · subst hij
        rw [hsel] at hb; cases hb
        rw [List.getElem?_set_self (by rw [hlen]; exact hj), bump_of_healthy _ hselh, htot]
        simp [hselh]
      · rw [List.getElem?_set_ne (Ne.symm hij), hback i, hb]
        by_cases hh : b.Healthy = false
        · simp [hh, bump_of_unhealthy b hh]
        · have ht : b.Healthy = true := by simpa using hh
          simp [ht, hij, bump_of_healthy b ht]

theorem Starved_step (lb : WeightedLB) (h : Starved lb) :
    lb.NextBackend.2 ≠ "http://b" ∧ Starved lb.NextBackend.1 := by
  obtain ⟨x, y, rfl⟩ := h
  obtain ⟨j, sel, -, hsel, -, hurl, -, hfirst, hcur, hlen, hnew⟩ :=
    NextBackend_selected
      { backends :=
          [{ URL := "http://a", Weight := maxInt, CurrentWeight := x, Healthy := true },
           { URL := "http://b", Weight := maxInt, CurrentWeight := x, Healthy := true },
           { URL := "http://c", Weight := 2, CurrentWeight := y, Healthy := true }],
        current := 0 }
      { URL := "http://a", Weight := maxInt, CurrentWeight := x, Healthy := true }
      [{ URL := "http://b", Weight := maxInt, CurrentWeight := x, Healthy := true },
       { URL := "http://c", Weight := 2, CurrentWeight := y, Healthy := true }] rfl
      ⟨{ URL := "http://a", Weight := maxInt, CurrentWeight := x, Healthy := true },
        List.mem_cons_self _ _, rfl⟩
  have hw : ∀ x y : Int, healthyWeight
      [{ URL := "http://a", Weight := maxInt, CurrentWeight := x, Healthy := true },
       { URL := "http://b", Weight := maxInt, CurrentWeight := x, Healthy := true },
       { URL := "http://c", Weight := 2, CurrentWeight := y, Healthy := true }] = 0 := by
    intro x y; rfl
  simp only [hw] at hnew
  have h0 := hnew 0
    { URL := "http://a", Weight := maxInt, CurrentWeight := x, Healthy := true } rfl
  have h1 := hnew 1
    { URL := "http://b", Weight := maxInt, CurrentWeight := x, Healthy := true } rfl
  have h2 := hnew 2
    { URL := "http://c", Weight := 2, CurrentWeight := y, Healthy := true } rfl
  have hj : j < 3 := getElem?_lt_length _ _ _ hsel
  have hlt := hfirst 0
    { URL := "http://a", Weight := maxInt, CurrentWeight := x, Healthy := true }
  clear hnew hfirst
  generalize WeightedLB.NextBackend _ = res at *
  obtain ⟨⟨bs, cur⟩, url⟩ := res
  simp only at hurl hcur hlen h0 h1 h2
  have hbs : ∃ p q r, bs = [p, q, r] := by
    match bs, hlen with
    | [p, q, r], _ => exact ⟨p, q, r, rfl⟩
  obtain ⟨p, q, r, rfl⟩ := hbs
  subst hcur
  have hj3 : j = 0 ∨ j = 1 ∨ j = 2 := by omega
  rcases hj3 with rfl | rfl | rfl
  · simp only [List.getElem?_cons_zero, Option.some.injEq] at hsel
    subst hsel
    simp [WeightedBackend.raised, i64_idem] at h0 h1 h2
    subst h0 h1 h2 hurl
    exact ⟨by show ("http://a" : String) ≠ "http://b"; decide,
      i64 (x + maxInt), i64 (y + 2), rfl⟩
  · exfalso
    simp only [List.getElem?_cons_zero, List.getElem?_cons_succ, Option.some.injEq] at hsel
    subst hsel
    exact lt_irrefl _ (hlt (by decide) rfl rfl)
  · simp only [List.getElem?_cons_zero, List.getElem?_cons_succ, Option.some.injEq] at hsel
    subst hsel
    simp [WeightedBackend.raised, i64_idem] at h0 h1 h2
    subst h0 h1 h2 hurl
    exact ⟨by show ("http://c" : String) ≠ "http://b"; decide,
      i64 (x + maxInt), i64 (y + 2), rfl⟩

theorem Starved_run (lb : WeightedLB) (h : Starved lb) : ∀ k, Starved (lb.run k) := by
  intro k
  induction k with
  | zero => exact h
  | succ k ih => exact (Starved_step _ ih).2

theorem Starved_picks (lb : WeightedLB) (h : Starved lb) :
    ∀ k, "http://b" ∉ lb.picks k := by
  intro k
  induction k with
  | zero => simp [WeightedLB.picks]
  | succ k ih =>
    simp only [WeightedLB.picks, List.mem_append, List.mem_singleton, not_or]
    exact ⟨ih, fun h1 => (Starved_step _ (Starved_run lb h k)).1 h1.symm⟩

theorem Starved_wrappedWeighted : Starved wrappedWeighted := ⟨0, 0, rfl⟩

theorem weightAt_of_some (bs : List WeightedBackend) (i : Nat) (b : WeightedBackend)
    (h : bs[i]? = some b) : weightAt bs i = b.Weight := by
  simp [weightAt, h]

theorem weightSum_eq_range (bs : List WeightedBackend) :
    weightSum bs = ∑ i ∈ Finset.range bs.length, weightAt bs i := by
  induction bs with
  | nil => simp [weightSum]
  | cons b bs ih =>
    rw [List.length_cons, Finset.sum_range_succ']
    simp only [weightSum, List.map_cons, List.sum_cons] at ih ⊢
    rw [ih]
    simp [weightAt, add_comm]

theorem count_sum_range (n : Nat) (sels : List Nat) (h : ∀ j ∈ sels, j < n) :
    ∑ i ∈ Finset.range n, (sels.count i : Int) = sels.length := by
  induction sels with
  | nil => simp
  | cons j sels ih =>
    have hj : j < n := h j (List.mem_cons_self _ _)
    have ih1 := ih (fun x hx => h x (List.mem_cons_of_mem _ hx))
    have hc : ∀ i, ((j :: sels).count i : Int) = sels.count i + if i = j then 1 else 0 := by
      intro i
      rw [List.count_cons]
      by_cases hij : i = j
      · subst hij; simp
      · have hji : ¬ j = i := fun e => hij e.symm
        simp [hij, hji]
    simp only [hc, Finset.sum_add_distrib, ih1, Finset.sum_ite_eq', Finset.mem_range, hj,
      if_true, List.length_cons]
    push_cast; ring

theorem healthyWeightSum_of_healthy (bs : List WeightedBackend)
    (h : ∀ b ∈ bs, b.Healthy = true) : healthyWeightSum bs = weightSum bs := by
  unfold healthyWeightSum weightSum
  rw [List.filter_eq_self.2 (fun b hb => by simp [h b hb])]

theorem smooth_bounds (W w k1 c : Int) (hw0 : 0 ≤ w) (hwW : w ≤ W) (hk0 : 0 ≤ k1)
    (hk : k1 ≤ W) (hc0 : 0 ≤ c) (hc : c ≤ w) :
    -(W * W) ≤ k1 * w - W * c ∧ k1 * w - W * c ≤ W * W := by
  have hW0 : 0 ≤ W := le_trans hw0 hwW
  have h1 : k1 * w ≤ W * W := mul_le_mul hk hwW hw0 hW0
  have h2 : W * c ≤ W * W := mul_le_mul_of_nonneg_left (le_trans hc hwW) hW0
  have h3 : 0 ≤ k1 * w := mul_nonneg hk0 hw0
  have h4 : 0 ≤ W * c := mul_nonneg hW0 hc0
  constructor <;> linarith

theorem weightAt_nonneg (bs0 : List WeightedBackend)
    (hfresh : ∀ b ∈ bs0, b.Healthy = true ∧ 0 < b.Weight) (i : Nat) :
    0 ≤ weightAt bs0 i := by
  unfold weightAt
  cases hb : bs0[i]? with
  | none => simp
  | some b => simpa using le_of_lt (hfresh b (List.getElem?_mem hb)).2

theorem weight_le_weightSum (bs0 : List WeightedBackend)
    (hfresh : ∀ b ∈ bs0, b.Healthy = true ∧ 0 < b.Weight) (i : Nat) (b : WeightedBackend)
    (hb : bs0[i]? = some b) : b.Weight ≤ weightSum bs0 := by
  rw [weightSum_eq_range, ← weightAt_of_some bs0 i b hb]
  exact Finset.single_le_sum (fun x _ => weightAt_nonneg bs0 hfresh x)
    (Finset.mem_range.2 (getElem?_lt_length _ _ _ hb))

theorem smooth_step (bs0 : List WeightedBackend) (sels : List Nat) (lb : WeightedLB)
    (hfresh : ∀ b ∈ bs0, b.Healthy = true ∧ 0 < b.Weight)
    (hbound : weightSum bs0 * weightSum bs0 + weightSum bs0 ≤ maxInt)
    (hk : (sels.length : Int) < weightSum bs0)
    (hinv : SmoothInv bs0 sels lb) :
    ∃ (j : Nat) (b0 : WeightedBackend), bs0[j]? = some b0 ∧ lb.selected = some j ∧
      lb.NextBackend.2 = b0.URL ∧
      (∀ i, i < bs0.length →
        (sels.length + 1) * weightAt bs0 i - weightSum bs0 * sels.count i ≤
          (sels.length + 1) * weightAt bs0 j - weightSum bs0 * sels.count j) ∧
      (∀ i, i < j →
        (sels.length + 1) * weightAt bs0 i - weightSum bs0 * sels.count i <
          (sels.length + 1) * weightAt bs0 j - weightSum bs0 * sels.count j) ∧
      lb.NextBackend.1.current = lb.current ∧
      SmoothInv bs0 (sels ++ [j]) lb.NextBackend.1 := by
  obtain ⟨hsels, hlen0, hstate⟩ := hinv
  have hk0 : (0 : Int) ≤ sels.length := Int.ofNat_nonneg _
  have hW0 : 0 < weightSum bs0 := lt_of_le_of_lt hk0 hk
  have hWW : 0 ≤ weightSum bs0 * weightSum bs0 := mul_self_nonneg _
  have hmaxInt : maxInt = 9223372036854775807 := rfl
  rw [hmaxInt] at hbound
  -- every backend of the current state comes from one of the start
  have hpoint : ∀ (i : Nat) (b : WeightedBackend), lb.backends[i]? = some b →
      ∃ b0, bs0[i]? = some b0 ∧ (sels.count i : Int) ≤ b0.Weight ∧
        b = { b0 with
          CurrentWeight := sels.length * b0.Weight - weightSum bs0 * sels.count i } := by
    intro i b hb
    have hi : i < bs0.length := by rw [← hlen0]; exact getElem?_lt_length _ _ _ hb
    obtain ⟨hc, hs⟩ := hstate i bs0[i] (List.getElem?_eq_getElem hi)
    rw [hs] at hb
    exact ⟨bs0[i], List.getElem?_eq_getElem hi, hc, (Option.some.inj hb).symm⟩
  have hhealthy : ∀ b ∈ lb.backends, b.Healthy = true := by
    intro b hb
    obtain ⟨i, hi⟩ := List.getElem?_of_mem hb
    obtain ⟨b0, hb0, -, rfl⟩ := hpoint i b hi
    exact (hfresh b0 (List.getElem?_mem hb0)).1
  have hwAt : ∀ i, weightAt lb.backends i = weightAt bs0 i := by
    intro i
    unfold weightAt
    cases hb0 : bs0[i]? with
    | none =>
      have : lb.backends[i]? = none := by
        rw [List.getElem?_eq_none_iff] at hb0 ⊢
        rw [hlen0]; exact hb0
      rw [this]
    | some b0 => rw [(hstate i b0 hb0).2]; rfl
  have hW : healthyWeight lb.backends = weightSum bs0 := by
    rw [healthyWeight_eq_sum, healthyWeightSum_of_healthy _ hhealthy, weightSum_eq_range,
      hlen0, Finset.sum_congr rfl (fun i _ => hwAt i), ← weightSum_eq_range]
    exact i64_of_range _ (by linarith) (by linarith)
  have hraised : ∀ (i : Nat) (b0 : WeightedBackend), bs0[i]? = some b0 →
      (sels.count i : Int) ≤ b0.Weight →
      -(weightSum bs0 * weightSum bs0) ≤
          (sels.length + 1) * b0.Weight - weightSum bs0 * sels.count i ∧
      (sels.length + 1) * b0.Weight - weightSum bs0 * sels.count i ≤
          weightSum bs0 * weightSum bs0 ∧
      ({ b0 with CurrentWeight :=
          sels.length * b0.Weight - weightSum bs0 * sels.count i } : WeightedBackend).raised =
        (sels.length + 1) * b0.Weight - weightSum bs0 * sels.count i := by
    intro i b0 hb0 hc
    have hb := smooth_bounds (weightSum bs0) b0.Weight (sels.length + 1) (sels.count i)
      (le_of_lt (hfresh b0 (List.getElem?_mem hb0)).2)
      (weight_le_weightSum bs0 hfresh i b0 hb0) (by linarith) (by linarith)
      (Int.ofNat_nonneg _) hc
    refine ⟨hb.1, hb.2, ?_⟩
    unfold WeightedBackend.raised
    have he : (sels.length : Int) * b0.Weight - weightSum bs0 * sels.count i + b0.Weight =
        (sels.length + 1) * b0.Weight - weightSum bs0 * sels.count i := by ring
    simp only [he]
    exact i64_of_range _ (by linarith [hb.1]) (by linarith [hb.2])
  obtain ⟨first, rest, hlb⟩ : ∃ first rest, lb.backends = first :: rest := by
    cases hl : lb.backends with
    | nil =>
      exfalso
      rw [hl] at hlen0
      have : bs0 = [] := List.length_eq_zero.1 hlen0.symm
      rw [this] at hW0
      exact lt_irrefl _ hW0
    | cons first rest => exact ⟨first, rest, rfl⟩
  obtain ⟨j, sel, hselected, hsel, -, hurl, hmax, hfirst, hcur, hlen, hnew⟩ :=
    NextBackend_selected lb first rest hlb
      ⟨first, by rw [hlb]; exact List.mem_cons_self _ _,
        hhealthy first (by rw [hlb]; exact List.mem_cons_self _ _)⟩
  obtain ⟨bj, hbj, hcj, rfl⟩ := hpoint j _ hsel
  have hjn : j < bs0.length := getElem?_lt_length _ _ _ hbj
  obtain ⟨hjlo, hjhi, hjr⟩ := hraised j bj hbj hcj
  have hmaxf : ∀ i, i < bs0.length →
      (sels.length + 1) * weightAt bs0 i - weightSum bs0 * sels.count i ≤
        (sels.length + 1) * weightAt bs0 j - weightSum bs0 * sels.count j := by
    intro i hi
    obtain ⟨hc, hs⟩ := hstate i bs0[i] (List.getElem?_eq_getElem hi)
    have := hmax i _ hs (hfresh _ (List.getElem_mem hi)).1
    rw [(hraised i _ (List.getElem?_eq_getElem hi) hc).2.2, hjr] at this
    rw [weightAt_of_some bs0 i _ (List.getElem?_eq_getElem hi), weightAt_of_some bs0 j bj hbj]
    exact this
  have hfirstf : ∀ i, i < j →
      (sels.length + 1) * weightAt bs0 i - weightSum bs0 * sels.count i <
        (sels.length + 1) * weightAt bs0 j - weightSum bs0 * sels.count j := by
    intro i hij
    have hi : i < bs0.length := lt_trans hij hjn
    obtain ⟨hc, hs⟩ := hstate i bs0[i] (List.getElem?_eq_getElem hi)
    have := hfirst i _ hij hs (hfresh _ (List.getElem_mem hi)).1
    rw [(hraised i _ (List.getElem?_eq_getElem hi) hc).2.2, hjr] at this
    rw [weightAt_of_some bs0 i _ (List.getElem?_eq_getElem hi), weightAt_of_some bs0 j bj hbj]
    exact this
  -- the selected backend has not used up its share
  have hlt : (sels.count j : Int) + 1 ≤ bj.Weight := by
    by_contra hnot
    have hge : bj.Weight ≤ sels.count j := by linarith
    have hwj : 0 < bj.Weight := (hfresh bj (List.getElem?_mem hbj)).2
    have h1 : weightSum bs0 * bj.Weight ≤ weightSum bs0 * sels.count j :=
      mul_le_mul_of_nonneg_left hge (le_of_lt hW0)
    have h2 : ((sels.length : Int) + 1) * bj.Weight ≤ weightSum bs0 * bj.Weight :=
      mul_le_mul_of_nonneg_right (by linarith) (le_of_lt hwj)
    have hrj : ((sels.length : Int) + 1) * weightAt bs0 j - weightSum bs0 * sels.count j ≤ 0 := by
      rw [weightAt_of_some bs0 j bj hbj]; linarith
    have hsum : ∑ i ∈ Finset.range bs0.length,
        (((sels.length : Int) + 1) * weightAt bs0 i - weightSum bs0 * sels.count i) ≤ 0 :=
      Finset.sum_nonpos (fun i hi => le_trans (hmaxf i (Finset.mem_range.1 hi)) hrj)
    rw [Finset.sum_sub_distrib, ← Finset.mul_sum, ← Finset.mul_sum, ← weightSum_eq_range,
      count_sum_range bs0.length sels hsels] at hsum
    linarith
  refine ⟨j, bj, hbj, hselected, hurl, hmaxf, hfirstf, hcur, ?_, hlen.trans hlen0, ?_⟩
  · intro x hx
    rcases List.mem_append.1 hx with hx | hx
    · exact hsels x hx
    · rw [List.mem_singleton.1 hx]; exact hjn
  · intro i b0 hb0
    obtain ⟨hc, hs⟩ := hstate i b0 hb0
    have hnewi := hnew i _ hs
    obtain ⟨hlo, hhi, hr⟩ := hraised i b0 hb0 hc
    have hb0h : b0.Healthy = true := (hfresh b0 (List.getElem?_mem hb0)).1
    rw [hnewi, hr, hW]
    by_cases hij : i = j
    · subst hij
      rw [hbj] at hb0; cases hb0
      have hcount : ((sels ++ [i]).count i : Int) = sels.count i + 1 := by simp
      refine ⟨by rw [hcount]; exact hlt, ?_⟩
      simp only [hb0h, if_true, Bool.true_eq_false, if_false, hcount, List.length_append,
        List.length_singleton]
      rw [i64_of_range _ (by linarith) (by linarith)]
      congr 2
      push_cast; ring
    · have hji : ¬ j = i := fun e => hij e.symm
      have hcount : ((sels ++ [j]).count i : Int) = sels.count i := by
        simp [List.count_singleton, hji]
      refine ⟨by rw [hcount]; exact hc, ?_⟩
      simp only [hb0h, hij, if_true, Bool.true_eq_false, if_false, hcount, List.length_append,
        List.length_singleton]
      congr 2

theorem SmoothInv_start (lb : WeightedLB)
    (hzero : ∀ b ∈ lb.backends, b.Healthy = true ∧ 0 < b.Weight ∧ b.CurrentWeight = 0) :
    SmoothInv lb.backends [] lb := by
  refine ⟨(fun j hj => by cases hj), rfl, ?_⟩
  intro i b0 hb0
  have hw := (hzero b0 (List.getElem?_mem hb0)).2
  refine ⟨by simpa using le_of_lt hw.1, ?_⟩
  rw [hb0]
  obtain ⟨u, w, c, hl⟩ := b0
  simp only at hw
  simp [hw.2]

theorem weightSum_nonneg (bs0 : List WeightedBackend)
    (hfresh : ∀ b ∈ bs0, b.Healthy = true ∧ 0 < b.Weight) : 0 ≤ weightSum bs0 := by
  rw [weightSum_eq_range]
  exact Finset.sum_nonneg (fun i _ => weightAt_nonneg bs0 hfresh i)

theorem smooth_run (lb : WeightedLB)
    (hzero : ∀ b ∈ lb.backends, b.Healthy = true ∧ 0 < b.Weight ∧ b.CurrentWeight = 0)
    (hbound : weightSum lb.backends * weightSum lb.backends + weightSum lb.backends ≤ maxInt) :
    ∀ k : Nat, (k : Int) ≤ weightSum lb.backends →
      ∃ sels : List Nat, sels.length = k ∧ lb.selections k = sels.map some ∧
        SmoothInv lb.backends sels (lb.run k) ∧ (lb.run k).current = lb.current ∧
        ∀ t, t < k → ∃ (j : Nat) (b : WeightedBackend), (lb.run t).selected = some j ∧
          lb.backends[j]? = some b ∧ (lb.run t).NextBackend.2 = b.URL := by
  have hfresh : ∀ b ∈ lb.backends, b.Healthy = true ∧ 0 < b.Weight :=
    fun b hb => ⟨(hzero b hb).1, (hzero b hb).2.1⟩
  intro k
  induction k with
  | zero =>
    intro _
    exact ⟨[], rfl, rfl, SmoothInv_start lb hzero, rfl,
      fun t ht => absurd ht (Nat.not_lt_zero t)⟩
  | succ k ih =>
    intro hk
    have hk1 : (k : Int) < weightSum lb.backends := by push_cast at hk; linarith
    obtain ⟨sels, hlen, hsel, hinv, hcur, hurls⟩ := ih (le_of_lt hk1)
    obtain ⟨j, b0, hb0, hselected, hurl, -, -, hcur1, hinv1⟩ :=
      smooth_step lb.backends sels (lb.run k) hfresh hbound (by rw [hlen]; exact hk1) hinv
    refine ⟨sels ++ [j], by simp [hlen], ?_, hinv1, hcur1.trans hcur, ?_⟩
    · simp [WeightedLB.selections, hsel, hselected]
    · intro t ht
      by_cases htk : t < k
      · exact hurls t htk
      · have : t = k := by omega
        subst this
        exact ⟨j, b0, hselected, hb0, hurl⟩

theorem smooth_counts (bs0 : List WeightedBackend) (sels : List Nat)
    (hsels : ∀ j ∈ sels, j < bs0.length)
    (hlen : (sels.length : Int) = weightSum bs0)
    (hc : ∀ (i : Nat) (b0 : WeightedBackend), bs0[i]? = some b0 →
      (sels.count i : Int) ≤ b0.Weight)
    (i : Nat) (b0 : WeightedBackend) (hb0 : bs0[i]? = some b0) :
    (sels.count i : Int) = b0.Weight := by
  have hnn : ∀ x ∈ Finset.range bs0.length, 0 ≤ weightAt bs0 x - (sels.count x : Int) := by
    intro x hx
    have hx1 : x < bs0.length := Finset.mem_range.1 hx
    have := hc x bs0[x] (List.getElem?_eq_getElem hx1)
    rw [weightAt_of_some bs0 x _ (List.getElem?_eq_getElem hx1)]
    linarith
  have hsum : ∑ x ∈ Finset.range bs0.length, (weightAt bs0 x - (sels.count x : Int)) = 0 := by
    rw [Finset.sum_sub_distrib, ← weightSum_eq_range, count_sum_range bs0.length sels hsels,
      hlen, sub_self]
  have := (Finset.sum_eq_zero_iff_of_nonneg hnn).1 hsum i
    (Finset.mem_range.2 (getElem?_lt_length _ _ _ hb0))
  rw [weightAt_of_some bs0 i b0 hb0] at this
  linarith

theorem count_map_some (sels : List Nat) (i : Nat) :
    (sels.map some).count (some i) = sels.count i := by
  induction sels with
  | nil => rfl
  | cons a sels ih => simp [List.count_cons, ih]

theorem smooth_round (lb : WeightedLB)
    (hzero : ∀ b ∈ lb.backends, b.Healthy = true ∧ 0 < b.Weight ∧ b.CurrentWeight = 0)
    (hbound : weightSum lb.backends * weightSum lb.backends + weightSum lb.backends ≤ maxInt) :
    (∀ (i : Nat) (b : WeightedBackend), lb.backends[i]? = some b →
      (((lb.selections (weightSum lb.backends).toNat).count (some i) : Nat) : Int) =
        b.Weight) ∧
    lb.run (weightSum lb.backends).toNat = lb := by
  have hfresh : ∀ b ∈ lb.backends, b.Healthy = true ∧ 0 < b.Weight :=
    fun b hb => ⟨(hzero b hb).1, (hzero b hb).2.1⟩
  have hW0 := weightSum_nonneg lb.backends hfresh
  have hWn : (((weightSum lb.backends).toNat : Nat) : Int) = weightSum lb.backends :=
    Int.toNat_of_nonneg hW0
  obtain ⟨sels, hlen, hsel, ⟨hsels, hlen0, hstate⟩, hcur, -⟩ :=
    smooth_run lb hzero hbound (weightSum lb.backends).toNat (le_of_eq hWn)
  have hcount := smooth_counts lb.backends sels hsels (by rw [hlen]; exact hWn)
    (fun i b0 hb0 => (hstate i b0 hb0).1)
  refine ⟨?_, ?_⟩
  · intro i b hb
    rw [hsel, count_map_some]
    exact hcount i b hb
  · generalize lb.run (weightSum lb.backends).toNat = lb1 at *
    obtain ⟨bs1, c1⟩ := lb1
    obtain ⟨bs, c⟩ := lb
    simp only at hcur hlen0 hstate hcount hzero hlen hWn
    subst hcur
    congr 1
    apply List.ext_getElem?
    intro i
    cases hb : bs[i]? with
    | none =>
      rw [List.getElem?_eq_none_iff] at hb ⊢
      rw [hlen0]; exact hb
    | some b0 =>
      rw [(hstate i b0 hb).2, hcount i b0 hb, hlen, hWn]
      have hz := (hzero b0 (List.getElem?_mem hb)).2.2
      obtain ⟨u, w, c, hl⟩ := b0
      simp only at hz
      subst hz
      simp [mul_comm]

theorem count_range_eq (k i : Nat) : (List.range k).count i = if i < k then 1 else 0 := by
  induction k with
  | zero => simp
  | succ k ih =>
    rw [List.range_succ, List.count_append, ih, List.count_singleton]
    simp only [beq_iff_eq]
    split_ifs <;> omega

theorem weightSum_ones (bs : List WeightedBackend) (h : ∀ b ∈ bs, b.Weight = 1) :
    weightSum bs = bs.length := by
  induction bs with
  | nil => rfl
  | cons b bs ih =>
    have hb := h b (List.mem_cons_self _ _)
    have ih1 := ih (fun x hx => h x (List.mem_cons_of_mem _ hx))
    simp only [weightSum, List.map_cons, List.sum_cons, List.length_cons] at ih1 ⊢
    rw [ih1, hb]; push_cast; ring

theorem ones_run (lb : WeightedLB)
    (hzero : ∀ b ∈ lb.backends, b.Healthy = true ∧ 0 < b.Weight ∧ b.CurrentWeight = 0)
    (hones : ∀ b ∈ lb.backends, b.Weight = 1)
    (hbound : weightSum lb.backends * weightSum lb.backends + weightSum lb.backends ≤ maxInt) :
    ∀ k : Nat, k ≤ lb.backends.length →
      SmoothInv lb.backends (List.range k) (lb.run k) ∧
      ∀ t, t < k → ∃ b : WeightedBackend, lb.backends[t]? = some b ∧
        (lb.run t).NextBackend.2 = b.URL := by
  have hfresh : ∀ b ∈ lb.backends, b.Healthy = true ∧ 0 < b.Weight :=
    fun b hb => ⟨(hzero b hb).1, (hzero b hb).2.1⟩
  have hW := weightSum_ones lb.backends hones
  have hwAt : ∀ i, i < lb.backends.length → weightAt lb.backends i = 1 := by
    intro i hi
    rw [weightAt_of_some _ i _ (List.getElem?_eq_getElem hi)]
    exact hones _ (List.getElem_mem hi)
  intro k
  induction k with
  | zero =>
    intro _
    exact ⟨SmoothInv_start lb hzero, fun t ht => absurd ht (Nat.not_lt_zero t)⟩
  | succ k ih =>
    intro hk
    have hkn : k < lb.backends.length := hk
    obtain ⟨hinv, hurls⟩ := ih (le_of_lt hkn)
    obtain ⟨j, b0, hb0, -, hurl, hmaxf, hfirstf, -, hinv1⟩ :=
      smooth_step lb.backends (List.range k) (lb.run k) hfresh hbound
        (by rw [List.length_range, hW]; exact_mod_cast hkn) hinv
    have hjn : j < lb.backends.length := getElem?_lt_length _ _ _ hb0
    have hn : (k : Int) < (lb.backends.length : Int) := by exact_mod_cast hkn
    have hjk : j = k := by
      have h1 := hmaxf k hkn
      rw [hwAt k hkn, hwAt j hjn, hW, List.length_range, count_range_eq, count_range_eq,
        if_neg (Nat.lt_irrefl k)] at h1
      by_cases hlt : j < k
      · rw [if_pos hlt] at h1
        push_cast at h1
        linarith
      · by_cases hgt : k < j
        · have h2 := hfirstf k hgt
          rw [hwAt k hkn, hwAt j hjn, hW, List.length_range, count_range_eq, count_range_eq,
            if_neg (Nat.lt_irrefl k), if_neg hlt] at h2
          exact absurd h2 (lt_irrefl _)
        · omega
    subst hjk
    rw [← List.range_succ] at hinv1
    refine ⟨hinv1, ?_⟩
    intro t ht
    by_cases htk : t < j
    · exact hurls t htk
    · have : t = j := by omega
      subst this
      exact ⟨b0, hb0, hurl⟩

theorem run_add (lb : WeightedLB) (a b : Nat) : lb.run (a + b) = (lb.run a).run b := by
  induction b with
  | zero => rfl
  | succ b ih =>
    show (lb.run (a + b)).NextBackend.1 = ((lb.run a).run b).NextBackend.1
    rw [ih]

theorem run_mod (lb : WeightedLB) (n : Nat) (h : lb.run n = lb) :
    ∀ t, lb.run t = lb.run (t % n) := by
  intro t
  induction t using Nat.strong_induction_on with
  | _ t ih =>
    by_cases hn : n = 0
    · subst hn; rw [Nat.mod_zero]
    by_cases ht : t < n
    · rw [Nat.mod_eq_of_lt ht]
    · have ht1 : n ≤ t := not_lt.1 ht
      have he : t = n + (t - n) := by omega
      rw [Nat.mod_eq_sub_mod ht1, ← ih (t - n) (by omega)]
      conv_lhs => rw [he, run_add, h]

theorem run_of_nil (lb : WeightedLB) (h : lb.backends = []) : ∀ t, lb.run t = lb := by
  intro t
  induction t with
  | zero => rfl
  | succ t ih =>
    show (lb.run t).NextBackend.1 = lb
    rw [ih]
    obtain ⟨bs, c⟩ := lb
    simp only at h
    subst h
    rfl

theorem ones_cyclic (lb : WeightedLB)
    (hzero : ∀ b ∈ lb.backends, b.Healthy = true ∧ 0 < b.Weight ∧ b.CurrentWeight = 0)
    (hones : ∀ b ∈ lb.backends, b.Weight = 1)
    (hbound : weightSum lb.backends * weightSum lb.backends + weightSum lb.backends ≤ maxInt) :
    ∀ t, (lb.run t).NextBackend.2 =
      (lb.backends.map (fun b => b.URL)).getD (t % lb.backends.length) "" := by
  intro t
  by_cases hnil : lb.backends = []
  · rw [run_of_nil lb hnil t]
    obtain ⟨bs, c⟩ := lb
    simp only at hnil
    subst hnil
    rfl
  · have hpos : 0 < lb.backends.length := List.length_pos.2 hnil
    have hround := (smooth_round lb hzero hbound).2
    rw [weightSum_ones lb.backends hones, Int.toNat_ofNat] at hround
    rw [run_mod lb lb.backends.length hround t]
    obtain ⟨b, hb, hurl⟩ := (ones_run lb hzero hones hbound lb.backends.length (le_refl _)).2
      (t % lb.backends.length) (Nat.mod_lt _ hpos)
    rw [hurl, List.getD_eq_getElem?_getD, List.getElem?_map, hb]
    rfl

theorem zip_replicate_map (urls : List String) :
    (urls.zip (List.replicate urls.length (1 : Int))).map
        (fun bw => ({ URL := bw.1, Weight := bw.2, CurrentWeight := 0, Healthy := true } :
          WeightedBackend)) =
      urls.map (fun u => { URL := u, Weight := 1, CurrentWeight := 0, Healthy := true }) := by
  induction urls with
  | nil => rfl
  | cons u urls ih => simp [List.replicate_succ, ih]

theorem NewWeightedLB_nil (urls : List String) :
    NewWeightedLB urls [] =
      { backends :=
          urls.map (fun u => { URL := u, Weight := 1, CurrentWeight := 0, Healthy := true }),
        current := 0 } := by
  cases urls with
  | nil => rfl
  | cons u urls =>
    unfold NewWeightedLB
    rw [if_pos (by simp)]
    show WeightedLB.mk _ 0 = _
    rw [zip_replicate_map]

theorem NewLoadBalancer_weighted (config : LoadBalancerConfig)
    (he : config.Enabled = true) (hb : config.Backends ≠ [])
    (hs : config.Strategy = "weighted") :
    NewLoadBalancer config = some (.weighted (NewWeightedLB config.Backends [])) := by
  have hl : config.Backends.length ≠ 0 := fun h => hb (List.length_eq_zero.1 h)
  unfold NewLoadBalancer
  rw [if_neg (by simp [he, hl]), hs, if_neg (by decide), if_neg (by decide), if_pos rfl]

/-- C27 fails on the code: the balancer made by `NewWeightedLB` over three backends with
the positive weights `maxInt`, `maxInt` and 2 has all backends healthy and all current
weights 0, and its weights add up to `2 ^ 64`, which the `int` sum of a pick wraps to 0.
The first two backends then always carry the same current weight and the earlier one wins
the tie: however many consecutive `NextBackend` calls are made, the second backend is never
returned, so in `2 ^ 64` consecutive calls it is returned 0 times and not `maxInt`
times. -/
theorem C27_wrapped_weight_sum_starves_a_backend :
    wrappedWeighted.backends =
      [{ URL := "http://a", Weight := maxInt, CurrentWeight := 0, Healthy := true },
       { URL := "http://b", Weight := maxInt, CurrentWeight := 0, Healthy := true },
       { URL := "http://c", Weight := 2, CurrentWeight := 0, Healthy := true }] ∧
    0 < maxInt ∧
    weightSum wrappedWeighted.backends = 18446744073709551616 ∧
    healthyWeight wrappedWeighted.backends = 0 ∧
    (∀ k : Nat, "http://b" ∉ wrappedWeighted.picks k) ∧
    (wrappedWeighted.picks 18446744073709551616).count "http://b" = 0 ∧
    (0 : Int) ≠ maxInt :=
  ⟨rfl, by decide, by decide, by decide, Starved_picks wrappedWeighted Starved_wrappedWeighted,
    List.count_eq_zero.2 (Starved_picks wrappedWeighted Starved_wrappedWeighted _),
    by decide⟩

/-- C27 (amended): for a weighted balancer whose backends are all healthy with positive
weights summing to `W` and whose current weights are all 0, with `W * W + W` no larger than
the largest `int` (so that no sum of a pick wraps).  Among the first `W` consecutive
`NextBackend` calls the backend at index `i` is selected exactly as many times as its
weight says; each of these calls returns the URL of the backend it selects; and after the
`W` calls the balancer is as at the start, all current weights 0 again.  When all weights
are 1, the call number `t` (from 0) returns the URL of the configured backend at index
`t` modulo the number of backends.  The factory builds such a balancer: for the strategy
`weighted` it returns the balancer of `NewWeightedLB` without weights, whose backends are
the configured URLs in order, each healthy with weight 1 and current weight 0. -/
theorem C27_smooth_weighted_fairness (lb : WeightedLB)
    (hzero : ∀ b ∈ lb.backends, b.Healthy = true ∧ 0 < b.Weight ∧ b.CurrentWeight = 0)
    (hbound : weightSum lb.backends * weightSum lb.backends + weightSum lb.backends ≤ maxInt) :
    (∀ (i : Nat) (b : WeightedBackend), lb.backends[i]? = some b →
      (((lb.selections (weightSum lb.backends).toNat).count (some i) : Nat) : Int) =
        b.Weight) ∧
    (∀ t : Nat, t < (weightSum lb.backends).toNat →
      ∃ (j : Nat) (b : WeightedBackend), (lb.run t).selected = some j ∧
        lb.backends[j]? = some b ∧ (lb.run t).NextBackend.2 = b.URL) ∧
    lb.run (weightSum lb.backends).toNat = lb ∧
    ((∀ b ∈ lb.backends, b.Weight = 1) →
      ∀ t : Nat, (lb.run t).NextBackend.2 =
        (lb.backends.map (fun b => b.URL)).getD (t % lb.backends.length) "") ∧
    (∀ config : LoadBalancerConfig, config.Enabled = true → config.Backends ≠ [] →
      config.Strategy = "weighted" →
      NewLoadBalancer config = some (.weighted (NewWeightedLB config.Backends [])) ∧
      NewWeightedLB config.Backends [] =
        { backends := config.Backends.map
            (fun u => { URL := u, Weight := 1, CurrentWeight := 0, Healthy := true }),
          current := 0 }) := by
  have hW0 : 0 ≤ weightSum lb.backends :=
    weightSum_nonneg lb.backends (fun b hb => ⟨(hzero b hb).1, (hzero b hb).2.1⟩)
  obtain ⟨-, -, -, -, -, hurls⟩ := smooth_run lb hzero hbound (weightSum lb.backends).toNat
    (le_of_eq (Int.toNat_of_nonneg hW0))
  exact ⟨(smooth_round lb hzero hbound).1, hurls, (smooth_round lb hzero hbound).2,
    fun hones => ones_cyclic lb hzero hones hbound,
    fun config he hb hs =>
      ⟨NewLoadBalancer_weighted config he hb hs, NewWeightedLB_nil config.Backends⟩⟩

/-- C27 (amended) on the balancer with the weights 5, 1 and 1, whose sum is 7: the seven
consecutive calls return the first backend five times and the others once each, and
leave the balancer as at the start. -/
theorem C27_smooth_weighted_fairness_witness :
    (∀ b ∈ smoothWeighted.backends,
      b.Healthy = true ∧ 0 < b.Weight ∧ b.CurrentWeight = 0) ∧
    weightSum smoothWeighted.backends * weightSum smoothWeighted.backends +
      weightSum smoothWeighted.backends ≤ maxInt ∧
    (weightSum smoothWeighted.backends).toNat = 7 ∧
    smoothWeighted.picks 7 =
      ["http://a", "http://a", "http://b", "http://a", "http://c", "http://a", "http://a"] ∧
    (∀ (i : Nat) (b : WeightedBackend), smoothWeighted.backends[i]? = some b →
      (((smoothWeighted.selections (weightSum smoothWeighted.backends).toNat).count
        (some i) : Nat) : Int) = b.Weight) ∧
    smoothWeighted.run (weightSum smoothWeighted.backends).toNat = smoothWeighted :=
  ⟨by decide, by decide, by decide, by decide,
    (C27_smooth_weighted_fairness smoothWeighted (by decide) (by decide)).1,
    (C27_smooth_weighted_fairness smoothWeighted (by decide) (by decide)).2.2.1⟩

end Gateway
